import Mathlib

/-!
Verification of the cross-linked sparse matrix engine of `matrix.py`.

The Python program stores the non-zero entries of a matrix as `Node`
objects, each linked into a singly-linked row chain (`right`) and a
singly-linked column chain (`down`), with per-row and per-column head
pointer arrays `_prow` and `_pcol`.

The shallow embedding below models the mutable object graph as an arena:
every allocated `Node` lives at a fixed index of `Matrix.arena`, and a
Python object reference is an arena index (`some i`) or `None` (`none`).
Removed nodes stay in the arena as unreachable garbage, exactly as
unreferenced Python objects would; their field values remain readable,
which matters because `__add__` keeps using a cursor that can point at a
removed node.  Mutation is explicit state passing.  A loop gets a `Nat`
fuel argument; every operation that can raise (an `IndexError` from an
out-of-range list access, an `AttributeError` from dereferencing `None`)
or fail to terminate returns `Option` (with `none` for abnormal
termination), and the public operations that distinguish the deliberate
`ValueError` dimension check return `Except PyErr`.  Numeric values are
modelled as `Int`; all arithmetic performed by the program on the inputs
considered here is exact, and the program only ever adds, multiplies and
compares with zero.
-/

set_option linter.unusedVariables false

namespace SpLL

/-- Errors a public operation of `matrix.py` can raise: the deliberate
`ValueError` of the dimension checks, and an abnormal termination
(`IndexError` from a list access past the end, or `AttributeError` from
dereferencing `None`). -/
inductive PyErr where
  | valueError : PyErr
  | indexError : PyErr
deriving DecidableEq, Repr

/-- One non-zero entry of the matrix, mirroring class `Node`: its
coordinates `row`, `col`, its value `el`, and the arena indices of the
next entry to the right in the same row and the next entry below in the
same column (`none` for Python's `None`). -/
structure Node where
  row : Nat
  col : Nat
  el : Int
  right : Option Nat
  down : Option Nat
deriving DecidableEq, Repr

/-- The matrix state, mirroring class `Matrix`: the fixed dimensions, the
row head pointers `_prow`, the column head pointers `_pcol`, and the arena
holding every `Node` ever allocated. -/
structure Matrix where
  nrows : Nat
  ncols : Nat
  prow : List (Option Nat)
  pcol : List (Option Nat)
  arena : List Node
deriving DecidableEq, Repr

/-- `Matrix(nrows, ncols)`: every head pointer is `None`, no nodes. -/
def Matrix.mk0 (nrows ncols : Nat) : Matrix :=
  ⟨nrows, ncols, List.replicate nrows none, List.replicate ncols none, []⟩

/-- Default node, used only to make the field accessors below total. -/
def dNode : Node := ⟨0, 0, 0, none, none⟩

/-- The node at arena index `i` (default for an out-of-range index; every
index reached by a chain walk is in range). -/
def nodeAt (M : Matrix) (i : Nat) : Node := M.arena.getD i dNode

/-- The `right` field of the node at index `i`. -/
def rightOf (M : Matrix) (i : Nat) : Option Nat := (nodeAt M i).right

/-- The `down` field of the node at index `i`. -/
def downOf (M : Matrix) (i : Nat) : Option Nat := (nodeAt M i).down

/-- The `row` field of the node at index `i`. -/
def rowOf (M : Matrix) (i : Nat) : Nat := (nodeAt M i).row

/-- The `col` field of the node at index `i`. -/
def colOf (M : Matrix) (i : Nat) : Nat := (nodeAt M i).col

/-- The `el` field of the node at index `i`. -/
def elOf (M : Matrix) (i : Nat) : Int := (nodeAt M i).el

/-- Python list assignment `xs[i] = v`: `IndexError` when out of range. -/
def setAt {α : Type} (xs : List α) (i : Nat) (v : α) : Option (List α) :=
  if i < xs.length then some (xs.set i v) else none

/-- The predecessor-tracking walk shared by `_findnode` and the column
search of `_insertnode`: starting from pointer `p` with previous node `q`,
follow `link` while `key node < lim`, keeping the last visited node.
Returns `(p, q)` at the first node failing `key < lim` (with `p = none` at
the end of the chain); `none` models abnormal termination. -/
def walk (M : Matrix) (link : Node → Option Nat) (key : Node → Nat) (lim : Nat) :
    Nat → Option Nat → Option Nat → Option (Option Nat × Option Nat)
  | 0, _, _ => none
  | _ + 1, none, q => some (none, q)
  | fuel + 1, some i, q =>
    match M.arena[i]? with
    | none => none
    | some nd =>
      if key nd < lim then walk M link key lim fuel (link nd) (some i)
      else some (some i, q)

/-- `Matrix._findnode(row, col)`: returns the node for `(row, col)` and
the previous node in the same row, each `none` when absent. -/
def Matrix.findnode (M : Matrix) (row col : Nat) : Option (Option Nat × Option Nat) :=
  match M.prow[row]? with
  | none => none
  | some p0 =>
    match walk M Node.right Node.col col (M.arena.length + 1) p0 none with
    | none => none
    | some (p?, q?) =>
      match p? with
      | none => some (none, q?)
      | some i =>
        match M.arena[i]? with
        | none => none
        | some nd => if nd.col = col then some (some i, q?) else some (none, q?)

/-- Final step of `_insertnode`: link the new node `nIdx` into the column
chain above the found position; `m? = some k` sets `k.down = n`, else
`self._pcol[col] = n`.  Both branches of the Python column-splice case
analysis perform exactly this step (they differ only in `n.down`, which
has been set before calling this). -/
def linkAbove (M : Matrix) (col nIdx : Nat) (m? : Option Nat) : Option Matrix :=
  match m? with
  | some k =>
    match M.arena[k]? with
    | none => none
    | some ndK => some { M with arena := M.arena.set k ({ ndK with down := some nIdx }) }
  | none => (setAt M.pcol col (some nIdx)).map fun pc => { M with pcol := pc }

/-- Column part of `_insertnode`: walk `self._pcol[col]` via `down` until
the row index matches or exceeds `row`, then splice node `nIdx` in.  The
new node's `down` field is still `none` at this point. -/
def insertCol (M : Matrix) (row col nIdx : Nat) : Option Matrix :=
  match M.pcol[col]? with
  | none => none
  | some p0 =>
    match walk M Node.down Node.row row (M.arena.length + 1) p0 none with
    | none => none
    | some (p?, m?) =>
      match p? with
      | none => linkAbove M col nIdx m?
      | some pi =>
        match M.arena[pi]? with
        | none => none
        | some ndP =>
          if ndP.row = row then linkAbove M col nIdx m?
          else
            match M.arena[nIdx]? with
            | none => none
            | some ndN =>
              linkAbove { M with arena := M.arena.set nIdx ({ ndN with down := some pi }) }
                col nIdx m?

/-- `Matrix._insertnode(row, col, q, el)`: allocate a new node, splice it
into the row chain after `q` (or at `self._prow[row]` when `q` is
`None`), then splice it into the column chain at its sorted position. -/
def Matrix.insertnode (M : Matrix) (row col : Nat) (q? : Option Nat) (el : Int) :
    Option Matrix :=
  let nIdx := M.arena.length
  match q? with
  | some j =>
    match M.arena[j]? with
    | none => none
    | some ndJ =>
      let ar1 : List Node := (M.arena ++ [(⟨row, col, el, ndJ.right, none⟩ : Node)]).set j
        ({ ndJ with right := some nIdx })
      insertCol { M with arena := ar1 } row col nIdx
  | none =>
    match M.prow[row]? with
    | none => none
    | some h =>
      (setAt M.prow row (some nIdx)).bind fun pr =>
        insertCol { M with arena := M.arena ++ [⟨row, col, el, h, none⟩], prow := pr }
          row col nIdx

/-- The column-predecessor search of `_removenode`: `while n.row != p.row:
m = n; n = n.down`, returning the final `m`.  Dereferencing `n` when it
has become `None` is the `AttributeError` case. -/
def removeColWalk (M : Matrix) (targetRow : Nat) :
    Nat → Option Nat → Option Nat → Option (Option Nat)
  | 0, _, _ => none
  | fuel + 1, n?, m? =>
    match n? with
    | none => none
    | some i =>
      match M.arena[i]? with
      | none => none
      | some nd =>
        if nd.row = targetRow then some m?
        else removeColWalk M targetRow fuel nd.down (some i)

/-- Column-unlink phase of `_removenode`: re-derive the column
predecessor of node `pi` from `self._pcol[p.col]` and bypass `pi`
(either by moving the column head pointer or by redirecting the
predecessor's `down`). -/
def removeColPhase (Ma : Matrix) (pi : Nat) : Option Matrix :=
  match Ma.arena[pi]? with
  | none => none
  | some ndP2 =>
    match Ma.pcol[ndP2.col]? with
    | none => none
    | some h0 =>
      if h0 = some pi then
        (setAt Ma.pcol ndP2.col ndP2.down).map fun pc => { Ma with pcol := pc }
      else
        match removeColWalk Ma ndP2.row (Ma.arena.length + 1) h0 none with
        | none => none
        | some m? =>
          match m? with
          | none => none
          | some k =>
            match Ma.arena[k]? with
            | none => none
            | some ndK =>
              some { Ma with arena := Ma.arena.set k ({ ndK with down := ndP2.down }) }

/-- `Matrix._removenode(p, q)`: unlink node `p` from its row chain using
the given row predecessor `q`, then from its column chain by re-deriving
the column predecessor from `self._pcol[p.col]`.  (The Python source
branches on `p.right is not None` and `p.down is not None` only to assign
the same value in both branches; the assignments are written directly.) -/
def Matrix.removenode (M : Matrix) (p? q? : Option Nat) : Option Matrix :=
  match p? with
  | none => none
  | some pi =>
    match M.arena[pi]? with
    | none => none
    | some ndP =>
      let step1 : Option Matrix :=
        match q? with
        | some j =>
          match M.arena[j]? with
          | none => none
          | some ndJ => some { M with arena := M.arena.set j ({ ndJ with right := ndP.right }) }
        | none => (setAt M.prow ndP.row ndP.right).map fun pr => { M with prow := pr }
      step1.bind fun Ma => removeColPhase Ma pi

/-- `Matrix.__getitem__`: `_findnode`, then `0.0` if absent else the
stored value. -/
def Matrix.getitem (M : Matrix) (row col : Nat) : Option Int :=
  match M.findnode row col with
  | none => none
  | some (none, _) => some 0
  | some (some i, _) => (M.arena[i]?).map Node.el

/-- `Matrix.__setitem__`: `_findnode`; insert when absent and the value is
non-zero, remove when present and the value is zero, otherwise overwrite
in place (or do nothing). -/
def Matrix.setitem (M : Matrix) (row col : Nat) (el : Int) : Option Matrix :=
  match M.findnode row col with
  | none => none
  | some (p?, q?) =>
    match p? with
    | none => if el = 0 then some M else M.insertnode row col q? el
    | some pi =>
      if el = 0 then M.removenode (some pi) q?
      else
        match M.arena[pi]? with
        | none => none
        | some nd => some { M with arena := M.arena.set pi ({ nd with el := el }) }

/-- Apply a sequence of `__setitem__` calls in order. -/
def applySets (M : Matrix) : List (Nat × Nat × Int) → Option Matrix
  | [] => some M
  | (r, c, v) :: ops => (M.setitem r c v).bind fun M1 => applySets M1 ops

/-- `identity(n)`: an `n`-by-`n` matrix built by setting `1.0` on the
diagonal through `__setitem__`. -/
def identity (n : Nat) : Option Matrix :=
  applySets (Matrix.mk0 n n) ((List.range n).map fun i => (i, i, 1))

/-- The list of arena indices of the chain starting at pointer `p`,
following `link`; `none` on a dangling index or exhausted fuel. -/
def chainAux (M : Matrix) (link : Node → Option Nat) : Nat → Option Nat → Option (List Nat)
  | _, none => some []
  | 0, some _ => none
  | fuel + 1, some i =>
    match M.arena[i]? with
    | none => none
    | some nd => (chainAux M link fuel (link nd)).map fun l => i :: l

/-- The row chain of row `r`: the indices reachable from `self._prow[r]`
via `right`. -/
def Matrix.rowChain (M : Matrix) (r : Nat) : Option (List Nat) :=
  (M.prow[r]?).bind fun p => chainAux M Node.right (M.arena.length + 1) p

/-- The column chain of column `c`: the indices reachable from
`self._pcol[c]` via `down`. -/
def Matrix.colChain (M : Matrix) (c : Nat) : Option (List Nat) :=
  (M.pcol[c]?).bind fun p => chainAux M Node.down (M.arena.length + 1) p

/-- The row chain of row `r` as a plain list. -/
def Matrix.rows (M : Matrix) (r : Nat) : List Nat := (M.rowChain r).getD []

/-- The column chain of column `c` as a plain list. -/
def Matrix.cols (M : Matrix) (c : Nat) : List Nat := (M.colChain c).getD []

/-- The unguarded scan for the first non-empty head pointer used by
`__mul__`, `__rmul__`, `transposed` and `__add__`:
`i = 0; while heads[i] is None: i += 1` (the initial read of `heads[0]`
included).  Running past the end of `heads` is the `IndexError` case. -/
def skipLoop (heads : List (Option Nat)) : Nat → Nat → Option Nat
  | 0, _ => none
  | fuel + 1, i =>
    match heads[i]? with
    | none => none
    | some none => skipLoop heads fuel (i + 1)
    | some (some _) => some i

/-- The interior empty-row/column skip of `transposed` and `__add__`:
`while heads[i] is None and i != last: i += 1`, returning the final `i`. -/
def headSkip (heads : List (Option Nat)) (last : Nat) : Nat → Nat → Option Nat
  | 0, _ => none
  | fuel + 1, i =>
    match heads[i]? with
    | none => none
    | some (some _) => some i
    | some none => if i = last then some i else headSkip heads last fuel (i + 1)

/-- Row accumulation of `__mul__`: `while q is not None and
q.col != self.ncols: entry += q.el * rhs[q.col]; q = q.right`. -/
def rowDot (M : Matrix) (v : List Int) : Nat → Option Nat → Int → Option Int
  | 0, _, _ => none
  | _ + 1, none, acc => some acc
  | fuel + 1, some i, acc =>
    match M.arena[i]? with
    | none => none
    | some nd =>
      if nd.col = M.ncols then some acc
      else
        match v[nd.col]? with
        | none => none
        | some x => rowDot M v fuel nd.right (acc + nd.el * x)

/-- Python `result[i] += x` on a dense list. -/
def listAddAt (xs : List Int) (i : Nat) (x : Int) : Option (List Int) :=
  match xs[i]? with
  | none => none
  | some y => some (xs.set i (y + x))

/-- Main loop of `__mul__`: process rows from the first non-empty one;
row `nrows - 1` is processed by the trailing copy of the body. -/
def mulLoop (M : Matrix) (v : List Int) :
    Nat → Nat → Option Nat → List Int → Option (List Int)
  | 0, _, _, _ => none
  | fuel + 1, i, p?, result =>
    if i = M.nrows - 1 then
      (rowDot M v (M.arena.length + 1) p? 0).bind fun e => listAddAt result i e
    else
      (rowDot M v (M.arena.length + 1) p? 0).bind fun e =>
        (listAddAt result i e).bind fun result1 =>
          match M.prow[i + 1]? with
          | none => none
          | some p1 => mulLoop M v fuel (i + 1) p1 result1

/-- `Matrix.__mul__` (matrix times vector from the right). -/
def Matrix.mulVec (M : Matrix) (v : List Int) : Except PyErr (List Int) :=
  if M.ncols ≠ v.length then .error .valueError
  else
    match skipLoop M.prow (M.prow.length + 1) 0 with
    | none => .error .indexError
    | some i =>
      match M.prow[i]? with
      | none => .error .indexError
      | some p =>
        match mulLoop M v (M.nrows + M.prow.length + 2) i p (List.replicate M.nrows 0) with
        | none => .error .indexError
        | some r => .ok r

/-- Column accumulation of `__rmul__`: `while q is not None and
q.row != self.nrows: entry += lhs[q.row] * q.el; q = q.down`. -/
def colDot (M : Matrix) (v : List Int) : Nat → Option Nat → Int → Option Int
  | 0, _, _ => none
  | _ + 1, none, acc => some acc
  | fuel + 1, some i, acc =>
    match M.arena[i]? with
    | none => none
    | some nd =>
      if nd.row = M.nrows then some acc
      else
        match v[nd.row]? with
        | none => none
        | some x => colDot M v fuel nd.down (acc + x * nd.el)

/-- Main loop of `__rmul__`, symmetric to `mulLoop` over columns. -/
def rmulLoop (M : Matrix) (v : List Int) :
    Nat → Nat → Option Nat → List Int → Option (List Int)
  | 0, _, _, _ => none
  | fuel + 1, i, p?, result =>
    if i = M.ncols - 1 then
      (colDot M v (M.arena.length + 1) p? 0).bind fun e => listAddAt result i e
    else
      (colDot M v (M.arena.length + 1) p? 0).bind fun e =>
        (listAddAt result i e).bind fun result1 =>
          match M.pcol[i + 1]? with
          | none => none
          | some p1 => rmulLoop M v fuel (i + 1) p1 result1

/-- `Matrix.__rmul__` (vector times matrix from the left). -/
def Matrix.rmulVec (M : Matrix) (v : List Int) : Except PyErr (List Int) :=
  if M.nrows ≠ v.length then .error .valueError
  else
    match skipLoop M.pcol (M.pcol.length + 1) 0 with
    | none => .error .indexError
    | some i =>
      match M.pcol[i]? with
      | none => .error .indexError
      | some p =>
        match rmulLoop M v (M.ncols + M.pcol.length + 2) i p (List.replicate M.ncols 0) with
        | none => .error .indexError
        | some r => .ok r

/-- Inner loop of `transposed`: copy the rest of source column `i` into
result row `i`: `while q is not None and q.row != self.nrows:
result._insertnode(i, q.row, m, q.el); m = m.right; q = q.down`. -/
def transCopyCol (src : Matrix) (i : Nat) :
    Nat → Matrix → Option Nat → Option Nat → Option Matrix
  | 0, _, _, _ => none
  | fuel + 1, res, m?, q? =>
    match q? with
    | none => some res
    | some qi =>
      match src.arena[qi]? with
      | none => none
      | some ndQ =>
        if ndQ.row = src.nrows then some res
        else
          (res.insertnode i ndQ.row m? ndQ.el).bind fun res1 =>
            match m? with
            | none => none
            | some mi =>
              match res1.arena[mi]? with
              | none => none
              | some ndM => transCopyCol src i fuel res1 ndM.right ndQ.down

/-- Trailing loop of `transposed` for the last column:
`while p is not None and p.row != self.nrows: insert;
if m is None: m = result._prow[i] else m = m.right; p = p.down`. -/
def transFinal (src : Matrix) (i : Nat) :
    Nat → Matrix → Option Nat → Option Nat → Option Matrix
  | 0, _, _, _ => none
  | fuel + 1, res, p?, m? =>
    match p? with
    | none => some res
    | some pi =>
      match src.arena[pi]? with
      | none => none
      | some ndP =>
        if ndP.row = src.nrows then some res
        else
          (res.insertnode i ndP.row m? ndP.el).bind fun res1 =>
            match m? with
            | none =>
              match res1.prow[i]? with
              | none => none
              | some m1 => transFinal src i fuel res1 ndP.down m1
            | some mi =>
              match res1.arena[mi]? with
              | none => none
              | some ndM => transFinal src i fuel res1 ndP.down ndM.right

/-- Main loop of `transposed`: `while i != self.ncols - 1`, copying each
non-empty source column into the corresponding result row, then skipping
interior empty columns. -/
def transMain (src : Matrix) :
    Nat → Nat → Matrix → Option Nat → Option Nat → Option Matrix
  | 0, _, _, _, _ => none
  | fuel + 1, i, res, p?, m? =>
    if i = src.ncols - 1 then
      transFinal src i (src.arena.length + 2) res p? m?
    else
      match p? with
      | none => none
      | some pi =>
        match src.arena[pi]? with
        | none => none
        | some ndP =>
          (res.insertnode i ndP.row m? ndP.el).bind fun res1 =>
            match res1.prow[i]? with
            | none => none
            | some m1 =>
              (transCopyCol src i (src.arena.length + 2) res1 m1 ndP.down).bind fun res2 =>
                match headSkip src.pcol (src.ncols - 1) (src.pcol.length + 2) (i + 1) with
                | none => none
                | some i2 =>
                  match src.pcol[i2]?, res2.prow[i2]? with
                  | some p2, some m2 => transMain src fuel i2 res2 p2 m2
                  | _, _ => none

/-- `Matrix.transposed`. -/
def Matrix.transposed (M : Matrix) : Except PyErr Matrix :=
  let res := Matrix.mk0 M.ncols M.nrows
  match skipLoop M.pcol (M.pcol.length + 1) 0 with
  | none => .error .indexError
  | some i =>
    match M.pcol[i]?, res.prow[i]? with
    | some p, some m =>
      match transMain M (M.ncols + 2) i res p m with
      | none => .error .indexError
      | some r => .ok r
    | _, _ => .error .indexError

/-- Inner loop of phase one of `__add__` (copy of the first operand):
`while q is not None and q.col != self.ncols:
result._insertnode(i, q.col, m, q.el); m = m.right; q = q.right`. -/
def addCopyRow (A : Matrix) (i : Nat) :
    Nat → Matrix → Option Nat → Option Nat → Option Matrix
  | 0, _, _, _ => none
  | fuel + 1, res, m?, q? =>
    match q? with
    | none => some res
    | some qi =>
      match A.arena[qi]? with
      | none => none
      | some ndQ =>
        if ndQ.col = A.ncols then some res
        else
          (res.insertnode i ndQ.col m? ndQ.el).bind fun res1 =>
            match m? with
            | none => none
            | some mi =>
              match res1.arena[mi]? with
              | none => none
              | some ndM => addCopyRow A i fuel res1 ndM.right ndQ.right

/-- Trailing loop of phase one of `__add__` for the last row. -/
def addFinal1 (A : Matrix) (i : Nat) :
    Nat → Matrix → Option Nat → Option Nat → Option Matrix
  | 0, _, _, _ => none
  | fuel + 1, res, p?, m? =>
    match p? with
    | none => some res
    | some pi =>
      match A.arena[pi]? with
      | none => none
      | some ndP =>
        if ndP.col = A.ncols then some res
        else
          (res.insertnode i ndP.col m? ndP.el).bind fun res1 =>
            match m? with
            | none =>
              match res1.prow[i]? with
              | none => none
              | some m1 => addFinal1 A i fuel res1 ndP.right m1
            | some mi =>
              match res1.arena[mi]? with
              | none => none
              | some ndM => addFinal1 A i fuel res1 ndP.right ndM.right

/-- Main loop of phase one of `__add__`: copy the first operand's rows
into the result, skipping interior empty rows. -/
def addMain1 (A : Matrix) :
    Nat → Nat → Matrix → Option Nat → Option Nat → Option Matrix
  | 0, _, _, _, _ => none
  | fuel + 1, i, res, p?, m? =>
    if i = A.nrows - 1 then
      addFinal1 A i (A.arena.length + 2) res p? m?
    else
      match p? with
      | none => none
      | some pi =>
        match A.arena[pi]? with
        | none => none
        | some ndP =>
          (res.insertnode i ndP.col m? ndP.el).bind fun res1 =>
            match res1.prow[i]? with
            | none => none
            | some m1 =>
              (addCopyRow A i (A.arena.length + 2) res1 m1 ndP.right).bind fun res2 =>
                match headSkip A.prow (A.nrows - 1) (A.prow.length + 2) (i + 1) with
                | none => none
                | some i2 =>
                  match A.prow[i2]?, res2.prow[i2]? with
                  | some p2, some m2 => addMain1 A fuel i2 res2 p2 m2
                  | _, _ => none

/-- Merge-insert step of phase two of `__add__`:
`result._insertnode(i, q.col, m, q.el); m = m.right`. -/
def mergeInsertAdv (i qCol : Nat) (qEl : Int) (res : Matrix) (m? : Option Nat) :
    Option (Matrix × Option Nat) :=
  (res.insertnode i qCol m? qEl).bind fun res1 =>
    match m? with
    | none => none
    | some mi =>
      match res1.arena[mi]? with
      | none => none
      | some ndM => some (res1, ndM.right)

/-- The cancel-or-accumulate step shared by the merge of `__add__` on an
equal column: when the values cancel exactly, `_findnode` then
`_removenode` on the result; otherwise add into the node in place. -/
def mergeCombine (i : Nat) (qEl : Int) (res : Matrix) (nj : Nat) : Option Matrix :=
  match res.arena[nj]? with
  | none => none
  | some ndN2 =>
    if ndN2.el + qEl = 0 then
      match res.findnode i ndN2.col with
      | none => none
      | some (a?, b?) => res.removenode a? b?
    else some { res with arena := res.arena.set nj ({ ndN2 with el := ndN2.el + qEl }) }

/-- The inner cursor walk of the merge in phase two of `__add__`:
`n = m; while n is not None and q.col > n.col: n = n.right; ...` with the
trailing `if n is not None: m = n`.  Returns the result matrix and the
final `m`. -/
def mergeWalk (i qCol : Nat) (qEl : Int) :
    Nat → Matrix → Option Nat → Option Nat → Option (Matrix × Option Nat)
  | 0, _, _, _ => none
  | fuel + 1, res, m?, n? =>
    match n? with
    | none => some (res, m?)
    | some ni =>
      match res.arena[ni]? with
      | none => none
      | some ndN =>
        if qCol > ndN.col then
          match ndN.right with
          | none =>
            (mergeInsertAdv i qCol qEl res m?).bind fun rm =>
              mergeWalk i qCol qEl fuel rm.1 rm.2 rm.2
          | some nj =>
            match res.arena[nj]? with
            | none => none
            | some ndN2 =>
              if ndN2.col > qCol then
                (mergeInsertAdv i qCol qEl res m?).bind fun rm =>
                  mergeWalk i qCol qEl fuel rm.1 rm.2 rm.2
              else if ndN2.col = qCol then
                (mergeCombine i qEl res nj).bind fun res1 =>
                  mergeWalk i qCol qEl fuel res1 (some nj) (some nj)
              else
                mergeWalk i qCol qEl fuel res (some nj) (some nj)
        else some (res, m?)

/-- Merge one second-operand entry (column `qCol`, value `qEl`) into
result row `i` of `__add__`, given the current cursor `m`. -/
def mergeStep (i qCol : Nat) (qEl : Int) (fuel : Nat) (res : Matrix) (m? : Option Nat) :
    Option (Matrix × Option Nat) :=
  match m? with
  | none =>
    (res.insertnode i qCol none qEl).bind fun res1 =>
      match res1.prow[i]? with
      | none => none
      | some m1 => some (res1, m1)
  | some mi =>
    match res.arena[mi]? with
    | none => none
    | some ndM =>
      if ndM.col > qCol then
        (res.insertnode i qCol none qEl).bind fun res1 =>
          match res1.prow[i]? with
          | none => none
          | some m1 => some (res1, m1)
      else if ndM.col = qCol then
        if ndM.el + qEl = 0 then
          match res.findnode i ndM.col with
          | none => none
          | some (a?, b?) => (res.removenode a? b?).map fun res1 => (res1, m?)
        else
          some ({ res with arena := res.arena.set mi ({ ndM with el := ndM.el + qEl }) }, m?)
      else
        mergeWalk i qCol qEl fuel res m? m?

/-- Phase-two row loop of `__add__`: merge the second operand's row `i`
into the result: `while q is not None and q.col != self.ncols:
merge one entry; q = q.right`. -/
def mergeRow (B : Matrix) (selfNcols i : Nat) :
    Nat → Matrix → Option Nat → Option Nat → Option (Matrix × Option Nat)
  | 0, _, _, _ => none
  | fuel + 1, res, m?, q? =>
    match q? with
    | none => some (res, m?)
    | some qi =>
      match B.arena[qi]? with
      | none => none
      | some ndQ =>
        if ndQ.col = selfNcols then some (res, m?)
        else
          (mergeStep i ndQ.col ndQ.el (res.arena.length + 8) res m?).bind fun rm =>
            mergeRow B selfNcols i fuel rm.1 rm.2 ndQ.right

/-- Main loop of phase two of `__add__`, over the second operand's
non-empty rows (the loop guards use the first operand's dimensions). -/
def addMain2 (A B : Matrix) :
    Nat → Nat → Matrix → Option Nat → Option Nat → Option Matrix
  | 0, _, _, _, _ => none
  | fuel + 1, i, res, p?, m? =>
    if i = A.nrows - 1 then
      (mergeRow B A.ncols i (B.arena.length + 2) res m? p?).map fun rm => rm.1
    else
      (mergeRow B A.ncols i (B.arena.length + 2) res m? p?).bind fun rm =>
        match headSkip B.prow (A.nrows - 1) (B.prow.length + 2) (i + 1) with
        | none => none
        | some i2 =>
          match B.prow[i2]?, rm.1.prow[i2]? with
          | some p2, some m2 => addMain2 A B fuel i2 rm.1 p2 m2
          | _, _ => none

/-- Body of `__add__` after the dimension check: copy the first operand,
then merge the second. -/
def addBody (A B : Matrix) : Option Matrix :=
  let res := Matrix.mk0 A.nrows A.ncols
  match skipLoop A.prow (A.prow.length + 1) 0 with
  | none => none
  | some i =>
    match A.prow[i]?, res.prow[i]? with
    | some p, some m =>
      (addMain1 A (A.nrows + 2) i res p m).bind fun res1 =>
        match skipLoop B.prow (B.prow.length + 1) 0 with
        | none => none
        | some i2 =>
          match B.prow[i2]?, res1.prow[i2]? with
          | some p2, some m2 => addMain2 A B (A.nrows + 2) i2 res1 p2 m2
          | _, _ => none
    | _, _ => none

/-- `Matrix.__add__`. -/
def Matrix.add (A B : Matrix) : Except PyErr Matrix :=
  if A.nrows ≠ B.nrows ∨ A.ncols ≠ B.ncols then .error .valueError
  else
    match addBody A B with
    | none => .error .indexError
    | some r => .ok r

/-- Per-row comparison loop of `__eq__`: identical `(col, el)` pairs in
traversal order, both chains exhausting together. -/
def eqRow (A B : Matrix) : Nat → Option Nat → Option Nat → Option Bool
  | 0, _, _ => none
  | fuel + 1, p1?, p2? =>
    match p1?, p2? with
    | some i, some j =>
      match A.arena[i]?, B.arena[j]? with
      | some n1, some n2 =>
        if n1.col ≠ n2.col ∨ n1.el ≠ n2.el then some false
        else eqRow A B fuel n1.right n2.right
      | _, _ => none
    | none, none => some true
    | _, _ => some false

/-- Row iteration of `__eq__` over `range(self.nrows)`. -/
def eqRows (A B : Matrix) : Nat → Nat → Option Bool
  | 0, _ => none
  | fuel + 1, r =>
    if r = A.nrows then some true
    else
      match A.prow[r]?, B.prow[r]? with
      | some p1, some p2 =>
        match eqRow A B (A.arena.length + B.arena.length + 2) p1 p2 with
        | none => none
        | some false => some false
        | some true => eqRows A B fuel (r + 1)
      | _, _ => none

/-- `Matrix.__eq__`. -/
def Matrix.beq (A B : Matrix) : Option Bool :=
  if A.nrows ≠ B.nrows ∨ A.ncols ≠ B.ncols then some false
  else eqRows A B (A.nrows + 1) 0

instance {ε α : Type} [DecidableEq ε] [DecidableEq α] : DecidableEq (Except ε α)
  | .error e, .error f =>
    if h : e = f then .isTrue (congrArg Except.error h)
    else .isFalse fun hh => h (Except.error.inj hh)
  | .error _, .ok _ => .isFalse Except.noConfusion
  | .ok _, .error _ => .isFalse Except.noConfusion
  | .ok x, .ok y =>
    if h : x = y then .isTrue (congrArg Except.ok h)
    else .isFalse fun hh => h (Except.ok.inj hh)

/-- List-segment predicate for a singly-linked chain in the arena:
starting from pointer `p` and repeatedly following `next`, the chain
visits exactly the indices of `l` (all below `bound`) and then holds the
pointer `t`. -/
def LSeg (next : Nat → Option Nat) (bound : Nat) : Option Nat → List Nat → Option Nat → Prop
  | p, [], t => p = t
  | p, i :: l, t => p = some i ∧ i < bound ∧ LSeg next bound (next i) l t

/-- Boolean check that a list of arena indices is strictly increasing
under `key`. -/
def sortedByB (key : Nat → Nat) : List Nat → Bool
  | [] => true
  | [_] => true
  | i :: j :: l => decide (key i < key j) && sortedByB key (j :: l)

/-- Boolean form of invariant I1 for row `r`: the row chain exists, all
its nodes carry row index `r` and an in-range column, and columns
strictly increase along it. -/
def rowOkB (M : Matrix) (r : Nat) : Bool :=
  match M.rowChain r with
  | none => false
  | some l =>
    l.all (fun i => decide (rowOf M i = r) && decide (colOf M i < M.ncols)) &&
      sortedByB (colOf M) l

/-- Boolean form of invariant I2 for column `c`. -/
def colOkB (M : Matrix) (c : Nat) : Bool :=
  match M.colChain c with
  | none => false
  | some l =>
    l.all (fun i => decide (colOf M i = c) && decide (rowOf M i < M.nrows)) &&
      sortedByB (rowOf M) l

/-- Boolean form of invariant I4: every node reachable from a row head is
reachable from a column head and conversely. -/
def sameSetB (M : Matrix) : Bool :=
  ((List.range M.nrows).all fun r => (M.rows r).all fun i =>
    (List.range M.ncols).any fun c => decide (i ∈ M.cols c)) &&
  ((List.range M.ncols).all fun c => (M.cols c).all fun i =>
    (List.range M.nrows).any fun r => decide (i ∈ M.rows r))

/-- Decidable well-formedness of a matrix state: consistent head-array
lengths together with the spec's structural invariants I1, I2 and I4. -/
def Matrix.wfb (M : Matrix) : Bool :=
  (M.prow.length == M.nrows) && (M.pcol.length == M.ncols) &&
  ((List.range M.nrows).all fun r => rowOkB M r) &&
  ((List.range M.ncols).all fun c => colOkB M c) &&
  sameSetB M

/-- Propositional form of the well-formedness invariant, the working
form used by the preservation proofs (see `wfb_iff` for the equivalence
with the decidable `Matrix.wfb`). -/
structure Matrix.WfP (M : Matrix) : Prop where
  hprow : M.prow.length = M.nrows
  hpcol : M.pcol.length = M.ncols
  rowsChain : ∀ r, r < M.nrows → M.rowChain r = some (M.rows r)
  colsChain : ∀ c, c < M.ncols → M.colChain c = some (M.cols c)
  rowsLabel : ∀ r, r < M.nrows → ∀ i ∈ M.rows r, rowOf M i = r ∧ colOf M i < M.ncols
  colsLabel : ∀ c, c < M.ncols → ∀ i ∈ M.cols c, colOf M i = c ∧ rowOf M i < M.nrows
  rowsSorted : ∀ r, r < M.nrows → List.Chain' (fun i j => colOf M i < colOf M j) (M.rows r)
  colsSorted : ∀ c, c < M.ncols → List.Chain' (fun i j => rowOf M i < rowOf M j) (M.cols c)
  memIff : ∀ i, (∃ r, r < M.nrows ∧ i ∈ M.rows r) ↔ (∃ c, c < M.ncols ∧ i ∈ M.cols c)

/-- The abstract value stored at `(r, c)`: the value of the row-chain
node with column `c`, zero when absent. -/
def Matrix.getval (M : Matrix) (r c : Nat) : Int :=
  match (M.rows r).find? (fun i => colOf M i == c) with
  | some i => elOf M i
  | none => 0

/-- A 1-by-3 matrix holding the single entry 1 at (0, 0); it is the state
`applySets (Matrix.mk0 1 3) [(0, 0, 1)]` reaches (see `addBugA_built`). -/
def addBugA : Matrix := ⟨1, 3, [some 0], [some 0, none, none], [⟨0, 0, 1, none, none⟩]⟩

/-- A 1-by-3 matrix holding -1 at (0, 0) and 5 at (0, 2); the state
`applySets (Matrix.mk0 1 3) [(0, 0, -1), (0, 2, 5)]` reaches. -/
def addBugB : Matrix :=
  ⟨1, 3, [some 0], [some 0, none, some 1], [⟨0, 0, -1, some 1, none⟩, ⟨0, 2, 5, none, none⟩]⟩

/-- A 1-by-1 matrix holding the single entry 1 at (0, 0). -/
def oneByOne : Matrix := ⟨1, 1, [some 0], [some 0], [⟨0, 0, 1, none, none⟩]⟩

/-- The matrix of the spec's demonstration scenario: `identity(4)`, then
`M[1,1] = 7`, `M[2,1] = 13`, `M[0,3] = -2`, `M[3,3] = 0`, `M[0,0] = 0`. -/
def scenarioM : Option Matrix :=
  (identity 4).bind fun M => applySets M [(1, 1, 7), (2, 1, 13), (0, 3, -2), (3, 3, 0), (0, 0, 0)]

/-! ## Theorems

### Chain infrastructure -/

theorem lseg_nil {next : Nat → Option Nat} {bound : Nat} {p t : Option Nat} :
    LSeg next bound p [] t ↔ p = t := Iff.rfl

theorem lseg_cons {next : Nat → Option Nat} {bound : Nat} {p t : Option Nat} {i : Nat}
    {l : List Nat} :
    LSeg next bound p (i :: l) t ↔ p = some i ∧ i < bound ∧ LSeg next bound (next i) l t :=
  Iff.rfl

theorem lseg_append {next : Nat → Option Nat} {bound : Nat} :
    ∀ {a b : List Nat} {p t : Option Nat},
      LSeg next bound p (a ++ b) t ↔ ∃ m, LSeg next bound p a m ∧ LSeg next bound m b t := by
  intro a
  induction a with
  | nil =>
    intro b p t
    simp [lseg_nil]
  | cons i a ih =>
    intro b p t
    constructor
    · rintro ⟨hp, hib, hrest⟩
      obtain ⟨m, h1, h2⟩ := ih.mp hrest
      exact ⟨m, ⟨hp, hib, h1⟩, h2⟩
    · rintro ⟨m, ⟨hp, hib, h1⟩, h2⟩
      exact ⟨hp, hib, ih.mpr ⟨m, h1, h2⟩⟩

theorem lseg_mem_lt {next : Nat → Option Nat} {bound : Nat} :
    ∀ {l : List Nat} {p t : Option Nat}, LSeg next bound p l t → ∀ i ∈ l, i < bound := by
  intro l
  induction l with
  | nil =>
    intro p t h i hi
    simp at hi
  | cons j l ih =>
    intro p t h i hi
    obtain ⟨hp, hj, hrest⟩ := h
    rcases List.mem_cons.mp hi with h1 | h1
    · exact h1 ▸ hj
    · exact ih hrest i h1

theorem lseg_congr {next1 next2 : Nat → Option Nat} {bound1 bound2 : Nat} (hb : bound1 ≤ bound2) :
    ∀ {l : List Nat} {p t : Option Nat},
      LSeg next1 bound1 p l t → (∀ i ∈ l, next2 i = next1 i) → LSeg next2 bound2 p l t := by
  intro l
  induction l with
  | nil =>
    intro p t h _
    exact h
  | cons j l ih =>
    intro p t h hag
    obtain ⟨hp, hj, hrest⟩ := h
    refine ⟨hp, lt_of_lt_of_le hj hb, ?_⟩
    rw [hag j (List.mem_cons_self j l)]
    exact ih hrest fun i hi => hag i (List.mem_cons_of_mem j hi)

theorem nodup_length_le {n : Nat} {l : List Nat} (h : ∀ x ∈ l, x < n) (hn : l.Nodup) :
    l.length ≤ n := by
  have h1 : l.toFinset ⊆ Finset.range n := by
    intro x hx
    simp only [List.mem_toFinset] at hx
    exact Finset.mem_range.mpr (h x hx)
  have h2 := Finset.card_le_card h1
  rwa [List.toFinset_card_of_nodup hn, Finset.card_range] at h2

theorem getElem?_arena_eq {M : Matrix} {i : Nat} (h : i < M.arena.length) :
    M.arena[i]? = some (nodeAt M i) := by
  rw [List.getElem?_eq_getElem h]
  unfold nodeAt
  rw [List.getD_eq_getElem M.arena dNode h]

theorem lt_length_of_getElem?_eq_some {α : Type} {l : List α} {i : Nat} {a : α}
    (h : l[i]? = some a) : i < l.length := by
  by_contra hh
  rw [List.getElem?_eq_none (Nat.le_of_not_lt hh)] at h
  exact Option.noConfusion h

theorem chainAux_sound {M : Matrix} {link : Node → Option Nat} :
    ∀ {fuel : Nat} {p : Option Nat} {l : List Nat}, chainAux M link fuel p = some l →
      LSeg (fun i => link (nodeAt M i)) M.arena.length p l none ∧ l.length ≤ fuel := by
  intro fuel
  induction fuel with
  | zero =>
    intro p l h
    cases p with
    | none =>
      have : l = [] := by
        have h2 : some [] = some l := h
        exact (Option.some.inj h2).symm
      subst this
      exact ⟨rfl, Nat.le_refl 0⟩
    | some i => exact Option.noConfusion h
  | succ fuel ih =>
    intro p l h
    cases p with
    | none =>
      have : l = [] := by
        have h2 : some [] = some l := h
        exact (Option.some.inj h2).symm
      subst this
      exact ⟨rfl, Nat.zero_le _⟩
    | some i =>
      rw [chainAux] at h
      cases harena : M.arena[i]? with
      | none =>
        rw [harena] at h
        exact Option.noConfusion h
      | some nd =>
        rw [harena] at h
        dsimp only at h
        cases hrec : chainAux M link fuel (link nd) with
        | none =>
          rw [hrec] at h
          exact Option.noConfusion h
        | some l2 =>
          rw [hrec] at h
          have hl : l = i :: l2 := by
            have h2 : Option.map (fun l => i :: l) (some l2) = some l := h
            simp only [Option.map_some] at h2
            exact (Option.some.inj h2).symm
          subst hl
          have hi : i < M.arena.length := lt_length_of_getElem?_eq_some harena
          have hnd : nodeAt M i = nd := by
            have := getElem?_arena_eq hi
            rw [harena] at this
            exact (Option.some.inj this).symm
          obtain ⟨h1, h2⟩ := ih hrec
          refine ⟨⟨rfl, hi, ?_⟩, by simpa using Nat.succ_le_succ h2⟩
          show LSeg (fun i => link (nodeAt M i)) M.arena.length (link (nodeAt M i)) l2 none
          rw [hnd]
          exact h1

theorem chainAux_complete {M : Matrix} {link : Node → Option Nat} :
    ∀ {l : List Nat} {fuel : Nat} {p : Option Nat},
      LSeg (fun i => link (nodeAt M i)) M.arena.length p l none → l.length ≤ fuel →
      chainAux M link fuel p = some l := by
  intro l
  induction l with
  | nil =>
    intro fuel p h _
    rw [lseg_nil] at h
    subst h
    cases fuel <;> rfl
  | cons i l ih =>
    intro fuel p h hlen
    obtain ⟨hp, hi, hrest⟩ := h
    subst hp
    cases fuel with
    | zero => simp at hlen
    | succ fuel =>
      rw [chainAux, getElem?_arena_eq hi]
      show Option.map (fun l => i :: l) (chainAux M link fuel (link (nodeAt M i))) =
        some (i :: l)
      rw [ih hrest (by simpa using hlen)]
      rfl

theorem rowChain_eq_of_lseg {M : Matrix} {r : Nat} {p : Option Nat} {l : List Nat}
    (hp : M.prow[r]? = some p) (h : LSeg (rightOf M) M.arena.length p l none)
    (hnd : l.Nodup) : M.rowChain r = some l := by
  unfold Matrix.rowChain
  rw [hp]
  show chainAux M Node.right (M.arena.length + 1) p = some l
  exact chainAux_complete h
    (Nat.le_succ_of_le (nodup_length_le (lseg_mem_lt h) hnd))

theorem colChain_eq_of_lseg {M : Matrix} {c : Nat} {p : Option Nat} {l : List Nat}
    (hp : M.pcol[c]? = some p) (h : LSeg (downOf M) M.arena.length p l none)
    (hnd : l.Nodup) : M.colChain c = some l := by
  unfold Matrix.colChain
  rw [hp]
  show chainAux M Node.down (M.arena.length + 1) p = some l
  exact chainAux_complete h
    (Nat.le_succ_of_le (nodup_length_le (lseg_mem_lt h) hnd))

theorem rowChain_lseg {M : Matrix} {r : Nat} {l : List Nat} (h : M.rowChain r = some l) :
    ∃ p, M.prow[r]? = some p ∧ LSeg (rightOf M) M.arena.length p l none := by
  unfold Matrix.rowChain at h
  cases hp : M.prow[r]? with
  | none =>
    rw [hp] at h
    exact Option.noConfusion h
  | some p =>
    rw [hp] at h
    exact ⟨p, rfl, (chainAux_sound h).1⟩

theorem colChain_lseg {M : Matrix} {c : Nat} {l : List Nat} (h : M.colChain c = some l) :
    ∃ p, M.pcol[c]? = some p ∧ LSeg (downOf M) M.arena.length p l none := by
  unfold Matrix.colChain at h
  cases hp : M.pcol[c]? with
  | none =>
    rw [hp] at h
    exact Option.noConfusion h
  | some p =>
    rw [hp] at h
    exact ⟨p, rfl, (chainAux_sound h).1⟩

theorem getLast?_cons_elim {i : Nat} {tw : List Nat} {q0 : Option Nat} :
    ((i :: tw).getLast?).elim q0 some = (tw.getLast?).elim (some i) some := by
  cases tw with
  | nil => rfl
  | cons y ys =>
    rw [List.getLast?_cons_cons]
    cases h : (y :: ys).getLast? with
    | none => exact absurd (List.getLast?_eq_none_iff.mp h) (by simp)
    | some z => rfl

theorem walk_spec {M : Matrix} {link : Node → Option Nat} {key : Node → Nat} {lim : Nat} :
    ∀ {S : List Nat} {p q0 : Option Nat} {fuel : Nat},
      LSeg (fun i => link (nodeAt M i)) M.arena.length p S none → S.length < fuel →
      walk M link key lim fuel p q0 =
        some ((S.dropWhile fun i => decide (key (nodeAt M i) < lim)).head?,
          ((S.takeWhile fun i => decide (key (nodeAt M i) < lim)).getLast?).elim q0 some) := by
  intro S
  induction S with
  | nil =>
    intro p q0 fuel h hf
    rw [lseg_nil] at h
    subst h
    cases fuel with
    | zero => simp at hf
    | succ fuel => rfl
  | cons i S ih =>
    intro p q0 fuel h hf
    obtain ⟨hp, hi, hrest⟩ := h
    subst hp
    cases fuel with
    | zero => simp at hf
    | succ fuel =>
      rw [walk, getElem?_arena_eq hi]
      dsimp only
      by_cases hk : key (nodeAt M i) < lim
      · rw [if_pos hk, ih hrest (by simpa using hf), List.dropWhile_cons, List.takeWhile_cons,
          decide_eq_true hk, if_pos rfl, if_pos rfl, getLast?_cons_elim]
      · rw [if_neg hk, List.dropWhile_cons, List.takeWhile_cons, decide_eq_false hk,
          if_neg Bool.false_ne_true, if_neg Bool.false_ne_true]
        rfl

theorem findnode_spec {M : Matrix} {r c : Nat} {p0 : Option Nat} {l : List Nat}
    (hp : M.prow[r]? = some p0) (h : LSeg (rightOf M) M.arena.length p0 l none)
    (hnd : l.Nodup) :
    M.findnode r c =
      some (((l.dropWhile fun i => decide (colOf M i < c)).head?).bind
              (fun i => if colOf M i = c then some i else none),
            ((l.takeWhile fun i => decide (colOf M i < c)).getLast?).elim none some) := by
  have hfuel : l.length < M.arena.length + 1 :=
    Nat.lt_succ_of_le (nodup_length_le (lseg_mem_lt h) hnd)
  have h2 : LSeg (fun i => Node.right (nodeAt M i)) M.arena.length p0 l none := h
  unfold Matrix.findnode
  rw [hp]
  dsimp only
  rw [@walk_spec M Node.right Node.col c _ _ _ _ h2 hfuel]
  dsimp only
  have hfun : (fun i => decide (Node.col (nodeAt M i) < c)) =
      (fun i => decide (colOf M i < c)) := rfl
  rw [hfun]
  cases hd : (l.dropWhile fun i => decide (colOf M i < c)).head? with
  | none => rfl
  | some i =>
    have hmem : i ∈ l :=
      (List.dropWhile_sublist _).mem (List.mem_of_mem_head? hd)
    have hi : i < M.arena.length := lseg_mem_lt h i hmem
    dsimp only
    rw [getElem?_arena_eq hi]
    dsimp only
    by_cases hc : colOf M i = c
    · have hc2 : (nodeAt M i).col = c := hc
      rw [if_pos hc2]
      dsimp only [Option.bind]
      rw [if_pos hc]
    · have hc2 : ¬ (nodeAt M i).col = c := hc
      rw [if_neg hc2]
      dsimp only [Option.bind]
      rw [if_neg hc]

theorem removeColWalk_spec {M : Matrix} {tr : Nat} :
    ∀ {K1 : List Nat} {pi : Nat} {K2 : List Nat} {p m0 : Option Nat} {fuel : Nat},
      LSeg (downOf M) M.arena.length p (K1 ++ pi :: K2) none →
      (∀ i ∈ K1, rowOf M i ≠ tr) → rowOf M pi = tr → K1.length < fuel →
      removeColWalk M tr fuel p m0 = some ((K1.getLast?).elim m0 some) := by
  intro K1
  induction K1 with
  | nil =>
    intro pi K2 p m0 fuel h hK1 hpi hf
    obtain ⟨hp, hpiB, hrest⟩ := h
    subst hp
    cases fuel with
    | zero => simp at hf
    | succ fuel =>
      have hpi2 : (nodeAt M pi).row = tr := hpi
      rw [removeColWalk, getElem?_arena_eq hpiB]
      dsimp only
      rw [if_pos hpi2]
      rfl
  | cons j K1 ih =>
    intro pi K2 p m0 fuel h hK1 hpi hf
    obtain ⟨hp, hj, hrest⟩ := h
    subst hp
    cases fuel with
    | zero => simp at hf
    | succ fuel =>
      have hj2 : ¬ (nodeAt M j).row = tr := hK1 j (List.mem_cons_self j K1)
      rw [removeColWalk, getElem?_arena_eq hj]
      dsimp only
      rw [if_neg hj2]
      show removeColWalk M tr fuel (downOf M j) (some j) = some ((j :: K1).getLast?.elim m0 some)
      rw [ih hrest (fun i hmem => hK1 i (List.mem_cons_of_mem j hmem)) hpi (by simpa using hf)]
      rw [getLast?_cons_elim]

/-- The counterexample operand `addBugA` is the state the public
interface reaches from `Matrix(1, 3)` by `M[0, 0] = 1`. -/
theorem addBugA_built : applySets (Matrix.mk0 1 3) [(0, 0, 1)] = some addBugA := rfl

/-- The counterexample operand `addBugB` is the state the public
interface reaches from `Matrix(1, 3)` by `M[0, 0] = -1; M[0, 2] = 5`. -/
theorem addBugB_built : applySets (Matrix.mk0 1 3) [(0, 0, -1), (0, 2, 5)] = some addBugB := rfl

/-- The matrix `oneByOne` is the state reached from `Matrix(1, 1)` by
`M[0, 0] = 1`. -/
theorem oneByOne_built : applySets (Matrix.mk0 1 1) [(0, 0, 1)] = some oneByOne := rfl

/-- C1: addition is NOT the pointwise sum.  With `A = [[1, 0, 0]]` and
`B = [[-1, 0, 5]]` (same 1-by-3 shape), the exact cancellation at (0, 0)
removes the result's head node while the merge cursor `m` keeps pointing
at the removed node, so the subsequent entry 5 at (0, 2) is spliced after
an unlinked node and is lost from the result's row chain:
`get(add(A, B), 0, 2)` returns 0 although `get(A, 0, 2) + get(B, 0, 2)`
is 5. -/
theorem C1_add_cancellation_loses_entry :
    (addBugA.add addBugB).map (fun R => R.getitem 0 2) = .ok (some 0) ∧
    addBugA.getitem 0 2 = some 0 ∧ addBugB.getitem 0 2 = some 5 := by decide

/-- C2: `__mul__` does NOT handle a matrix with no non-zero entries.  For
the all-zero 1-by-1 matrix and the length-matching vector `[0]`, the
leading-empty-row scan `while p is None: i += 1; p = self._prow[i]` runs
past the end of `_prow` and raises `IndexError` instead of returning the
all-zero result `[0.0]`. -/
theorem C2_mulvec_all_empty_crashes :
    (Matrix.mk0 1 1).mulVec [0] = .error .indexError := rfl

/-- C3: `add(M, zeroMatrixSameShape)` does NOT return `M`; it raises.
With `M` the 1-by-1 matrix holding 1 and `Z = Matrix(1, 1)` all-zero,
phase two of `__add__` scans `Z._prow` for a first non-empty row without
a bound check and raises `IndexError`. -/
theorem C3_add_zero_matrix_crashes :
    oneByOne.add (Matrix.mk0 1 1) = .error .indexError := rfl

/-- C4: `transposed` is NOT total.  On the all-zero 2-by-2 matrix the
leading-empty-column scan `while p is None: i += 1; p = self._pcol[i]`
runs past the end of `_pcol` and raises `IndexError`. -/
theorem C4_transpose_all_empty_crashes :
    (Matrix.mk0 2 2).transposed = .error .indexError := rfl

/-- C5: the transpose properties do NOT hold for every matrix: on the
all-zero 1-by-2 matrix `transposed` raises `IndexError` instead of
returning the 2-by-1 all-zero transpose (so in particular
`transpose(transpose(M))` is not `M` there). -/
theorem C5_transpose_empty_no_involution :
    (Matrix.mk0 1 2).transposed = .error .indexError := rfl

/-- C6 counterexample: after the full scenario (which ends by setting
`M[0, 0] = 0`), `multiplyRight(M, [1, 2, 3, 4])` does NOT return
`[-7, 14, 29, 0]`. -/
theorem C6_scenario_not_claimed_vector :
    scenarioM.map (fun M => M.mulVec [1, 2, 3, 4]) ≠ some (.ok [-7, 14, 29, 0]) := by decide

/-- C6 amended: the scenario's product is `[-8, 14, 29, 0]`: after
`set(M, 0, 0, 0)` row 0 retains only the entry -2 at column 3, so
`result[0] = -2 * 4 = -8` (the claimed value -7 assumed the entry 1 at
(0, 0) that the preceding set removed). -/
theorem C6_scenario_vector :
    scenarioM.map (fun M => M.mulVec [1, 2, 3, 4]) = some (.ok [-8, 14, 29, 0]) := by decide

/-- C9: each binary operation checks the operand shapes first and raises
the dimension-mismatch `ValueError` on any mismatch, for every matrix
state: `__mul__` when the vector length differs from `ncols`, `__rmul__`
when it differs from `nrows`, and `__add__` when the dimensions differ.
The check precedes all other computation (it is the first statement of
each method), and in this embedding the binary operations are plain
functions of their operands, mirroring that the Python methods never
assign to any attribute of `self` or `rhs`. -/
theorem C9_dimension_mismatch (M N : Matrix) (v w : List Int) :
    (v.length ≠ M.ncols → M.mulVec v = .error .valueError) ∧
    (w.length ≠ M.nrows → M.rmulVec w = .error .valueError) ∧
    (M.nrows ≠ N.nrows ∨ M.ncols ≠ N.ncols → M.add N = .error .valueError) := by
  refine ⟨fun h => ?_, fun h => ?_, fun h => ?_⟩
  · unfold Matrix.mulVec
    rw [if_pos (Ne.symm h)]
  · unfold Matrix.rmulVec
    rw [if_pos (Ne.symm h)]
  · unfold Matrix.add
    rw [if_pos h]

/-- Witness for C9 at concrete shapes: a 2-by-3 matrix with a length-2
vector on the right, a length-1 vector on the left, and addition with a
3-by-2 matrix. -/
theorem C9_dimension_mismatch_witness :
    ((Matrix.mk0 2 3).mulVec [1, 2] = .error .valueError) ∧
    ((Matrix.mk0 2 3).rmulVec [1] = .error .valueError) ∧
    ((Matrix.mk0 2 3).add (Matrix.mk0 3 2) = .error .valueError) :=
  ⟨(C9_dimension_mismatch (Matrix.mk0 2 3) (Matrix.mk0 3 2) [1, 2] [1]).1 (by decide),
   (C9_dimension_mismatch (Matrix.mk0 2 3) (Matrix.mk0 3 2) [1, 2] [1]).2.1 (by decide),
   (C9_dimension_mismatch (Matrix.mk0 2 3) (Matrix.mk0 3 2) [1, 2] [1]).2.2 (by decide)⟩

/-! ### Well-formedness: Bool form vs Prop form -/

theorem sortedByB_iff {key : Nat → Nat} : ∀ {l : List Nat},
    sortedByB key l = true ↔ List.Chain' (fun i j => key i < key j) l := by
  intro l
  induction l with
  | nil => simp [sortedByB]
  | cons i l ih =>
    cases l with
    | nil => simp [sortedByB]
    | cons j l2 =>
      rw [sortedByB, Bool.and_eq_true, decide_eq_true_eq, List.chain'_cons]
      exact and_congr Iff.rfl ih

theorem rows_eq_of_rowChain {M : Matrix} {r : Nat} {l : List Nat}
    (h : M.rowChain r = some l) : M.rows r = l := by
  unfold Matrix.rows
  rw [h]
  rfl

theorem cols_eq_of_colChain {M : Matrix} {c : Nat} {l : List Nat}
    (h : M.colChain c = some l) : M.cols c = l := by
  unfold Matrix.cols
  rw [h]
  rfl

theorem rowOkB_iff {M : Matrix} {r : Nat} :
    rowOkB M r = true ↔
      M.rowChain r = some (M.rows r) ∧
      (∀ i ∈ M.rows r, rowOf M i = r ∧ colOf M i < M.ncols) ∧
      List.Chain' (fun i j => colOf M i < colOf M j) (M.rows r) := by
  unfold rowOkB
  cases hc : M.rowChain r with
  | none =>
    constructor
    · intro h
      exact absurd h (by simp)
    · rintro ⟨h1, -⟩
      exact Option.noConfusion h1
  | some l =>
    have hrows : M.rows r = l := rows_eq_of_rowChain hc
    rw [hrows]
    dsimp only
    constructor
    · intro h
      rw [Bool.and_eq_true, List.all_eq_true] at h
      obtain ⟨h1, h2⟩ := h
      refine ⟨rfl, fun i hi => ?_, sortedByB_iff.mp h2⟩
      have h3 := h1 i hi
      rw [Bool.and_eq_true, decide_eq_true_eq, decide_eq_true_eq] at h3
      exact h3
    · rintro ⟨-, h1, h2⟩
      rw [Bool.and_eq_true, List.all_eq_true]
      refine ⟨fun i hi => ?_, sortedByB_iff.mpr h2⟩
      rw [Bool.and_eq_true, decide_eq_true_eq, decide_eq_true_eq]
      exact h1 i hi

theorem colOkB_iff {M : Matrix} {c : Nat} :
    colOkB M c = true ↔
      M.colChain c = some (M.cols c) ∧
      (∀ i ∈ M.cols c, colOf M i = c ∧ rowOf M i < M.nrows) ∧
      List.Chain' (fun i j => rowOf M i < rowOf M j) (M.cols c) := by
  unfold colOkB
  cases hc : M.colChain c with
  | none =>
    constructor
    · intro h
      exact absurd h (by simp)
    · rintro ⟨h1, -⟩
      exact Option.noConfusion h1
  | some l =>
    have hcols : M.cols c = l := cols_eq_of_colChain hc
    rw [hcols]
    dsimp only
    constructor
    · intro h
      rw [Bool.and_eq_true, List.all_eq_true] at h
      obtain ⟨h1, h2⟩ := h
      refine ⟨rfl, fun i hi => ?_, sortedByB_iff.mp h2⟩
      have h3 := h1 i hi
      rw [Bool.and_eq_true, decide_eq_true_eq, decide_eq_true_eq] at h3
      exact h3
    · rintro ⟨-, h1, h2⟩
      rw [Bool.and_eq_true, List.all_eq_true]
      refine ⟨fun i hi => ?_, sortedByB_iff.mpr h2⟩
      rw [Bool.and_eq_true, decide_eq_true_eq, decide_eq_true_eq]
      exact h1 i hi

theorem sameSetB_iff {M : Matrix} :
    sameSetB M = true ↔
      ((∀ r, r < M.nrows → ∀ i ∈ M.rows r, ∃ c, c < M.ncols ∧ i ∈ M.cols c) ∧
       (∀ c, c < M.ncols → ∀ i ∈ M.cols c, ∃ r, r < M.nrows ∧ i ∈ M.rows r)) := by
  unfold sameSetB
  simp only [Bool.and_eq_true, List.all_eq_true, List.any_eq_true, List.mem_range,
    decide_eq_true_eq]

theorem wfb_iff {M : Matrix} : M.wfb = true ↔ M.WfP := by
  unfold Matrix.wfb
  simp only [Bool.and_eq_true, beq_iff_eq, List.all_eq_true, List.mem_range]
  constructor
  · rintro ⟨⟨⟨⟨h1, h2⟩, h3⟩, h4⟩, h5⟩
    have hrow := fun r hr => rowOkB_iff.mp (h3 r hr)
    have hcol := fun c hc => colOkB_iff.mp (h4 c hc)
    have hss := sameSetB_iff.mp h5
    refine ⟨h1, h2, fun r hr => (hrow r hr).1, fun c hc => (hcol c hc).1,
      fun r hr => (hrow r hr).2.1, fun c hc => (hcol c hc).2.1,
      fun r hr => (hrow r hr).2.2, fun c hc => (hcol c hc).2.2, fun i => ⟨?_, ?_⟩⟩
    · rintro ⟨r, hr, hi⟩
      exact hss.1 r hr i hi
    · rintro ⟨c, hc, hi⟩
      exact hss.2 c hc i hi
  · intro hW
    have h3 : ∀ r, r < M.nrows → rowOkB M r = true := fun r hr =>
      rowOkB_iff.mpr ⟨hW.rowsChain r hr, hW.rowsLabel r hr, hW.rowsSorted r hr⟩
    have h4 : ∀ c, c < M.ncols → colOkB M c = true := fun c hc =>
      colOkB_iff.mpr ⟨hW.colsChain c hc, hW.colsLabel c hc, hW.colsSorted c hc⟩
    have h5 : sameSetB M = true := sameSetB_iff.mpr
      ⟨fun r hr i hi => (hW.memIff i).mp ⟨r, hr, hi⟩,
       fun c hc i hi => (hW.memIff i).mpr ⟨c, hc, hi⟩⟩
    exact ⟨⟨⟨⟨hW.hprow, hW.hpcol⟩, h3⟩, h4⟩, h5⟩

/-! ### Consequences of well-formedness -/

theorem rows_pairwise {M : Matrix} (hW : M.WfP) {r : Nat} (hr : r < M.nrows) :
    (M.rows r).Pairwise (fun i j => colOf M i < colOf M j) := by
  haveI : IsTrans Nat (fun i j => colOf M i < colOf M j) :=
    ⟨fun a b c h1 h2 => lt_trans h1 h2⟩
  exact List.chain'_iff_pairwise.mp (hW.rowsSorted r hr)

theorem cols_pairwise {M : Matrix} (hW : M.WfP) {c : Nat} (hc : c < M.ncols) :
    (M.cols c).Pairwise (fun i j => rowOf M i < rowOf M j) := by
  haveI : IsTrans Nat (fun i j => rowOf M i < rowOf M j) :=
    ⟨fun a b c h1 h2 => lt_trans h1 h2⟩
  exact List.chain'_iff_pairwise.mp (hW.colsSorted c hc)

theorem rows_nodup {M : Matrix} (hW : M.WfP) {r : Nat} (hr : r < M.nrows) :
    (M.rows r).Nodup := by
  refine (rows_pairwise hW hr).imp fun hab => ?_
  intro he
  subst he
  exact absurd hab (lt_irrefl _)

theorem cols_nodup {M : Matrix} (hW : M.WfP) {c : Nat} (hc : c < M.ncols) :
    (M.cols c).Nodup := by
  refine (cols_pairwise hW hc).imp fun hab => ?_
  intro he
  subst he
  exact absurd hab (lt_irrefl _)

/-! ### Read helpers for updated states -/

theorem elim_none_some (o : Option Nat) : o.elim none some = o := by
  cases o <;> rfl

theorem getD_set_self {l : List Node} {j : Nat} (nd : Node) (h : j < l.length) :
    (l.set j nd).getD j dNode = nd := by
  rw [List.getD_eq_getElem?_getD, List.getElem?_set_self (by simpa using h)]
  rfl

theorem getD_set_ne {l : List Node} {i j : Nat} (nd : Node) (h : i ≠ j) :
    (l.set j nd).getD i dNode = l.getD i dNode := by
  rw [List.getD_eq_getElem?_getD, List.getElem?_set_ne (Ne.symm h), ← List.getD_eq_getElem?_getD]

theorem getD_append_lt {l l2 : List Node} {i : Nat} (h : i < l.length) :
    (l ++ l2).getD i dNode = l.getD i dNode := by
  rw [List.getD_eq_getElem?_getD, List.getElem?_append_left h, ← List.getD_eq_getElem?_getD]

theorem getD_append_len {l : List Node} (nd : Node) :
    (l ++ [nd]).getD l.length dNode = nd := by
  rw [List.getD_eq_getElem?_getD, List.getElem?_concat_length]
  rfl

theorem takeWhile_lt {k : Nat → Nat} {x : Nat} {l : List Nat} :
    ∀ y ∈ l.takeWhile fun i => decide (k i < x), k y < x := by
  intro y hy
  have := List.mem_takeWhile_imp hy
  exact of_decide_eq_true this

theorem dropWhile_ge {k : Nat → Nat} {x : Nat} {l : List Nat}
    (hp : l.Pairwise fun i j => k i < k j) :
    ∀ y ∈ l.dropWhile fun i => decide (k i < x), x ≤ k y := by
  induction l with
  | nil => simp
  | cons i l ih =>
    intro y hy
    rw [List.dropWhile_cons] at hy
    by_cases hk : k i < x
    · rw [decide_eq_true hk, if_pos rfl] at hy
      exact ih (List.pairwise_cons.mp hp).2 y hy
    · rw [decide_eq_false hk, if_neg Bool.false_ne_true] at hy
      rcases List.mem_cons.mp hy with h1 | h1
      · subst h1
        omega
      · have h2 := (List.pairwise_cons.mp hp).1 y h1
        omega

theorem nodup_insert_middle {tw dw : List Nat} {x : Nat} (h : (tw ++ dw).Nodup)
    (hx : x ∉ tw ++ dw) : (tw ++ x :: dw).Nodup := by
  rw [List.nodup_append] at h
  rw [List.mem_append] at hx
  rw [List.nodup_append]
  refine ⟨h.1, ?_, ?_⟩
  · rw [List.nodup_cons]
    exact ⟨fun hmem => hx (Or.inr hmem), h.2.1⟩
  · intro a ha hb
    rcases List.mem_cons.mp hb with h1 | h1
    · exact hx (Or.inl (h1 ▸ ha))
    · exact h.2.2 ha h1

theorem getLast?_split {l : List Nat} {a : Nat} (h : l.getLast? = some a) :
    ∃ l2, l = l2 ++ [a] := by
  rcases List.getLast?_eq_some_iff.mp h with ⟨l2, hl⟩
  exact ⟨l2, hl⟩

theorem pairwise_insert_middle {tw dw : List Nat} {R : Nat → Nat → Prop} {x : Nat}
    (h1 : tw.Pairwise R) (h2 : dw.Pairwise R) (hx1 : ∀ a ∈ tw, R a x)
    (hx2 : ∀ b ∈ dw, R x b) (hcross : ∀ a ∈ tw, ∀ b ∈ dw, R a b) :
    (tw ++ x :: dw).Pairwise R := by
  rw [List.pairwise_append]
  refine ⟨h1, ?_, ?_⟩
  · rw [List.pairwise_cons]
    exact ⟨hx2, h2⟩
  · intro a ha b hb
    rcases List.mem_cons.mp hb with h | h
    · exact h ▸ hx1 a ha
    · exact hcross a ha b h

/-! ### The mutator: `_insertnode` -/

theorem linkAbove_none_spec {M : Matrix} {c nIdx : Nat} (hclen : c < M.pcol.length) :
    linkAbove M c nIdx none = some { M with pcol := M.pcol.set c (some nIdx) } := by
  unfold linkAbove setAt
  rw [if_pos hclen]
  rfl

theorem linkAbove_some_spec {M : Matrix} {c nIdx k : Nat} (hk : k < M.arena.length) :
    linkAbove M c nIdx (some k) =
      some { M with arena := M.arena.set k ({ nodeAt M k with down := some nIdx }) } := by
  unfold linkAbove
  dsimp only
  rw [getElem?_arena_eq hk]

theorem insertCol_spec {M1 : Matrix} {r c nIdx : Nat}
    (hn : nIdx < M1.arena.length)
    (hdown : downOf M1 nIdx = none)
    {pc0 : Option Nat} (hpc : M1.pcol[c]? = some pc0)
    {K : List Nat} (hK : LSeg (downOf M1) M1.arena.length pc0 K none)
    (hKnd : K.Nodup)
    (hKrows : ∀ i ∈ K, rowOf M1 i ≠ r)
    (hnotinK : nIdx ∉ K)
    (hclen : c < M1.pcol.length) :
    ∃ M2, insertCol M1 r c nIdx = some M2 ∧
      M2.nrows = M1.nrows ∧ M2.ncols = M1.ncols ∧ M2.prow = M1.prow ∧
      M2.pcol.length = M1.pcol.length ∧
      M2.arena.length = M1.arena.length ∧
      (∀ i, i ≠ nIdx → rowOf M2 i = rowOf M1 i ∧ colOf M2 i = colOf M1 i ∧
        elOf M2 i = elOf M1 i ∧ rightOf M2 i = rightOf M1 i) ∧
      rowOf M2 nIdx = rowOf M1 nIdx ∧ colOf M2 nIdx = colOf M1 nIdx ∧
      elOf M2 nIdx = elOf M1 nIdx ∧ rightOf M2 nIdx = rightOf M1 nIdx ∧
      (∀ i, i ≠ nIdx → i ∉ K → downOf M2 i = downOf M1 i) ∧
      (∀ c2, c2 ≠ c → M2.pcol[c2]? = M1.pcol[c2]?) ∧
      ∃ pc1, M2.pcol[c]? = some pc1 ∧
        LSeg (downOf M2) M2.arena.length pc1
          ((K.takeWhile fun i => decide (rowOf M1 i < r)) ++ nIdx ::
            (K.dropWhile fun i => decide (rowOf M1 i < r))) none := by
  have hfuel : K.length < M1.arena.length + 1 :=
    Nat.lt_succ_of_le (nodup_length_le (lseg_mem_lt hK) hKnd)
  have hK2 : LSeg (fun i => Node.down (nodeAt M1 i)) M1.arena.length pc0 K none := hK
  have hKsplit : (K.takeWhile fun i => decide (rowOf M1 i < r)) ++
      (K.dropWhile fun i => decide (rowOf M1 i < r)) = K :=
    List.takeWhile_append_dropWhile ..
  obtain ⟨mid, hseg1, hseg2⟩ :=
    lseg_append.mp (show LSeg (downOf M1) M1.arena.length pc0
      ((K.takeWhile fun i => decide (rowOf M1 i < r)) ++
        (K.dropWhile fun i => decide (rowOf M1 i < r))) none by
      rw [hKsplit]
      exact hK)
  unfold insertCol
  rw [hpc]
  dsimp only
  rw [@walk_spec M1 Node.down Node.row r _ _ _ _ hK2 hfuel]
  dsimp only
  have hfunP : (fun i => decide (Node.row (nodeAt M1 i) < r)) =
      (fun i => decide (rowOf M1 i < r)) := rfl
  rw [hfunP, elim_none_some]
  cases hdw : K.dropWhile fun i => decide (rowOf M1 i < r) with
  | nil =>
    rw [hdw] at hseg2
    rw [lseg_nil] at hseg2
    subst hseg2
    cases hlast : (K.takeWhile fun i => decide (rowOf M1 i < r)).getLast? with
    | none =>
      have htw : (K.takeWhile fun i => decide (rowOf M1 i < r)) = [] :=
        List.getLast?_eq_none_iff.mp hlast
      rw [linkAbove_none_spec hclen]
      refine ⟨_, rfl, rfl, rfl, rfl, by simp, rfl, fun i _ => ⟨rfl, rfl, rfl, rfl⟩,
        rfl, rfl, rfl, rfl, fun i _ _ => rfl, ?_, ?_⟩
      · intro c2 hc2
        exact List.getElem?_set_ne (Ne.symm hc2)
      · refine ⟨some nIdx, ?_, ?_⟩
        · exact List.getElem?_set_self (by simpa using hclen)
        · rw [htw]
          exact ⟨rfl, hn, hdown⟩
    | some k =>
      obtain ⟨tw2, htw⟩ := getLast?_split hlast
      have hktw : k ∈ K.takeWhile fun i => decide (rowOf M1 i < r) := by
        rw [htw]
        simp
      have hkK : k ∈ K := (List.takeWhile_sublist _).mem hktw
      have hklt : k < M1.arena.length := lseg_mem_lt hK k hkK
      have hknIdx : k ≠ nIdx := fun he => hnotinK (he ▸ hkK)
      rw [linkAbove_some_spec hklt]
      -- target state: only node k's down field changed
      have hread : ∀ i, i ≠ k →
          nodeAt { M1 with arena := M1.arena.set k ({ nodeAt M1 k with down := some nIdx }) } i =
            nodeAt M1 i := fun i hik => getD_set_ne _ hik
      have hreadk :
          nodeAt { M1 with arena := M1.arena.set k ({ nodeAt M1 k with down := some nIdx }) } k =
            { nodeAt M1 k with down := some nIdx } := getD_set_self _ hklt
      refine ⟨_, rfl, rfl, rfl, rfl, rfl, by simp, ?_, ?_, ?_, ?_, ?_, ?_, ?_, ?_⟩
      · intro i hi
        by_cases hik : i = k
        · subst hik
          unfold rowOf colOf elOf rightOf
          rw [hreadk]
          exact ⟨rfl, rfl, rfl, rfl⟩
        · unfold rowOf colOf elOf rightOf
          rw [hread i hik]
          exact ⟨rfl, rfl, rfl, rfl⟩
      · unfold rowOf
        rw [hread nIdx (Ne.symm hknIdx)]
      · unfold colOf
        rw [hread nIdx (Ne.symm hknIdx)]
      · unfold elOf
        rw [hread nIdx (Ne.symm hknIdx)]
      · unfold rightOf
        rw [hread nIdx (Ne.symm hknIdx)]
      · intro i hi hiK
        have hik : i ≠ k := fun he => hiK (he ▸ hkK)
        unfold downOf
        rw [hread i hik]
      · intro c2 _
        rfl
      · refine ⟨pc0, hpc, ?_⟩
        -- chain is tw2 ++ [k] ++ [nIdx]
        rw [htw]
        -- decompose old segment over tw2 ++ [k]
        rw [htw] at hseg1
        obtain ⟨mid3, hsegA, hsegB⟩ := lseg_append.mp hseg1
        obtain ⟨hmid3, hkb, hkdown⟩ := hsegB
        rw [lseg_nil] at hkdown
        -- new chain: tw2, then k (down = nIdx), then nIdx (down = none)
        refine lseg_append.mpr ⟨some nIdx, ?_, ?_⟩
        · refine lseg_append.mpr ⟨mid3, ?_, ?_⟩
          · -- tw2 unchanged
            refine lseg_congr (by simp) hsegA ?_
            intro i hi
            have hik : i ≠ k := by
              intro he
              have hnd2 : (tw2 ++ [k]).Nodup := by
                rw [← htw]
                exact hKnd.sublist (List.takeWhile_sublist _)
              rw [List.nodup_append] at hnd2
              refine hnd2.2.2 hi ?_
              rw [he]
              exact List.mem_cons_self k []
            unfold downOf
            rw [hread i hik]
          · subst hmid3
            refine ⟨rfl, by simpa using hklt, ?_⟩
            show LSeg _ _ (downOf { M1 with
              arena := M1.arena.set k ({ nodeAt M1 k with down := some nIdx }) } k) [] (some nIdx)
            unfold downOf
            rw [hreadk]
            rfl
        · refine ⟨rfl, by simpa using hn, ?_⟩
          show LSeg _ _ (downOf { M1 with
            arena := M1.arena.set k ({ nodeAt M1 k with down := some nIdx }) } nIdx) [] none
          unfold downOf
          rw [hread nIdx (Ne.symm hknIdx)]
          exact hdown
  | cons pk K2 =>
    rw [hdw] at hseg2
    obtain ⟨hmid, hpkb, hseg2r⟩ := hseg2
    subst hmid
    have hpkK : pk ∈ K := by
      have : pk ∈ K.dropWhile fun i => decide (rowOf M1 i < r) := by
        rw [hdw]
        exact List.mem_cons_self pk K2
      exact (List.dropWhile_sublist _).mem this
    dsimp only [List.head?_cons]
    rw [getElem?_arena_eq hpkb]
    dsimp only
    rw [if_neg (show ¬ (nodeAt M1 pk).row = r from hKrows pk hpkK)]
    rw [getElem?_arena_eq hn]
    dsimp only
    -- state with the new node's down set to pk
    have hreadn : ∀ i, i ≠ nIdx →
        nodeAt { M1 with arena := M1.arena.set nIdx ({ nodeAt M1 nIdx with down := some pk }) } i =
          nodeAt M1 i := fun i hik => getD_set_ne _ hik
    have hreadnn :
        nodeAt { M1 with arena := M1.arena.set nIdx ({ nodeAt M1 nIdx with down := some pk }) }
          nIdx = { nodeAt M1 nIdx with down := some pk } := getD_set_self _ hn
    cases hlast : (K.takeWhile fun i => decide (rowOf M1 i < r)).getLast? with
    | none =>
      have htw : (K.takeWhile fun i => decide (rowOf M1 i < r)) = [] :=
        List.getLast?_eq_none_iff.mp hlast
      rw [linkAbove_none_spec (by simpa using hclen)]
      have hgA : ∀ i, i ≠ nIdx →
          (M1.arena.set nIdx ({ nodeAt M1 nIdx with down := some pk })).getD i dNode =
            nodeAt M1 i := fun i hik => getD_set_ne _ hik
      have hgN :
          (M1.arena.set nIdx ({ nodeAt M1 nIdx with down := some pk })).getD nIdx dNode =
            { nodeAt M1 nIdx with down := some pk } := getD_set_self _ hn
      refine ⟨_, rfl, rfl, rfl, rfl, by simp, by simp, ?_, ?_, ?_, ?_, ?_, ?_, ?_, ?_⟩
      · intro i hi
        refine ⟨?_, ?_, ?_, ?_⟩
        · show ((M1.arena.set nIdx ({ nodeAt M1 nIdx with down := some pk })).getD i
            dNode).row = rowOf M1 i
          rw [hgA i hi]
          rfl
        · show ((M1.arena.set nIdx ({ nodeAt M1 nIdx with down := some pk })).getD i
            dNode).col = colOf M1 i
          rw [hgA i hi]
          rfl
        · show ((M1.arena.set nIdx ({ nodeAt M1 nIdx with down := some pk })).getD i
            dNode).el = elOf M1 i
          rw [hgA i hi]
          rfl
        · show ((M1.arena.set nIdx ({ nodeAt M1 nIdx with down := some pk })).getD i
            dNode).right = rightOf M1 i
          rw [hgA i hi]
          rfl
      · show ((M1.arena.set nIdx ({ nodeAt M1 nIdx with down := some pk })).getD nIdx
          dNode).row = rowOf M1 nIdx
        rw [hgN]
        rfl
      · show ((M1.arena.set nIdx ({ nodeAt M1 nIdx with down := some pk })).getD nIdx
          dNode).col = colOf M1 nIdx
        rw [hgN]
        rfl
      · show ((M1.arena.set nIdx ({ nodeAt M1 nIdx with down := some pk })).getD nIdx
          dNode).el = elOf M1 nIdx
        rw [hgN]
        rfl
      · show ((M1.arena.set nIdx ({ nodeAt M1 nIdx with down := some pk })).getD nIdx
          dNode).right = rightOf M1 nIdx
        rw [hgN]
        rfl
      · intro i hi _
        show ((M1.arena.set nIdx ({ nodeAt M1 nIdx with down := some pk })).getD i
          dNode).down = downOf M1 i
        rw [hgA i hi]
        rfl
      · intro c2 hc2
        exact List.getElem?_set_ne (Ne.symm hc2)
      · refine ⟨some nIdx, List.getElem?_set_self (by simpa using hclen), ?_⟩
        rw [htw]
        refine ⟨rfl, by simpa using hn, ?_⟩
        show LSeg _ _
          (((M1.arena.set nIdx ({ nodeAt M1 nIdx with down := some pk })).getD nIdx
            dNode).down) (pk :: K2) none
        rw [hgN]
        show LSeg _ _ (some pk) (pk :: K2) none
        refine ⟨rfl, by simpa using hpkb, ?_⟩
        have hK2down : ∀ i ∈ K2,
            ((M1.arena.set nIdx ({ nodeAt M1 nIdx with down := some pk })).getD i
              dNode).down = (nodeAt M1 i).down := by
          intro i hi
          have h1 : i ∈ K.dropWhile fun x => decide (rowOf M1 x < r) := by
            rw [hdw]
            exact List.mem_cons_of_mem pk hi
          have hiK : i ∈ K := (List.dropWhile_sublist _).mem h1
          have hik : i ≠ nIdx := fun he => hnotinK (he ▸ hiK)
          rw [hgA i hik]
        have hpkdown :
            ((M1.arena.set nIdx ({ nodeAt M1 nIdx with down := some pk })).getD pk
              dNode).down = (nodeAt M1 pk).down := by
          have hik : pk ≠ nIdx := fun he => hnotinK (he ▸ hpkK)
          rw [hgA pk hik]
        show LSeg _ _
          (((M1.arena.set nIdx ({ nodeAt M1 nIdx with down := some pk })).getD pk
            dNode).down) K2 none
        rw [hpkdown]
        refine lseg_congr (by simp) hseg2r ?_
        intro i hi
        exact hK2down i hi
    | some k =>
      obtain ⟨tw2, htw⟩ := getLast?_split hlast
      have hktw : k ∈ K.takeWhile fun i => decide (rowOf M1 i < r) := by
        rw [htw]
        simp
      have hkK : k ∈ K := (List.takeWhile_sublist _).mem hktw
      have hklt : k < M1.arena.length := lseg_mem_lt hK k hkK
      have hknIdx : k ≠ nIdx := fun he => hnotinK (he ▸ hkK)
      have hpknIdx : pk ≠ nIdx := fun he => hnotinK (he ▸ hpkK)
      rw [linkAbove_some_spec (M := { M1 with
        arena := M1.arena.set nIdx ({ nodeAt M1 nIdx with down := some pk }) })
        (by simpa using hklt)]
      have hbk : nodeAt { M1 with
          arena := M1.arena.set nIdx ({ nodeAt M1 nIdx with down := some pk }) } k =
            nodeAt M1 k := getD_set_ne _ hknIdx
      rw [hbk]
      have hA : ∀ i, i ≠ k → i ≠ nIdx →
          ((M1.arena.set nIdx ({ nodeAt M1 nIdx with down := some pk })).set k
            ({ nodeAt M1 k with down := some nIdx })).getD i dNode = nodeAt M1 i := by
        intro i hik hin
        rw [getD_set_ne _ hik, getD_set_ne _ hin]
        rfl
      have hBk :
          ((M1.arena.set nIdx ({ nodeAt M1 nIdx with down := some pk })).set k
            ({ nodeAt M1 k with down := some nIdx })).getD k dNode =
            { nodeAt M1 k with down := some nIdx } :=
        getD_set_self _ (by simpa using hklt)
      have hBn :
          ((M1.arena.set nIdx ({ nodeAt M1 nIdx with down := some pk })).set k
            ({ nodeAt M1 k with down := some nIdx })).getD nIdx dNode =
            { nodeAt M1 nIdx with down := some pk } := by
        rw [getD_set_ne _ (Ne.symm hknIdx)]
        exact getD_set_self _ hn
      refine ⟨_, rfl, rfl, rfl, rfl, rfl, by simp, ?_, ?_, ?_, ?_, ?_, ?_, ?_, ?_⟩
      · intro i hi
        by_cases hik : i = k
        · subst hik
          refine ⟨?_, ?_, ?_, ?_⟩
          · show (((M1.arena.set nIdx ({ nodeAt M1 nIdx with down := some pk })).set i
              ({ nodeAt M1 i with down := some nIdx })).getD i dNode).row = (nodeAt M1 i).row
            rw [hBk]
          · show (((M1.arena.set nIdx ({ nodeAt M1 nIdx with down := some pk })).set i
              ({ nodeAt M1 i with down := some nIdx })).getD i dNode).col = (nodeAt M1 i).col
            rw [hBk]
          · show (((M1.arena.set nIdx ({ nodeAt M1 nIdx with down := some pk })).set i
              ({ nodeAt M1 i with down := some nIdx })).getD i dNode).el = (nodeAt M1 i).el
            rw [hBk]
          · show (((M1.arena.set nIdx ({ nodeAt M1 nIdx with down := some pk })).set i
              ({ nodeAt M1 i with down := some nIdx })).getD i dNode).right = (nodeAt M1 i).right
            rw [hBk]
        · refine ⟨?_, ?_, ?_, ?_⟩
          · show (((M1.arena.set nIdx ({ nodeAt M1 nIdx with down := some pk })).set k
              ({ nodeAt M1 k with down := some nIdx })).getD i dNode).row = (nodeAt M1 i).row
            rw [hA i hik hi]
          · show (((M1.arena.set nIdx ({ nodeAt M1 nIdx with down := some pk })).set k
              ({ nodeAt M1 k with down := some nIdx })).getD i dNode).col = (nodeAt M1 i).col
            rw [hA i hik hi]
          · show (((M1.arena.set nIdx ({ nodeAt M1 nIdx with down := some pk })).set k
              ({ nodeAt M1 k with down := some nIdx })).getD i dNode).el = (nodeAt M1 i).el
            rw [hA i hik hi]
          · show (((M1.arena.set nIdx ({ nodeAt M1 nIdx with down := some pk })).set k
              ({ nodeAt M1 k with down := some nIdx })).getD i dNode).right = (nodeAt M1 i).right
            rw [hA i hik hi]
      · show (((M1.arena.set nIdx ({ nodeAt M1 nIdx with down := some pk })).set k
          ({ nodeAt M1 k with down := some nIdx })).getD nIdx dNode).row = (nodeAt M1 nIdx).row
        rw [hBn]
      · show (((M1.arena.set nIdx ({ nodeAt M1 nIdx with down := some pk })).set k
          ({ nodeAt M1 k with down := some nIdx })).getD nIdx dNode).col = (nodeAt M1 nIdx).col
        rw [hBn]
      · show (((M1.arena.set nIdx ({ nodeAt M1 nIdx with down := some pk })).set k
          ({ nodeAt M1 k with down := some nIdx })).getD nIdx dNode).el = (nodeAt M1 nIdx).el
        rw [hBn]
      · show (((M1.arena.set nIdx ({ nodeAt M1 nIdx with down := some pk })).set k
          ({ nodeAt M1 k with down := some nIdx })).getD nIdx dNode).right = (nodeAt M1 nIdx).right
        rw [hBn]
      · intro i hi hiK
        have hik : i ≠ k := fun he => hiK (he ▸ hkK)
        show (((M1.arena.set nIdx ({ nodeAt M1 nIdx with down := some pk })).set k
          ({ nodeAt M1 k with down := some nIdx })).getD i dNode).down = (nodeAt M1 i).down
        rw [hA i hik hi]
      · intro c2 _
        rfl
      · refine ⟨pc0, hpc, ?_⟩
        rw [htw]
        rw [htw] at hseg1
        obtain ⟨mid3, hsegA, hsegB⟩ := lseg_append.mp hseg1
        obtain ⟨hmid3, hkb, hkdown⟩ := hsegB
        have htwnd : (tw2 ++ [k]).Nodup := by
          rw [← htw]
          exact hKnd.sublist (List.takeWhile_sublist _)
        -- the new chain: tw2, k, nIdx, then pk :: K2
        have hdownOf : ∀ i, i ≠ k → i ≠ nIdx →
            downOf { { M1 with
              arena := M1.arena.set nIdx ({ nodeAt M1 nIdx with down := some pk }) } with
              arena := (M1.arena.set nIdx ({ nodeAt M1 nIdx with down := some pk })).set k
                ({ nodeAt M1 k with down := some nIdx }) } i = downOf M1 i := by
          intro i hik hin
          unfold downOf
          show (((M1.arena.set nIdx _).set k _).getD i dNode).down = _
          rw [hA i hik hin]
        refine lseg_append.mpr ⟨some nIdx, ?_, ?_⟩
        · -- segment tw2 ++ [k] ending at the new node
          refine lseg_append.mpr ⟨mid3, ?_, ?_⟩
          · refine lseg_congr (by simp) hsegA ?_
            intro i hi
            have hik : i ≠ k := by
              intro he
              subst he
              rw [List.nodup_append] at htwnd
              exact htwnd.2.2 hi (List.mem_cons_self i [])
            have hin : i ≠ nIdx := by
              intro he
              have h1 : i ∈ K.takeWhile fun x => decide (rowOf M1 x < r) := by
                rw [htw]
                exact List.mem_append.mpr (Or.inl hi)
              exact hnotinK (he ▸ (List.takeWhile_sublist _).mem h1)
            exact hdownOf i hik hin
          · subst hmid3
            refine ⟨rfl, by simpa using hklt, ?_⟩
            show LSeg _ _ (downOf _ k) [] (some nIdx)
            unfold downOf
            show ((((M1.arena.set nIdx _).set k _).getD k dNode).down = some nIdx)
            rw [hBk]
        · refine ⟨rfl, by simpa using hn, ?_⟩
          show LSeg _ _ (downOf _ nIdx) (pk :: K2) none
          unfold downOf
          show LSeg _ _ (((M1.arena.set nIdx _).set k _).getD nIdx dNode).down (pk :: K2) none
          rw [hBn]
          show LSeg _ _ (some pk) (pk :: K2) none
          refine ⟨rfl, by simpa using hpkb, ?_⟩
          have hKdwnd : (pk :: K2).Nodup := by
            rw [← hdw]
            exact hKnd.sublist (List.dropWhile_sublist _)
          have hdis : ∀ i ∈ K2, i ≠ k := by
            intro i hi he
            subst he
            have h1 : i ∈ K.dropWhile fun x => decide (rowOf M1 x < r) := by
              rw [hdw]
              exact List.mem_cons_of_mem pk hi
            have h2 : i ∈ K.takeWhile fun x => decide (rowOf M1 x < r) := hktw
            rw [← hKsplit] at hKnd
            rw [List.nodup_append] at hKnd
            exact hKnd.2.2 h2 h1
          have hpkk : pk ≠ k := by
            intro he
            rw [← hKsplit] at hKnd
            rw [List.nodup_append] at hKnd
            exact hKnd.2.2
              (show pk ∈ K.takeWhile fun x => decide (rowOf M1 x < r) by
                rw [he]
                exact hktw)
              (show pk ∈ K.dropWhile fun x => decide (rowOf M1 x < r) by
                rw [hdw]
                exact List.mem_cons_self pk K2)
          show LSeg _ _ (((M1.arena.set nIdx ({ nodeAt M1 nIdx with down := some pk })).set k
            ({ nodeAt M1 k with down := some nIdx })).getD pk dNode).down K2 none
          rw [hA pk hpkk hpknIdx]
          refine lseg_congr (by simp) hseg2r ?_
          intro i hi
          have hin : i ≠ nIdx := by
            intro he
            have h1 : i ∈ K.dropWhile fun x => decide (rowOf M1 x < r) := by
              rw [hdw]
              exact List.mem_cons_of_mem pk hi
            exact hnotinK (he ▸ (List.dropWhile_sublist _).mem h1)
          show (((M1.arena.set nIdx ({ nodeAt M1 nIdx with down := some pk })).set k
            ({ nodeAt M1 k with down := some nIdx })).getD i dNode).down = downOf M1 i
          rw [hA i (hdis i hi) hin]
          rfl

theorem rows_mem_lt {M : Matrix} (hW : M.WfP) {r : Nat} (hr : r < M.nrows) :
    ∀ i ∈ M.rows r, i < M.arena.length := by
  obtain ⟨p, hp, hL⟩ := rowChain_lseg (hW.rowsChain r hr)
  exact lseg_mem_lt hL

theorem cols_mem_lt {M : Matrix} (hW : M.WfP) {c : Nat} (hc : c < M.ncols) :
    ∀ i ∈ M.cols c, i < M.arena.length := by
  obtain ⟨p, hp, hL⟩ := colChain_lseg (hW.colsChain c hc)
  exact lseg_mem_lt hL

theorem col_absence {M : Matrix} (hW : M.WfP) {r c : Nat} (hr : r < M.nrows)
    (hc : c < M.ncols) (habs : ∀ i ∈ M.rows r, colOf M i ≠ c) :
    ∀ i ∈ M.cols c, rowOf M i ≠ r := by
  intro i hi he
  obtain ⟨r2, hr2, hir2⟩ := (hW.memIff i).mpr ⟨c, hc, hi⟩
  have hlab := hW.rowsLabel r2 hr2 i hir2
  have hclab := hW.colsLabel c hc i hi
  have : r2 = r := by
    rw [← hlab.1, he]
  subst this
  exact habs i hir2 hclab.1

theorem takeWhile_congr_mem {p q : Nat → Bool} :
    ∀ {l : List Nat}, (∀ x ∈ l, p x = q x) →
      l.takeWhile p = l.takeWhile q ∧ l.dropWhile p = l.dropWhile q := by
  intro l
  induction l with
  | nil => intro _; exact ⟨rfl, rfl⟩
  | cons i l ih =>
    intro h
    have hi := h i (List.mem_cons_self i l)
    have ihl := ih fun x hx => h x (List.mem_cons_of_mem i hx)
    constructor
    · rw [List.takeWhile_cons, List.takeWhile_cons, hi, ihl.1]
    · rw [List.dropWhile_cons, List.dropWhile_cons, hi, ihl.2]

theorem mem_rows_row {M : Matrix} (hW : M.WfP) {r : Nat} (hr : r < M.nrows) {i : Nat}
    (hi : i ∈ M.rows r) : rowOf M i = r := (hW.rowsLabel r hr i hi).1

theorem mem_cols_col {M : Matrix} (hW : M.WfP) {c : Nat} (hc : c < M.ncols) {i : Nat}
    (hi : i ∈ M.cols c) : colOf M i = c := (hW.colsLabel c hc i hi).1

theorem rows_transfer {M M2 : Matrix} (hW : M.WfP) {r2 : Nat} (hr2 : r2 < M.nrows)
    (hlen : M.arena.length ≤ M2.arena.length)
    (hhead : M2.prow[r2]? = M.prow[r2]?)
    (hright : ∀ i ∈ M.rows r2, rightOf M2 i = rightOf M i) :
    M2.rowChain r2 = some (M.rows r2) := by
  obtain ⟨p, hp, hL⟩ := rowChain_lseg (hW.rowsChain r2 hr2)
  refine rowChain_eq_of_lseg (hhead.trans hp) ?_ (rows_nodup hW hr2)
  exact lseg_congr hlen hL hright

theorem cols_transfer {M M2 : Matrix} (hW : M.WfP) {c2 : Nat} (hc2 : c2 < M.ncols)
    (hlen : M.arena.length ≤ M2.arena.length)
    (hhead : M2.pcol[c2]? = M.pcol[c2]?)
    (hdown : ∀ i ∈ M.cols c2, downOf M2 i = downOf M i) :
    M2.colChain c2 = some (M.cols c2) := by
  obtain ⟨p, hp, hL⟩ := colChain_lseg (hW.colsChain c2 hc2)
  refine colChain_eq_of_lseg (hhead.trans hp) ?_ (cols_nodup hW hc2)
  exact lseg_congr hlen hL hdown

theorem rowSplice_spec {M : Matrix} (hW : M.WfP) {r c : Nat} (hr : r < M.nrows)
    (hc : c < M.ncols) (v : Int) :
    ∃ M1, M.insertnode r c
        ((M.rows r).takeWhile fun i => decide (colOf M i < c)).getLast? v =
        insertCol M1 r c M.arena.length ∧
      M1.nrows = M.nrows ∧ M1.ncols = M.ncols ∧ M1.pcol = M.pcol ∧
      M1.prow.length = M.prow.length ∧
      M1.arena.length = M.arena.length + 1 ∧
      (∀ i, i < M.arena.length → rowOf M1 i = rowOf M i ∧ colOf M1 i = colOf M i ∧
        elOf M1 i = elOf M i ∧ downOf M1 i = downOf M i) ∧
      rowOf M1 M.arena.length = r ∧ colOf M1 M.arena.length = c ∧
      elOf M1 M.arena.length = v ∧ downOf M1 M.arena.length = none ∧
      (∃ p1, M1.prow[r]? = some p1 ∧ LSeg (rightOf M1) (M.arena.length + 1) p1
        (((M.rows r).takeWhile fun i => decide (colOf M i < c)) ++ M.arena.length ::
          ((M.rows r).dropWhile fun i => decide (colOf M i < c))) none) ∧
      (∀ r2, r2 ≠ r → M1.prow[r2]? = M.prow[r2]?) ∧
      (∀ i, i < M.arena.length → i ∉ M.rows r → rightOf M1 i = rightOf M i) := by
  obtain ⟨p0, hp0, hLrow⟩ := rowChain_lseg (hW.rowsChain r hr)
  have hnd := rows_nodup hW hr
  have hsplit : ((M.rows r).takeWhile fun i => decide (colOf M i < c)) ++
      ((M.rows r).dropWhile fun i => decide (colOf M i < c)) = M.rows r :=
    List.takeWhile_append_dropWhile ..
  cases hlast : ((M.rows r).takeWhile fun i => decide (colOf M i < c)).getLast? with
  | none =>
    have htw : ((M.rows r).takeWhile fun i => decide (colOf M i < c)) = [] :=
      List.getLast?_eq_none_iff.mp hlast
    have hdw : ((M.rows r).dropWhile fun i => decide (colOf M i < c)) = M.rows r := by
      conv_rhs => rw [← hsplit, htw]
      rfl
    have hev : M.insertnode r c none v =
        insertCol
          { M with
            arena := M.arena ++ [(⟨r, c, v, p0, none⟩ : Node)],
            prow := M.prow.set r (some M.arena.length) }
          r c M.arena.length := by
      unfold Matrix.insertnode
      rw [hp0]
      dsimp only
      unfold setAt
      rw [if_pos (show r < M.prow.length from hW.hprow ▸ hr)]
      rfl
    have hgA : ∀ i, i < M.arena.length →
        (M.arena ++ [(⟨r, c, v, p0, none⟩ : Node)]).getD i dNode = nodeAt M i :=
      fun i hi => getD_append_lt hi
    have hgN : (M.arena ++ [(⟨r, c, v, p0, none⟩ : Node)]).getD M.arena.length dNode =
        ⟨r, c, v, p0, none⟩ := getD_append_len _
    refine ⟨_, hev, rfl, rfl, rfl, by simp, by simp, ?_, ?_, ?_, ?_, ?_, ?_, ?_, ?_⟩
    · intro i hi
      refine ⟨?_, ?_, ?_, ?_⟩
      · show ((M.arena ++ [(⟨r, c, v, p0, none⟩ : Node)]).getD i dNode).row = (nodeAt M i).row
        rw [hgA i hi]
      · show ((M.arena ++ [(⟨r, c, v, p0, none⟩ : Node)]).getD i dNode).col = (nodeAt M i).col
        rw [hgA i hi]
      · show ((M.arena ++ [(⟨r, c, v, p0, none⟩ : Node)]).getD i dNode).el = (nodeAt M i).el
        rw [hgA i hi]
      · show ((M.arena ++ [(⟨r, c, v, p0, none⟩ : Node)]).getD i dNode).down = (nodeAt M i).down
        rw [hgA i hi]
    · show ((M.arena ++ [(⟨r, c, v, p0, none⟩ : Node)]).getD M.arena.length dNode).row = r
      rw [hgN]
    · show ((M.arena ++ [(⟨r, c, v, p0, none⟩ : Node)]).getD M.arena.length dNode).col = c
      rw [hgN]
    · show ((M.arena ++ [(⟨r, c, v, p0, none⟩ : Node)]).getD M.arena.length dNode).el = v
      rw [hgN]
    · show ((M.arena ++ [(⟨r, c, v, p0, none⟩ : Node)]).getD M.arena.length dNode).down = none
      rw [hgN]
    · refine ⟨some M.arena.length, ?_, ?_⟩
      · exact List.getElem?_set_self (by rw [hW.hprow]; simpa using hr)
      · rw [htw, hdw]
        refine ⟨rfl, by simp, ?_⟩
        show LSeg _ _
          (((M.arena ++ [(⟨r, c, v, p0, none⟩ : Node)]).getD M.arena.length dNode).right)
          (M.rows r) none
        rw [hgN]
        show LSeg _ _ p0 (M.rows r) none
        refine lseg_congr (by simp) hLrow ?_
        intro i hi
        have hil : i < M.arena.length := lseg_mem_lt hLrow i hi
        show ((M.arena ++ [(⟨r, c, v, p0, none⟩ : Node)]).getD i dNode).right = (nodeAt M i).right
        rw [hgA i hil]
    · intro r2 hr2
      exact List.getElem?_set_ne (Ne.symm hr2)
    · intro i hi _
      show ((M.arena ++ [(⟨r, c, v, p0, none⟩ : Node)]).getD i dNode).right = (nodeAt M i).right
      rw [hgA i hi]
  | some j =>
    obtain ⟨tw2, htw⟩ := getLast?_split hlast
    have hjtw : j ∈ (M.rows r).takeWhile fun i => decide (colOf M i < c) := by
      rw [htw]
      simp
    have hjl : j ∈ M.rows r := (List.takeWhile_sublist _).mem hjtw
    have hjlt : j < M.arena.length := lseg_mem_lt hLrow j hjl
    have hev : M.insertnode r c (some j) v =
        insertCol
          { M with
            arena := (M.arena ++ [(⟨r, c, v, (nodeAt M j).right, none⟩ : Node)]).set j
              ({ nodeAt M j with right := some M.arena.length }) }
          r c M.arena.length := by
      unfold Matrix.insertnode
      dsimp only
      rw [getElem?_arena_eq hjlt]
    -- the old chain decomposed around j
    have hLdec : LSeg (rightOf M) M.arena.length p0
        ((tw2 ++ [j]) ++ ((M.rows r).dropWhile fun i => decide (colOf M i < c))) none := by
      rw [← htw, hsplit]
      exact hLrow
    obtain ⟨midD, hseg1, hseg2⟩ := lseg_append.mp hLdec
    obtain ⟨mid3, hsegA, hsegB⟩ := lseg_append.mp hseg1
    obtain ⟨hmid3, hjb, hjright⟩ := hsegB
    rw [lseg_nil] at hjright
    -- read facts
    have hgA : ∀ i, i < M.arena.length → i ≠ j →
        ((M.arena ++ [(⟨r, c, v, (nodeAt M j).right, none⟩ : Node)]).set j
          ({ nodeAt M j with right := some M.arena.length })).getD i dNode = nodeAt M i := by
      intro i hi hij
      rw [getD_set_ne _ hij]
      exact getD_append_lt hi
    have hgJ : ((M.arena ++ [(⟨r, c, v, (nodeAt M j).right, none⟩ : Node)]).set j
        ({ nodeAt M j with right := some M.arena.length })).getD j dNode =
        { nodeAt M j with right := some M.arena.length } :=
      getD_set_self _ (by simp [Nat.lt_succ_of_lt hjlt])
    have hgN : ((M.arena ++ [(⟨r, c, v, (nodeAt M j).right, none⟩ : Node)]).set j
        ({ nodeAt M j with right := some M.arena.length })).getD M.arena.length dNode =
        ⟨r, c, v, (nodeAt M j).right, none⟩ := by
      rw [getD_set_ne _ (Nat.ne_of_gt hjlt)]
      exact getD_append_len _
    have htwnd : (tw2 ++ [j]).Nodup := by
      rw [← htw]
      exact hnd.sublist (List.takeWhile_sublist _)
    refine ⟨_, hev, rfl, rfl, rfl, rfl, by simp, ?_, ?_, ?_, ?_, ?_, ?_, ?_, ?_⟩
    · intro i hi
      by_cases hij : i = j
      · subst hij
        refine ⟨?_, ?_, ?_, ?_⟩
        · show (((M.arena ++ [(⟨r, c, v, (nodeAt M i).right, none⟩ : Node)]).set i
            ({ nodeAt M i with right := some M.arena.length })).getD i dNode).row =
            (nodeAt M i).row
          rw [getD_set_self _ (by simp [Nat.lt_succ_of_lt hi])]
        · show (((M.arena ++ [(⟨r, c, v, (nodeAt M i).right, none⟩ : Node)]).set i
            ({ nodeAt M i with right := some M.arena.length })).getD i dNode).col =
            (nodeAt M i).col
          rw [getD_set_self _ (by simp [Nat.lt_succ_of_lt hi])]
        · show (((M.arena ++ [(⟨r, c, v, (nodeAt M i).right, none⟩ : Node)]).set i
            ({ nodeAt M i with right := some M.arena.length })).getD i dNode).el =
            (nodeAt M i).el
          rw [getD_set_self _ (by simp [Nat.lt_succ_of_lt hi])]
        · show (((M.arena ++ [(⟨r, c, v, (nodeAt M i).right, none⟩ : Node)]).set i
            ({ nodeAt M i with right := some M.arena.length })).getD i dNode).down =
            (nodeAt M i).down
          rw [getD_set_self _ (by simp [Nat.lt_succ_of_lt hi])]
      · refine ⟨?_, ?_, ?_, ?_⟩
        · show (((M.arena ++ [(⟨r, c, v, (nodeAt M j).right, none⟩ : Node)]).set j
            ({ nodeAt M j with right := some M.arena.length })).getD i dNode).row =
            (nodeAt M i).row
          rw [hgA i hi hij]
        · show (((M.arena ++ [(⟨r, c, v, (nodeAt M j).right, none⟩ : Node)]).set j
            ({ nodeAt M j with right := some M.arena.length })).getD i dNode).col =
            (nodeAt M i).col
          rw [hgA i hi hij]
        · show (((M.arena ++ [(⟨r, c, v, (nodeAt M j).right, none⟩ : Node)]).set j
            ({ nodeAt M j with right := some M.arena.length })).getD i dNode).el =
            (nodeAt M i).el
          rw [hgA i hi hij]
        · show (((M.arena ++ [(⟨r, c, v, (nodeAt M j).right, none⟩ : Node)]).set j
            ({ nodeAt M j with right := some M.arena.length })).getD i dNode).down =
            (nodeAt M i).down
          rw [hgA i hi hij]
    · show (((M.arena ++ [(⟨r, c, v, (nodeAt M j).right, none⟩ : Node)]).set j
        ({ nodeAt M j with right := some M.arena.length })).getD M.arena.length dNode).row = r
      rw [hgN]
    · show (((M.arena ++ [(⟨r, c, v, (nodeAt M j).right, none⟩ : Node)]).set j
        ({ nodeAt M j with right := some M.arena.length })).getD M.arena.length dNode).col = c
      rw [hgN]
    · show (((M.arena ++ [(⟨r, c, v, (nodeAt M j).right, none⟩ : Node)]).set j
        ({ nodeAt M j with right := some M.arena.length })).getD M.arena.length dNode).el = v
      rw [hgN]
    · show (((M.arena ++ [(⟨r, c, v, (nodeAt M j).right, none⟩ : Node)]).set j
        ({ nodeAt M j with right := some M.arena.length })).getD M.arena.length dNode).down =
        none
      rw [hgN]
    · refine ⟨p0, hp0, ?_⟩
      rw [htw]
      refine lseg_append.mpr ⟨some M.arena.length, ?_, ?_⟩
      · refine lseg_append.mpr ⟨mid3, ?_, ?_⟩
        · refine lseg_congr (by simp) hsegA ?_
          intro i hi
          have hij : i ≠ j := by
            intro he
            rw [List.nodup_append] at htwnd
            refine htwnd.2.2 hi ?_
            rw [he]
            exact List.mem_cons_self j []
          have hil : i < M.arena.length := lseg_mem_lt hsegA i hi
          show (((M.arena ++ [(⟨r, c, v, (nodeAt M j).right, none⟩ : Node)]).set j
            ({ nodeAt M j with right := some M.arena.length })).getD i dNode).right =
            (nodeAt M i).right
          rw [hgA i hil hij]
        · subst hmid3
          refine ⟨rfl, Nat.lt_succ_of_lt hjlt, ?_⟩
          show LSeg _ _ ((((M.arena ++ [(⟨r, c, v, (nodeAt M j).right, none⟩ : Node)]).set j
            ({ nodeAt M j with right := some M.arena.length })).getD j dNode).right) []
            (some M.arena.length)
          rw [hgJ]
          rfl
      · refine ⟨rfl, by simp, ?_⟩
        show LSeg _ _ ((((M.arena ++ [(⟨r, c, v, (nodeAt M j).right, none⟩ : Node)]).set j
          ({ nodeAt M j with right := some M.arena.length })).getD M.arena.length dNode).right)
          ((M.rows r).dropWhile fun i => decide (colOf M i < c)) none
        rw [hgN]
        show LSeg _ _ ((nodeAt M j).right)
          ((M.rows r).dropWhile fun i => decide (colOf M i < c)) none
        have hseg2b : LSeg (rightOf M) M.arena.length ((nodeAt M j).right)
            ((M.rows r).dropWhile fun i => decide (colOf M i < c)) none := by
          rw [show (nodeAt M j).right = midD from hjright]
          exact hseg2
        refine lseg_congr (by simp) hseg2b ?_
        intro i hi
        have hidw : i ∈ M.rows r := (List.dropWhile_sublist _).mem hi
        have hil : i < M.arena.length := lseg_mem_lt hLrow i hidw
        have hij : i ≠ j := by
          intro he
          rw [← hsplit] at hnd
          rw [List.nodup_append] at hnd
          refine hnd.2.2 ?_ hi
          rw [he]
          exact hjtw
        show (((M.arena ++ [(⟨r, c, v, (nodeAt M j).right, none⟩ : Node)]).set j
          ({ nodeAt M j with right := some M.arena.length })).getD i dNode).right =
          (nodeAt M i).right
        rw [hgA i hil hij]
    · intro r2 _
      rfl
    · intro i hi hir
      have hij : i ≠ j := fun he => hir (he ▸ hjl)
      show (((M.arena ++ [(⟨r, c, v, (nodeAt M j).right, none⟩ : Node)]).set j
        ({ nodeAt M j with right := some M.arena.length })).getD i dNode).right =
        (nodeAt M i).right
      rw [hgA i hi hij]

theorem find?_congr {p q : Nat → Bool} :
    ∀ {l : List Nat}, (∀ x ∈ l, p x = q x) → l.find? p = l.find? q := by
  intro l
  induction l with
  | nil => intro _; rfl
  | cons i l ih =>
    intro h
    have hi := h i (List.mem_cons_self i l)
    have ihl := ih fun x hx => h x (List.mem_cons_of_mem i hx)
    by_cases hq : q i = true
    · rw [List.find?_cons_of_pos _ (hi.trans hq), List.find?_cons_of_pos _ hq]
    · have hq2 : q i = false := Bool.eq_false_iff.mpr hq
      rw [List.find?_cons_of_neg _ (by rw [hi, hq2]; exact Bool.false_ne_true),
        List.find?_cons_of_neg _ (by rw [hq2]; exact Bool.false_ne_true)]
      exact ihl

theorem find?_append_none {p : Nat → Bool} {l2 : List Nat} :
    ∀ {l1 : List Nat}, l1.find? p = none → (l1 ++ l2).find? p = l2.find? p := by
  intro l1
  induction l1 with
  | nil => intro _; rfl
  | cons i l1 ih =>
    intro h
    have hi : ¬ p i = true := by
      intro hp
      rw [List.find?_cons_of_pos _ hp] at h
      exact Option.noConfusion h
    rw [List.find?_cons_of_neg _ hi] at h
    rw [List.cons_append, List.find?_cons_of_neg _ hi]
    exact ih h

theorem find?_middle {x : Nat} {p : Nat → Bool} (hx : ¬ p x = true) :
    ∀ (l1 l2 : List Nat), (l1 ++ x :: l2).find? p = (l1 ++ l2).find? p := by
  intro l1
  induction l1 with
  | nil =>
    intro l2
    exact List.find?_cons_of_neg _ hx
  | cons a l1 ih =>
    intro l2
    by_cases ha : p a = true
    · rw [List.cons_append, List.find?_cons_of_pos _ ha, List.cons_append,
        List.find?_cons_of_pos _ ha]
    · rw [List.cons_append, List.find?_cons_of_neg _ ha, List.cons_append,
        List.find?_cons_of_neg _ ha]
      exact ih l2

theorem getval_congr {M M2 : Matrix} {r2 : Nat} (hrows : M2.rows r2 = M.rows r2)
    (hcol : ∀ i ∈ M.rows r2, colOf M2 i = colOf M i)
    (hel : ∀ i ∈ M.rows r2, elOf M2 i = elOf M i) (c2 : Nat) :
    M2.getval r2 c2 = M.getval r2 c2 := by
  unfold Matrix.getval
  rw [hrows, find?_congr (fun x hx => by rw [hcol x hx])]
  cases hf : (M.rows r2).find? (fun i => colOf M i == c2) with
  | none => rfl
  | some i => exact hel i (List.mem_of_find?_eq_some hf)

theorem insertnode_spec {M : Matrix} (hW : M.WfP) {r c : Nat} (hr : r < M.nrows)
    (hc : c < M.ncols) (habs : ∀ i ∈ M.rows r, colOf M i ≠ c) (v : Int) :
    ∃ M2, M.insertnode r c
        (((M.rows r).takeWhile fun i => decide (colOf M i < c)).getLast?) v = some M2 ∧
      M2.WfP ∧
      M2.nrows = M.nrows ∧ M2.ncols = M.ncols ∧
      M2.arena.length = M.arena.length + 1 ∧
      (∀ i, i < M.arena.length → rowOf M2 i = rowOf M i ∧ colOf M2 i = colOf M i ∧
        elOf M2 i = elOf M i) ∧
      rowOf M2 M.arena.length = r ∧ colOf M2 M.arena.length = c ∧
      elOf M2 M.arena.length = v ∧
      M2.rows r = ((M.rows r).takeWhile fun i => decide (colOf M i < c)) ++
        M.arena.length :: ((M.rows r).dropWhile fun i => decide (colOf M i < c)) ∧
      (∀ r2, r2 < M.nrows → r2 ≠ r → M2.rows r2 = M.rows r2) ∧
      M2.cols c = ((M.cols c).takeWhile fun i => decide (rowOf M i < r)) ++
        M.arena.length :: ((M.cols c).dropWhile fun i => decide (rowOf M i < r)) ∧
      (∀ c2, c2 < M.ncols → c2 ≠ c → M2.cols c2 = M.cols c2) := by
  obtain ⟨M1, hev, h1nr, h1nc, h1pcol, h1prlen, h1alen, h1pres, h1rown, h1coln, h1eln,
    h1downn, ⟨p1, hp1, hL1⟩, h1prEq, h1rightPres⟩ := rowSplice_spec hW hr hc v
  have hndr := rows_nodup hW hr
  have hndc := cols_nodup hW hc
  obtain ⟨pc0, hpcM, hLcolM⟩ := colChain_lseg (hW.colsChain c hc)
  have habsc : ∀ i ∈ M.cols c, rowOf M i ≠ r := col_absence hW hr hc habs
  have hKlt : ∀ i ∈ M.cols c, i < M.arena.length := cols_mem_lt hW hc
  have hrowlt : ∀ i ∈ M.rows r, i < M.arena.length := rows_mem_lt hW hr
  have hn : M.arena.length < M1.arena.length := by
    rw [h1alen]
    exact Nat.lt_succ_self _
  have hpc1' : M1.pcol[c]? = some pc0 := by
    rw [h1pcol]
    exact hpcM
  have hK1 : LSeg (downOf M1) M1.arena.length pc0 (M.cols c) none := by
    rw [h1alen]
    exact lseg_congr (Nat.le_succ _) hLcolM fun i hi => (h1pres i (hKlt i hi)).2.2.2
  have hKrows1 : ∀ i ∈ M.cols c, rowOf M1 i ≠ r := fun i hi => by
    rw [(h1pres i (hKlt i hi)).1]
    exact habsc i hi
  have hnotinK : M.arena.length ∉ M.cols c := fun hmem =>
    absurd (hKlt _ hmem) (lt_irrefl _)
  have hclen1 : c < M1.pcol.length := by
    rw [h1pcol, hW.hpcol]
    exact hc
  obtain ⟨M2, hev2, h2nr, h2nc, h2prow, h2pclen, h2alen, h2pres, h2rown, h2coln, h2eln,
    h2rightn, h2downPres, h2pcolEq, pc1, hpc1, hLcol2⟩ :=
    insertCol_spec hn h1downn hpc1' hK1 hndc hKrows1 hnotinK hclen1
  have hnr : M2.nrows = M.nrows := h2nr.trans h1nr
  have hnc : M2.ncols = M.ncols := h2nc.trans h1nc
  have halen : M2.arena.length = M.arena.length + 1 := by
    rw [h2alen, h1alen]
  have hpres : ∀ i, i < M.arena.length → rowOf M2 i = rowOf M i ∧ colOf M2 i = colOf M i ∧
      elOf M2 i = elOf M i := by
    intro i hi
    have hne : i ≠ M.arena.length := Nat.ne_of_lt hi
    obtain ⟨ha, hb, hcc, _⟩ := h2pres i hne
    obtain ⟨ha1, hb1, hc1, _⟩ := h1pres i hi
    exact ⟨ha.trans ha1, hb.trans hb1, hcc.trans hc1⟩
  have hrowN : rowOf M2 M.arena.length = r := h2rown.trans h1rown
  have hcolN : colOf M2 M.arena.length = c := h2coln.trans h1coln
  have helN : elOf M2 M.arena.length = v := h2eln.trans h1eln
  have hright21 : ∀ i, rightOf M2 i = rightOf M1 i := by
    intro i
    by_cases hi : i = M.arena.length
    · subst hi
      exact h2rightn
    · exact (h2pres i hi).2.2.2
  -- the new row chain of r
  have hsplitR : ((M.rows r).takeWhile fun i => decide (colOf M i < c)) ++
      ((M.rows r).dropWhile fun i => decide (colOf M i < c)) = M.rows r :=
    List.takeWhile_append_dropWhile ..
  have hndlistR : (((M.rows r).takeWhile fun i => decide (colOf M i < c)) ++
      M.arena.length :: ((M.rows r).dropWhile fun i => decide (colOf M i < c))).Nodup := by
    refine nodup_insert_middle ?_ ?_
    · rw [hsplitR]
      exact hndr
    · rw [hsplitR]
      intro hmem
      exact absurd (hrowlt _ hmem) (lt_irrefl _)
  have hL2row : LSeg (rightOf M2) M2.arena.length p1
      (((M.rows r).takeWhile fun i => decide (colOf M i < c)) ++
        M.arena.length :: ((M.rows r).dropWhile fun i => decide (colOf M i < c))) none := by
    refine lseg_congr (le_of_eq halen.symm) hL1 fun i _ => hright21 i
  have hp1' : M2.prow[r]? = some p1 := by
    rw [h2prow]
    exact hp1
  have hrowchainr : M2.rowChain r =
      some (((M.rows r).takeWhile fun i => decide (colOf M i < c)) ++
        M.arena.length :: ((M.rows r).dropWhile fun i => decide (colOf M i < c))) :=
    rowChain_eq_of_lseg hp1' hL2row hndlistR
  have hrowsr : M2.rows r = ((M.rows r).takeWhile fun i => decide (colOf M i < c)) ++
      M.arena.length :: ((M.rows r).dropWhile fun i => decide (colOf M i < c)) :=
    rows_eq_of_rowChain hrowchainr
  -- other rows unchanged
  have hrowchain2 : ∀ r2, r2 < M.nrows → r2 ≠ r → M2.rowChain r2 = some (M.rows r2) := by
    intro r2 hr2 hne
    refine rows_transfer hW hr2 (by rw [halen]; exact Nat.le_succ _) ?_ ?_
    · rw [h2prow]
      exact h1prEq r2 hne
    · intro i hi
      have hlt := rows_mem_lt hW hr2 i hi
      have hnotin : i ∉ M.rows r := by
        intro hmem
        have hA := mem_rows_row hW hr hmem
        have hB := mem_rows_row hW hr2 hi
        exact hne (hA ▸ hB).symm
      rw [hright21 i, h1rightPres i hlt hnotin]
  have hrows2 : ∀ r2, r2 < M.nrows → r2 ≠ r → M2.rows r2 = M.rows r2 :=
    fun r2 hr2 hne => rows_eq_of_rowChain (hrowchain2 r2 hr2 hne)
  -- the new column chain of c
  have hKpred := takeWhile_congr_mem (p := fun i => decide (rowOf M1 i < r))
    (q := fun i => decide (rowOf M i < r)) (l := M.cols c)
    (fun x hx => by
      show decide (rowOf M1 x < r) = decide (rowOf M x < r)
      rw [(h1pres x (hKlt x hx)).1])
  have hsplitC : ((M.cols c).takeWhile fun i => decide (rowOf M i < r)) ++
      ((M.cols c).dropWhile fun i => decide (rowOf M i < r)) = M.cols c :=
    List.takeWhile_append_dropWhile ..
  have hLcol2' : LSeg (downOf M2) M2.arena.length pc1
      (((M.cols c).takeWhile fun i => decide (rowOf M i < r)) ++
        M.arena.length :: ((M.cols c).dropWhile fun i => decide (rowOf M i < r))) none := by
    rw [← hKpred.1, ← hKpred.2]
    exact hLcol2
  have hndlistC : (((M.cols c).takeWhile fun i => decide (rowOf M i < r)) ++
      M.arena.length :: ((M.cols c).dropWhile fun i => decide (rowOf M i < r))).Nodup := by
    refine nodup_insert_middle ?_ ?_
    · rw [hsplitC]
      exact hndc
    · rw [hsplitC]
      intro hmem
      exact absurd (hKlt _ hmem) (lt_irrefl _)
  have hcolchainc : M2.colChain c =
      some (((M.cols c).takeWhile fun i => decide (rowOf M i < r)) ++
        M.arena.length :: ((M.cols c).dropWhile fun i => decide (rowOf M i < r))) :=
    colChain_eq_of_lseg hpc1 hLcol2' hndlistC
  have hcolsc : M2.cols c = ((M.cols c).takeWhile fun i => decide (rowOf M i < r)) ++
      M.arena.length :: ((M.cols c).dropWhile fun i => decide (rowOf M i < r)) :=
    cols_eq_of_colChain hcolchainc
  -- other columns unchanged
  have hcolchain2 : ∀ c2, c2 < M.ncols → c2 ≠ c → M2.colChain c2 = some (M.cols c2) := by
    intro c2 hc2 hne
    refine cols_transfer hW hc2 (by rw [halen]; exact Nat.le_succ _) ?_ ?_
    · rw [h2pcolEq c2 hne, h1pcol]
    · intro i hi
      have hlt := cols_mem_lt hW hc2 i hi
      have hnotin : i ∉ M.cols c := by
        intro hmem
        have hA := mem_cols_col hW hc hmem
        have hB := mem_cols_col hW hc2 hi
        exact hne (hA ▸ hB).symm
      rw [h2downPres i (Nat.ne_of_lt hlt) hnotin, (h1pres i hlt).2.2.2]
  have hcols2 : ∀ c2, c2 < M.ncols → c2 ≠ c → M2.cols c2 = M.cols c2 :=
    fun c2 hc2 hne => cols_eq_of_colChain (hcolchain2 c2 hc2 hne)
  -- well-formedness of the result
  have hrowsP := rows_pairwise hW hr
  have hcolsP := cols_pairwise hW hc
  have hWfP : M2.WfP := by
    refine ⟨?_, ?_, ?_, ?_, ?_, ?_, ?_, ?_, ?_⟩
    · rw [h2prow, h1prlen, hW.hprow, hnr]
    · rw [h2pclen, h1pcol, hW.hpcol, hnc]
    · intro r2 hr2
      rw [hnr] at hr2
      by_cases hre : r = r2
      · subst hre
        rw [hrowsr]
        exact hrowchainr
      · rw [hrows2 r2 hr2 (Ne.symm hre)]
        exact hrowchain2 r2 hr2 (Ne.symm hre)
    · intro c2 hc2
      rw [hnc] at hc2
      by_cases hce : c = c2
      · subst hce
        rw [hcolsc]
        exact hcolchainc
      · rw [hcols2 c2 hc2 (Ne.symm hce)]
        exact hcolchain2 c2 hc2 (Ne.symm hce)
    · intro r2 hr2 i hi
      rw [hnr] at hr2
      by_cases hre : r = r2
      · subst hre
        rw [hrowsr] at hi
        rcases List.mem_append.mp hi with h1 | h1
        · have hiM : i ∈ M.rows r := (List.takeWhile_sublist _).mem h1
          have hlt := hrowlt i hiM
          rw [(hpres i hlt).1, (hpres i hlt).2.1, hnc]
          exact hW.rowsLabel r hr i hiM
        · rcases List.mem_cons.mp h1 with h2 | h2
          · subst h2
            refine ⟨hrowN, ?_⟩
            rw [hcolN, hnc]
            exact hc
          · have hiM : i ∈ M.rows r := (List.dropWhile_sublist _).mem h2
            have hlt := hrowlt i hiM
            rw [(hpres i hlt).1, (hpres i hlt).2.1, hnc]
            exact hW.rowsLabel r hr i hiM
      · rw [hrows2 r2 hr2 (Ne.symm hre)] at hi
        have hlt := rows_mem_lt hW hr2 i hi
        rw [(hpres i hlt).1, (hpres i hlt).2.1, hnc]
        exact hW.rowsLabel r2 hr2 i hi
    · intro c2 hc2 i hi
      rw [hnc] at hc2
      by_cases hce : c = c2
      · subst hce
        rw [hcolsc] at hi
        rcases List.mem_append.mp hi with h1 | h1
        · have hiM : i ∈ M.cols c := (List.takeWhile_sublist _).mem h1
          have hlt := hKlt i hiM
          rw [(hpres i hlt).1, (hpres i hlt).2.1, hnr]
          exact hW.colsLabel c hc i hiM
        · rcases List.mem_cons.mp h1 with h2 | h2
          · subst h2
            refine ⟨hcolN, ?_⟩
            rw [hrowN, hnr]
            exact hr
          · have hiM : i ∈ M.cols c := (List.dropWhile_sublist _).mem h2
            have hlt := hKlt i hiM
            rw [(hpres i hlt).1, (hpres i hlt).2.1, hnr]
            exact hW.colsLabel c hc i hiM
      · rw [hcols2 c2 hc2 (Ne.symm hce)] at hi
        have hlt := cols_mem_lt hW hc2 i hi
        rw [(hpres i hlt).1, (hpres i hlt).2.1, hnr]
        exact hW.colsLabel c2 hc2 i hi
    · intro r2 hr2
      rw [hnr] at hr2
      haveI : IsTrans Nat (fun i j => colOf M2 i < colOf M2 j) :=
        ⟨fun a b d h1 h2 => lt_trans h1 h2⟩
      by_cases hre : r = r2
      · subst hre
        rw [hrowsr]
        refine List.chain'_iff_pairwise.mpr ?_
        have hPtwdw : (((M.rows r).takeWhile fun i => decide (colOf M i < c)) ++
            ((M.rows r).dropWhile fun i => decide (colOf M i < c))).Pairwise
            (fun i j => colOf M i < colOf M j) := by
          rw [hsplitR]
          exact hrowsP
        obtain ⟨hPtw, hPdw, hPcross⟩ := List.pairwise_append.mp hPtwdw
        refine pairwise_insert_middle ?_ ?_ ?_ ?_ ?_
        · refine List.Pairwise.imp_of_mem ?_ hPtw
          intro a b ha hb hab
          have haM := (List.takeWhile_sublist _).mem ha
          have hbM := (List.takeWhile_sublist _).mem hb
          rw [(hpres a (hrowlt a haM)).2.1, (hpres b (hrowlt b hbM)).2.1]
          exact hab
        · refine List.Pairwise.imp_of_mem ?_ hPdw
          intro a b ha hb hab
          have haM := (List.dropWhile_sublist _).mem ha
          have hbM := (List.dropWhile_sublist _).mem hb
          rw [(hpres a (hrowlt a haM)).2.1, (hpres b (hrowlt b hbM)).2.1]
          exact hab
        · intro a ha
          have haM := (List.takeWhile_sublist _).mem ha
          show colOf M2 a < colOf M2 M.arena.length
          rw [hcolN, (hpres a (hrowlt a haM)).2.1]
          exact takeWhile_lt a ha
        · intro b hb
          have hbM := (List.dropWhile_sublist _).mem hb
          show colOf M2 M.arena.length < colOf M2 b
          rw [hcolN, (hpres b (hrowlt b hbM)).2.1]
          exact Nat.lt_of_le_of_ne (dropWhile_ge hrowsP b hb) (Ne.symm (habs b hbM))
        · intro a ha b hb
          have haM := (List.takeWhile_sublist _).mem ha
          have hbM := (List.dropWhile_sublist _).mem hb
          show colOf M2 a < colOf M2 b
          rw [(hpres a (hrowlt a haM)).2.1, (hpres b (hrowlt b hbM)).2.1]
          exact lt_of_lt_of_le (takeWhile_lt a ha) (dropWhile_ge hrowsP b hb)
      · rw [hrows2 r2 hr2 (Ne.symm hre)]
        refine List.chain'_iff_pairwise.mpr ?_
        refine List.Pairwise.imp_of_mem ?_ (rows_pairwise hW hr2)
        intro a b ha hb hab
        rw [(hpres a (rows_mem_lt hW hr2 a ha)).2.1,
          (hpres b (rows_mem_lt hW hr2 b hb)).2.1]
        exact hab
    · intro c2 hc2
      rw [hnc] at hc2
      haveI : IsTrans Nat (fun i j => rowOf M2 i < rowOf M2 j) :=
        ⟨fun a b d h1 h2 => lt_trans h1 h2⟩
      by_cases hce : c = c2
      · subst hce
        rw [hcolsc]
        refine List.chain'_iff_pairwise.mpr ?_
        have hPtwdw : (((M.cols c).takeWhile fun i => decide (rowOf M i < r)) ++
            ((M.cols c).dropWhile fun i => decide (rowOf M i < r))).Pairwise
            (fun i j => rowOf M i < rowOf M j) := by
          rw [hsplitC]
          exact hcolsP
        obtain ⟨hPtw, hPdw, hPcross⟩ := List.pairwise_append.mp hPtwdw
        refine pairwise_insert_middle ?_ ?_ ?_ ?_ ?_
        · refine List.Pairwise.imp_of_mem ?_ hPtw
          intro a b ha hb hab
          have haM := (List.takeWhile_sublist _).mem ha
          have hbM := (List.takeWhile_sublist _).mem hb
          rw [(hpres a (hKlt a haM)).1, (hpres b (hKlt b hbM)).1]
          exact hab
        · refine List.Pairwise.imp_of_mem ?_ hPdw
          intro a b ha hb hab
          have haM := (List.dropWhile_sublist _).mem ha
          have hbM := (List.dropWhile_sublist _).mem hb
          rw [(hpres a (hKlt a haM)).1, (hpres b (hKlt b hbM)).1]
          exact hab
        · intro a ha
          have haM := (List.takeWhile_sublist _).mem ha
          show rowOf M2 a < rowOf M2 M.arena.length
          rw [hrowN, (hpres a (hKlt a haM)).1]
          exact takeWhile_lt a ha
        · intro b hb
          have hbM := (List.dropWhile_sublist _).mem hb
          show rowOf M2 M.arena.length < rowOf M2 b
          rw [hrowN, (hpres b (hKlt b hbM)).1]
          exact Nat.lt_of_le_of_ne (dropWhile_ge hcolsP b hb) (Ne.symm (habsc b hbM))
        · intro a ha b hb
          have haM := (List.takeWhile_sublist _).mem ha
          have hbM := (List.dropWhile_sublist _).mem hb
          show rowOf M2 a < rowOf M2 b
          rw [(hpres a (hKlt a haM)).1, (hpres b (hKlt b hbM)).1]
          exact lt_of_lt_of_le (takeWhile_lt a ha) (dropWhile_ge hcolsP b hb)
      · rw [hcols2 c2 hc2 (Ne.symm hce)]
        refine List.chain'_iff_pairwise.mpr ?_
        refine List.Pairwise.imp_of_mem ?_ (cols_pairwise hW hc2)
        intro a b ha hb hab
        rw [(hpres a (cols_mem_lt hW hc2 a ha)).1,
          (hpres b (cols_mem_lt hW hc2 b hb)).1]
        exact hab
    · have hmemrow : ∀ i r2, r2 < M.nrows →
          (i ∈ M2.rows r2 ↔ (i ∈ M.rows r2 ∨ (r2 = r ∧ i = M.arena.length))) := by
        intro i r2 hr2
        by_cases hre : r = r2
        · subst hre
          rw [hrowsr]
          constructor
          · intro hi
            rcases List.mem_append.mp hi with h1 | h1
            · exact Or.inl ((List.takeWhile_sublist _).mem h1)
            · rcases List.mem_cons.mp h1 with h2 | h2
              · exact Or.inr ⟨rfl, h2⟩
              · exact Or.inl ((List.dropWhile_sublist _).mem h2)
          · intro hi
            rcases hi with h1 | h1
            · rw [← hsplitR] at h1
              rcases List.mem_append.mp h1 with h3 | h3
              · exact List.mem_append.mpr (Or.inl h3)
              · exact List.mem_append.mpr (Or.inr (List.mem_cons_of_mem _ h3))
            · rw [h1.2]
              exact List.mem_append.mpr (Or.inr (List.mem_cons_self _ _))
        · rw [hrows2 r2 hr2 (Ne.symm hre)]
          constructor
          · exact fun hi => Or.inl hi
          · intro hi
            rcases hi with h1 | h1
            · exact h1
            · exact absurd h1.1 (Ne.symm hre)
      have hmemcol : ∀ i c2, c2 < M.ncols →
          (i ∈ M2.cols c2 ↔ (i ∈ M.cols c2 ∨ (c2 = c ∧ i = M.arena.length))) := by
        intro i c2 hc2
        by_cases hce : c = c2
        · subst hce
          rw [hcolsc]
          constructor
          · intro hi
            rcases List.mem_append.mp hi with h1 | h1
            · exact Or.inl ((List.takeWhile_sublist _).mem h1)
            · rcases List.mem_cons.mp h1 with h2 | h2
              · exact Or.inr ⟨rfl, h2⟩
              · exact Or.inl ((List.dropWhile_sublist _).mem h2)
          · intro hi
            rcases hi with h1 | h1
            · rw [← hsplitC] at h1
              rcases List.mem_append.mp h1 with h3 | h3
              · exact List.mem_append.mpr (Or.inl h3)
              · exact List.mem_append.mpr (Or.inr (List.mem_cons_of_mem _ h3))
            · rw [h1.2]
              exact List.mem_append.mpr (Or.inr (List.mem_cons_self _ _))
        · rw [hcols2 c2 hc2 (Ne.symm hce)]
          constructor
          · exact fun hi => Or.inl hi
          · intro hi
            rcases hi with h1 | h1
            · exact h1
            · exact absurd h1.1 (Ne.symm hce)
      intro i
      constructor
      · rintro ⟨r2, hr2, hi⟩
        rw [hnr] at hr2
        rcases (hmemrow i r2 hr2).mp hi with h1 | h1
        · obtain ⟨c2, hc2, hic⟩ := (hW.memIff i).mp ⟨r2, hr2, h1⟩
          refine ⟨c2, ?_, (hmemcol i c2 hc2).mpr (Or.inl hic)⟩
          rw [hnc]
          exact hc2
        · refine ⟨c, ?_, (hmemcol i c hc).mpr (Or.inr ⟨rfl, h1.2⟩)⟩
          rw [hnc]
          exact hc
      · rintro ⟨c2, hc2, hi⟩
        rw [hnc] at hc2
        rcases (hmemcol i c2 hc2).mp hi with h1 | h1
        · obtain ⟨r2, hr2, hir⟩ := (hW.memIff i).mpr ⟨c2, hc2, h1⟩
          refine ⟨r2, ?_, (hmemrow i r2 hr2).mpr (Or.inl hir)⟩
          rw [hnr]
          exact hr2
        · refine ⟨r, ?_, (hmemrow i r hr).mpr (Or.inr ⟨rfl, h1.2⟩)⟩
          rw [hnr]
          exact hr
  refine ⟨M2, ?_, hWfP, hnr, hnc, halen, hpres, hrowN, hcolN, helN, hrowsr, hrows2,
    hcolsc, hcols2⟩
  rw [hev]
  exact hev2

theorem removeColPhase_spec (Ma : Matrix) {pi r c : Nat} {pc0 : Option Nat}
    {K1 K2 : List Nat}
    (hpilt : pi < Ma.arena.length)
    (hpicol : colOf Ma pi = c)
    (hpirow : rowOf Ma pi = r)
    (hpc : Ma.pcol[c]? = some pc0)
    (hK : LSeg (downOf Ma) Ma.arena.length pc0 (K1 ++ pi :: K2) none)
    (hKnd : (K1 ++ pi :: K2).Nodup)
    (hK1r : ∀ i ∈ K1, rowOf Ma i ≠ r) :
    ∃ M2, removeColPhase Ma pi = some M2 ∧
      M2.nrows = Ma.nrows ∧ M2.ncols = Ma.ncols ∧ M2.prow = Ma.prow ∧
      M2.pcol.length = Ma.pcol.length ∧ M2.arena.length = Ma.arena.length ∧
      (∀ i, rowOf M2 i = rowOf Ma i ∧ colOf M2 i = colOf Ma i ∧ elOf M2 i = elOf Ma i ∧
        rightOf M2 i = rightOf Ma i) ∧
      (∀ i, i ∉ K1 → downOf M2 i = downOf Ma i) ∧
      (∀ c2, c2 ≠ c → M2.pcol[c2]? = Ma.pcol[c2]?) ∧
      ∃ pc1, M2.pcol[c]? = some pc1 ∧
        LSeg (downOf M2) M2.arena.length pc1 (K1 ++ K2) none := by
  have hclen : c < Ma.pcol.length := lt_length_of_getElem?_eq_some hpc
  have hpicol2 : (nodeAt Ma pi).col = c := hpicol
  have hpirow2 : (nodeAt Ma pi).row = r := hpirow
  unfold removeColPhase
  rw [getElem?_arena_eq hpilt]
  dsimp only
  rw [hpicol2, hpc]
  dsimp only
  cases K1 with
  | nil =>
    obtain ⟨hp0, hpib, hrest⟩ := hK
    subst hp0
    rw [if_pos rfl]
    unfold setAt
    rw [if_pos hclen]
    dsimp only [Option.map]
    refine ⟨_, rfl, rfl, rfl, rfl, by simp, rfl, fun i => ⟨rfl, rfl, rfl, rfl⟩,
      fun i _ => rfl, ?_, ?_⟩
    · intro c2 hc2
      exact List.getElem?_set_ne (Ne.symm hc2)
    · refine ⟨(nodeAt Ma pi).down, List.getElem?_set_self (by simpa using hclen), ?_⟩
      exact hrest
  | cons k1 K1' =>
    obtain ⟨hp0, hk1b, hrest1⟩ := hK
    subst hp0
    have hndfront : (k1 :: K1').Nodup := hKnd.sublist (List.sublist_append_left _ _)
    have hk1pi : k1 ≠ pi := by
      intro he
      have h2 := hKnd
      rw [List.cons_append, List.nodup_cons] at h2
      refine h2.1 ?_
      rw [he]
      exact List.mem_append.mpr (Or.inr (List.mem_cons_self pi K2))
    rw [if_neg (fun he => hk1pi (Option.some.inj he))]
    rw [hpirow2]
    have hKfull : LSeg (downOf Ma) Ma.arena.length (some k1) ((k1 :: K1') ++ pi :: K2) none :=
      ⟨rfl, hk1b, hrest1⟩
    have hfrontlt : ∀ x ∈ k1 :: K1', x < Ma.arena.length := fun x hx =>
      lseg_mem_lt hKfull x (List.mem_append.mpr (Or.inl hx))
    have hfuel : (k1 :: K1').length < Ma.arena.length + 1 :=
      Nat.lt_succ_of_le (nodup_length_le hfrontlt hndfront)
    rw [removeColWalk_spec hKfull hK1r hpirow hfuel]
    cases hlastK : (k1 :: K1').getLast? with
    | none => exact absurd (List.getLast?_eq_none_iff.mp hlastK) (by simp)
    | some k =>
      obtain ⟨K1w, hK1w⟩ := getLast?_split hlastK
      have hkmem : k ∈ k1 :: K1' := by
        rw [hK1w]
        simp
      have hklt : k < Ma.arena.length := hfrontlt k hkmem
      have hkpi : k ≠ pi := by
        intro he
        have h2 := hKnd
        rw [List.nodup_append] at h2
        refine h2.2.2 hkmem ?_
        rw [he]
        exact List.mem_cons_self pi K2
      dsimp only [Option.elim]
      rw [getElem?_arena_eq hklt]
      dsimp only
      have hgA : ∀ i, i ≠ k →
          (Ma.arena.set k ({ nodeAt Ma k with down := (nodeAt Ma pi).down })).getD i dNode =
            nodeAt Ma i := fun i hik => getD_set_ne _ hik
      have hgK :
          (Ma.arena.set k ({ nodeAt Ma k with down := (nodeAt Ma pi).down })).getD k dNode =
            { nodeAt Ma k with down := (nodeAt Ma pi).down } := getD_set_self _ hklt
      refine ⟨_, rfl, rfl, rfl, rfl, rfl, by simp, ?_, ?_, ?_, ?_⟩
      · intro i
        by_cases hik : i = k
        · subst hik
          refine ⟨?_, ?_, ?_, ?_⟩
          · show ((Ma.arena.set i ({ nodeAt Ma i with down := (nodeAt Ma pi).down })).getD i
              dNode).row = (nodeAt Ma i).row
            rw [getD_set_self _ hklt]
          · show ((Ma.arena.set i ({ nodeAt Ma i with down := (nodeAt Ma pi).down })).getD i
              dNode).col = (nodeAt Ma i).col
            rw [getD_set_self _ hklt]
          · show ((Ma.arena.set i ({ nodeAt Ma i with down := (nodeAt Ma pi).down })).getD i
              dNode).el = (nodeAt Ma i).el
            rw [getD_set_self _ hklt]
          · show ((Ma.arena.set i ({ nodeAt Ma i with down := (nodeAt Ma pi).down })).getD i
              dNode).right = (nodeAt Ma i).right
            rw [getD_set_self _ hklt]
        · refine ⟨?_, ?_, ?_, ?_⟩
          · show ((Ma.arena.set k ({ nodeAt Ma k with down := (nodeAt Ma pi).down })).getD i
              dNode).row = (nodeAt Ma i).row
            rw [hgA i hik]
          · show ((Ma.arena.set k ({ nodeAt Ma k with down := (nodeAt Ma pi).down })).getD i
              dNode).col = (nodeAt Ma i).col
            rw [hgA i hik]
          · show ((Ma.arena.set k ({ nodeAt Ma k with down := (nodeAt Ma pi).down })).getD i
              dNode).el = (nodeAt Ma i).el
            rw [hgA i hik]
          · show ((Ma.arena.set k ({ nodeAt Ma k with down := (nodeAt Ma pi).down })).getD i
              dNode).right = (nodeAt Ma i).right
            rw [hgA i hik]
      · intro i hiK1
        have hik : i ≠ k := fun he => hiK1 (he ▸ hkmem)
        show ((Ma.arena.set k ({ nodeAt Ma k with down := (nodeAt Ma pi).down })).getD i
          dNode).down = (nodeAt Ma i).down
        rw [hgA i hik]
      · intro c2 _
        rfl
      · refine ⟨some k1, hpc, ?_⟩
        have hKdec : LSeg (downOf Ma) Ma.arena.length (some k1)
            ((K1w ++ [k]) ++ pi :: K2) none := by
          rw [← hK1w]
          exact hKfull
        obtain ⟨midD, hseg1, hseg2⟩ := lseg_append.mp hKdec
        obtain ⟨mid3, hsegA, hsegB⟩ := lseg_append.mp hseg1
        obtain ⟨hmid3, hkb, hkdown⟩ := hsegB
        rw [lseg_nil] at hkdown
        obtain ⟨hmidpi, hpib, hrestK2⟩ := hseg2
        have hndsplit : (K1w ++ [k]).Nodup := by
          rw [← hK1w]
          exact hndfront
        have hsegA2 : LSeg (downOf Ma) Ma.arena.length (some k1) K1w (some k) :=
          hmid3 ▸ hsegA
        show LSeg _ _ (some k1) ((k1 :: K1') ++ K2) none
        rw [hK1w, List.append_assoc]
        refine lseg_append.mpr ⟨some k, ?_, ?_⟩
        · refine lseg_congr (le_of_eq (by simp)) hsegA2 ?_
          intro i hi
          have hik : i ≠ k := by
            intro he
            have h2 := hndsplit
            rw [List.nodup_append] at h2
            exact h2.2.2 hi (he ▸ List.mem_cons_self k [])
          show ((Ma.arena.set k ({ nodeAt Ma k with down := (nodeAt Ma pi).down })).getD i
            dNode).down = downOf Ma i
          rw [hgA i hik]
          rfl
        · refine ⟨rfl, by simpa using hklt, ?_⟩
          show LSeg _ _
            (((Ma.arena.set k ({ nodeAt Ma k with down := (nodeAt Ma pi).down })).getD k
              dNode).down) K2 none
          rw [hgK]
          show LSeg _ _ ((nodeAt Ma pi).down) K2 none
          refine lseg_congr (le_of_eq (by simp)) hrestK2 ?_
          intro i hi
          have hik : i ≠ k := by
            intro he
            have h2 := hKnd
            rw [List.nodup_append] at h2
            refine h2.2.2 hkmem ?_
            show k ∈ pi :: K2
            rw [← he]
            exact List.mem_cons_of_mem pi hi
          show ((Ma.arena.set k ({ nodeAt Ma k with down := (nodeAt Ma pi).down })).getD i
            dNode).down = downOf Ma i
          rw [hgA i hik]
          rfl

theorem wf_remove {M M2 : Matrix} (hW : M.WfP) {r c pi : Nat} {tw dw' K1 K2 : List Nat}
    (hr : r < M.nrows) (hc : c < M.ncols)
    (hnr : M2.nrows = M.nrows) (hnc : M2.ncols = M.ncols)
    (hprowlen : M2.prow.length = M.prow.length)
    (hpcollen : M2.pcol.length = M.pcol.length)
    (hreads : ∀ i, i < M.arena.length → rowOf M2 i = rowOf M i ∧ colOf M2 i = colOf M i)
    (hrowsdec : M.rows r = tw ++ pi :: dw')
    (hKdec : M.cols c = K1 ++ pi :: K2)
    (hchainr : M2.rowChain r = some (tw ++ dw'))
    (hchain2 : ∀ r2, r2 < M.nrows → r2 ≠ r → M2.rowChain r2 = some (M.rows r2))
    (hchainc : M2.colChain c = some (K1 ++ K2))
    (hchainc2 : ∀ c2, c2 < M.ncols → c2 ≠ c → M2.colChain c2 = some (M.cols c2)) :
    M2.WfP := by
  have hpimem : pi ∈ M.rows r := by
    rw [hrowsdec]
    exact List.mem_append.mpr (Or.inr (List.mem_cons_self _ _))
  have hpicmem : pi ∈ M.cols c := by
    rw [hKdec]
    exact List.mem_append.mpr (Or.inr (List.mem_cons_self _ _))
  have hpirow : rowOf M pi = r := (hW.rowsLabel r hr pi hpimem).1
  have hpicol : colOf M pi = c := (hW.colsLabel c hc pi hpicmem).1
  have hrowlt : ∀ i ∈ M.rows r, i < M.arena.length := rows_mem_lt hW hr
  have hcollt : ∀ i ∈ M.cols c, i < M.arena.length := cols_mem_lt hW hc
  have hsubR : List.Sublist (tw ++ dw') (M.rows r) := by
    rw [hrowsdec]
    exact (List.sublist_cons_self pi dw').append_left tw
  have hsubC : List.Sublist (K1 ++ K2) (M.cols c) := by
    rw [hKdec]
    exact (List.sublist_cons_self pi K2).append_left K1
  have hrowseq : M2.rows r = tw ++ dw' := rows_eq_of_rowChain hchainr
  have hrows2 : ∀ r2, r2 < M.nrows → r2 ≠ r → M2.rows r2 = M.rows r2 :=
    fun r2 hr2 hne => rows_eq_of_rowChain (hchain2 r2 hr2 hne)
  have hcolseq : M2.cols c = K1 ++ K2 := cols_eq_of_colChain hchainc
  have hcols2 : ∀ c2, c2 < M.ncols → c2 ≠ c → M2.cols c2 = M.cols c2 :=
    fun c2 hc2 hne => cols_eq_of_colChain (hchainc2 c2 hc2 hne)
  have hpinotR : pi ∉ tw ++ dw' := by
    have hnd := rows_nodup hW hr
    rw [hrowsdec, List.nodup_append] at hnd
    intro hmem
    rcases List.mem_append.mp hmem with h1 | h1
    · exact hnd.2.2 h1 (List.mem_cons_self _ _)
    · exact (List.nodup_cons.mp hnd.2.1).1 h1
  have hpinotC : pi ∉ K1 ++ K2 := by
    have hnd := cols_nodup hW hc
    rw [hKdec, List.nodup_append] at hnd
    intro hmem
    rcases List.mem_append.mp hmem with h1 | h1
    · exact hnd.2.2 h1 (List.mem_cons_self _ _)
    · exact (List.nodup_cons.mp hnd.2.1).1 h1
  have hmr : ∀ i r2, r2 < M.nrows → (i ∈ M2.rows r2 ↔ (i ∈ M.rows r2 ∧ i ≠ pi)) := by
    intro i r2 hr2
    by_cases hre : r = r2
    · subst hre
      rw [hrowseq]
      constructor
      · intro hi
        refine ⟨hsubR.mem hi, ?_⟩
        intro he
        exact hpinotR (he ▸ hi)
      · rintro ⟨hi, hne⟩
        rw [hrowsdec] at hi
        rcases List.mem_append.mp hi with h1 | h1
        · exact List.mem_append.mpr (Or.inl h1)
        · rcases List.mem_cons.mp h1 with h2 | h2
          · exact absurd h2 hne
          · exact List.mem_append.mpr (Or.inr h2)
    · rw [hrows2 r2 hr2 (Ne.symm hre)]
      constructor
      · intro hi
        refine ⟨hi, ?_⟩
        intro he
        subst he
        exact hre ((hW.rowsLabel r2 hr2 i hi).1 ▸ hpirow.symm ▸ rfl)
      · exact fun h => h.1
  have hmc : ∀ i c2, c2 < M.ncols → (i ∈ M2.cols c2 ↔ (i ∈ M.cols c2 ∧ i ≠ pi)) := by
    intro i c2 hc2
    by_cases hce : c = c2
    · subst hce
      rw [hcolseq]
      constructor
      · intro hi
        refine ⟨hsubC.mem hi, ?_⟩
        intro he
        exact hpinotC (he ▸ hi)
      · rintro ⟨hi, hne⟩
        rw [hKdec] at hi
        rcases List.mem_append.mp hi with h1 | h1
        · exact List.mem_append.mpr (Or.inl h1)
        · rcases List.mem_cons.mp h1 with h2 | h2
          · exact absurd h2 hne
          · exact List.mem_append.mpr (Or.inr h2)
    · rw [hcols2 c2 hc2 (Ne.symm hce)]
      constructor
      · intro hi
        refine ⟨hi, ?_⟩
        intro he
        subst he
        exact hce ((hW.colsLabel c2 hc2 i hi).1 ▸ hpicol.symm ▸ rfl)
      · exact fun h => h.1
  refine ⟨?_, ?_, ?_, ?_, ?_, ?_, ?_, ?_, ?_⟩
  · rw [hprowlen, hW.hprow, hnr]
  · rw [hpcollen, hW.hpcol, hnc]
  · intro r2 hr2
    rw [hnr] at hr2
    by_cases hre : r = r2
    · subst hre
      rw [hrowseq]
      exact hchainr
    · rw [hrows2 r2 hr2 (Ne.symm hre)]
      exact hchain2 r2 hr2 (Ne.symm hre)
  · intro c2 hc2
    rw [hnc] at hc2
    by_cases hce : c = c2
    · subst hce
      rw [hcolseq]
      exact hchainc
    · rw [hcols2 c2 hc2 (Ne.symm hce)]
      exact hchainc2 c2 hc2 (Ne.symm hce)
  · intro r2 hr2 i hi
    rw [hnr] at hr2
    have hiM : i ∈ M.rows r2 := ((hmr i r2 hr2).mp hi).1
    have hlt := rows_mem_lt hW hr2 i hiM
    rw [(hreads i hlt).1, (hreads i hlt).2, hnc]
    exact hW.rowsLabel r2 hr2 i hiM
  · intro c2 hc2 i hi
    rw [hnc] at hc2
    have hiM : i ∈ M.cols c2 := ((hmc i c2 hc2).mp hi).1
    have hlt := cols_mem_lt hW hc2 i hiM
    rw [(hreads i hlt).2, (hreads i hlt).1, hnr]
    exact hW.colsLabel c2 hc2 i hiM
  · intro r2 hr2
    rw [hnr] at hr2
    haveI : IsTrans Nat (fun i j => colOf M2 i < colOf M2 j) :=
      ⟨fun a b d h1 h2 => lt_trans h1 h2⟩
    refine List.chain'_iff_pairwise.mpr ?_
    by_cases hre : r = r2
    · subst hre
      rw [hrowseq]
      have hP : (tw ++ dw').Pairwise (fun i j => colOf M i < colOf M j) := by
        refine List.Pairwise.sublist hsubR ?_
        exact rows_pairwise hW hr
      refine List.Pairwise.imp_of_mem ?_ hP
      intro a b ha hb hab
      rw [(hreads a (hrowlt a (hsubR.mem ha))).2, (hreads b (hrowlt b (hsubR.mem hb))).2]
      exact hab
    · rw [hrows2 r2 hr2 (Ne.symm hre)]
      refine List.Pairwise.imp_of_mem ?_ (rows_pairwise hW hr2)
      intro a b ha hb hab
      rw [(hreads a (rows_mem_lt hW hr2 a ha)).2,
        (hreads b (rows_mem_lt hW hr2 b hb)).2]
      exact hab
  · intro c2 hc2
    rw [hnc] at hc2
    haveI : IsTrans Nat (fun i j => rowOf M2 i < rowOf M2 j) :=
      ⟨fun a b d h1 h2 => lt_trans h1 h2⟩
    refine List.chain'_iff_pairwise.mpr ?_
    by_cases hce : c = c2
    · subst hce
      rw [hcolseq]
      have hP : (K1 ++ K2).Pairwise (fun i j => rowOf M i < rowOf M j) := by
        refine List.Pairwise.sublist hsubC ?_
        exact cols_pairwise hW hc
      refine List.Pairwise.imp_of_mem ?_ hP
      intro a b ha hb hab
      rw [(hreads a (hcollt a (hsubC.mem ha))).1, (hreads b (hcollt b (hsubC.mem hb))).1]
      exact hab
    · rw [hcols2 c2 hc2 (Ne.symm hce)]
      refine List.Pairwise.imp_of_mem ?_ (cols_pairwise hW hc2)
      intro a b ha hb hab
      rw [(hreads a (cols_mem_lt hW hc2 a ha)).1,
        (hreads b (cols_mem_lt hW hc2 b hb)).1]
      exact hab
  · intro i
    constructor
    · rintro ⟨r2, hr2, hi⟩
      rw [hnr] at hr2
      obtain ⟨hiM, hne⟩ := (hmr i r2 hr2).mp hi
      obtain ⟨c2, hc2, hic⟩ := (hW.memIff i).mp ⟨r2, hr2, hiM⟩
      refine ⟨c2, ?_, (hmc i c2 hc2).mpr ⟨hic, hne⟩⟩
      rw [hnc]
      exact hc2
    · rintro ⟨c2, hc2, hi⟩
      rw [hnc] at hc2
      obtain ⟨hiM, hne⟩ := (hmc i c2 hc2).mp hi
      obtain ⟨r2, hr2, hir⟩ := (hW.memIff i).mpr ⟨c2, hc2, hiM⟩
      refine ⟨r2, ?_, (hmr i r2 hr2).mpr ⟨hir, hne⟩⟩
      rw [hnr]
      exact hr2

theorem removenode_spec {M : Matrix} (hW : M.WfP) {r c : Nat} (hr : r < M.nrows)
    (hc : c < M.ncols) {pi : Nat} {dw' : List Nat}
    (hdw : ((M.rows r).dropWhile fun i => decide (colOf M i < c)) = pi :: dw')
    (hpicol : colOf M pi = c) :
    ∃ M2, M.removenode (some pi)
        ((((M.rows r).takeWhile fun i => decide (colOf M i < c)).getLast?).elim none some)
        = some M2 ∧
      M2.WfP ∧
      M2.nrows = M.nrows ∧ M2.ncols = M.ncols ∧
      M2.arena.length = M.arena.length ∧
      (∀ i, i < M.arena.length → rowOf M2 i = rowOf M i ∧ colOf M2 i = colOf M i ∧
        elOf M2 i = elOf M i) ∧
      M2.rows r = ((M.rows r).takeWhile fun i => decide (colOf M i < c)) ++ dw' ∧
      (∀ r2, r2 < M.nrows → r2 ≠ r → M2.rows r2 = M.rows r2) ∧
      (∃ K1 K2, M.cols c = K1 ++ pi :: K2 ∧ M2.cols c = K1 ++ K2) ∧
      (∀ c2, c2 < M.ncols → c2 ≠ c → M2.cols c2 = M.cols c2) := by
  obtain ⟨p0, hp0, hLrow⟩ := rowChain_lseg (hW.rowsChain r hr)
  have hndr := rows_nodup hW hr
  have hsplitR : ((M.rows r).takeWhile fun i => decide (colOf M i < c)) ++
      ((M.rows r).dropWhile fun i => decide (colOf M i < c)) = M.rows r :=
    List.takeWhile_append_dropWhile ..
  have hrowsdec : M.rows r = ((M.rows r).takeWhile fun i => decide (colOf M i < c)) ++
      pi :: dw' := by
    rw [← hdw]
    exact hsplitR.symm
  have hpimem : pi ∈ M.rows r := by
    rw [hrowsdec]
    exact List.mem_append.mpr (Or.inr (List.mem_cons_self _ _))
  have hpirow : rowOf M pi = r := (hW.rowsLabel r hr pi hpimem).1
  have hpilt : pi < M.arena.length := rows_mem_lt hW hr pi hpimem
  have hpicolmem : pi ∈ M.cols c := by
    obtain ⟨c2, hc2, hmem⟩ := (hW.memIff pi).mp ⟨r, hr, hpimem⟩
    have hlab := (hW.colsLabel c2 hc2 pi hmem).1
    rw [hpicol] at hlab
    rw [hlab]
    exact hmem
  obtain ⟨K1, K2, hKdec⟩ := List.append_of_mem hpicolmem
  have hndc := cols_nodup hW hc
  have hcolsP := cols_pairwise hW hc
  have hndK : (K1 ++ pi :: K2).Nodup := by
    rw [← hKdec]
    exact hndc
  have hKP : (K1 ++ pi :: K2).Pairwise (fun i j => rowOf M i < rowOf M j) := by
    rw [← hKdec]
    exact hcolsP
  have hK1r : ∀ i ∈ K1, rowOf M i ≠ r := by
    intro i hi
    have hlt := (List.pairwise_append.mp hKP).2.2 i hi pi (List.mem_cons_self _ _)
    rw [hpirow] at hlt
    exact Nat.ne_of_lt hlt
  obtain ⟨pc0, hpcM, hLcolM⟩ := colChain_lseg (hW.colsChain c hc)
  have hLKdec : LSeg (downOf M) M.arena.length pc0 (K1 ++ pi :: K2) none := by
    rw [← hKdec]
    exact hLcolM
  have hLrowdec : LSeg (rightOf M) M.arena.length p0
      (((M.rows r).takeWhile fun i => decide (colOf M i < c)) ++ pi :: dw') none := by
    rw [← hrowsdec]
    exact hLrow
  obtain ⟨midR, hsegTw, hsegPi⟩ := lseg_append.mp hLrowdec
  obtain ⟨hmidpi, hpib2, hsegDw⟩ := hsegPi
  have hnddec : (((M.rows r).takeWhile fun i => decide (colOf M i < c)) ++
      pi :: dw').Nodup := by
    rw [← hrowsdec]
    exact hndr
  have hdwsub : List.Sublist (((M.rows r).takeWhile fun i => decide (colOf M i < c)) ++ dw')
      (M.rows r) := by
    have h1 : List.Sublist (((M.rows r).takeWhile fun i => decide (colOf M i < c)) ++ dw')
        (((M.rows r).takeWhile fun i => decide (colOf M i < c)) ++ pi :: dw') :=
      (List.sublist_cons_self pi dw').append_left _
    rw [← hrowsdec] at h1
    exact h1
  have hndtwdw : (((M.rows r).takeWhile fun i => decide (colOf M i < c)) ++ dw').Nodup :=
    hndr.sublist hdwsub
  have hndKK : (K1 ++ K2).Nodup :=
    hndK.sublist ((List.sublist_cons_self pi K2).append_left K1)
  have hpirow2 : (nodeAt M pi).row = r := hpirow
  unfold Matrix.removenode
  dsimp only
  rw [getElem?_arena_eq hpilt]
  dsimp only
  cases hlast : ((M.rows r).takeWhile fun i => decide (colOf M i < c)).getLast? with
  | none =>
    have htw : ((M.rows r).takeWhile fun i => decide (colOf M i < c)) = [] :=
      List.getLast?_eq_none_iff.mp hlast
    dsimp only [Option.elim]
    rw [hpirow2]
    unfold setAt
    rw [if_pos (show r < M.prow.length by rw [hW.hprow]; exact hr)]
    dsimp only [Option.map, Option.bind]
    obtain ⟨M2, hphase, h2nr, h2nc, h2prow, h2pclen, h2alen, h2reads, h2down, h2pcolEq,
      pc1, hpc1, hLnew⟩ :=
      removeColPhase_spec { M with prow := M.prow.set r (nodeAt M pi).right }
        hpilt hpicol hpirow hpcM hLKdec hndK hK1r
    have halen : M2.arena.length = M.arena.length := h2alen
    have hreads : ∀ i, rowOf M2 i = rowOf M i ∧ colOf M2 i = colOf M i ∧
        elOf M2 i = elOf M i ∧ rightOf M2 i = rightOf M i := fun i => h2reads i
    -- the new row chain of r starts at pi's old right pointer
    have hheadr : M2.prow[r]? = some (rightOf M pi) := by
      rw [h2prow]
      exact List.getElem?_set_self (by rw [hW.hprow]; exact hr)
    have hchainrL : LSeg (rightOf M2) M2.arena.length (rightOf M pi) dw' none := by
      refine lseg_congr (le_of_eq halen.symm) hsegDw ?_
      intro i _
      exact (hreads i).2.2.2
    have hchainr : M2.rowChain r = some dw' :=
      rowChain_eq_of_lseg hheadr hchainrL (by
        refine hndr.sublist ?_
        rw [hrowsdec, htw]
        exact List.sublist_cons_self pi dw')
    have hchain2 : ∀ r2, r2 < M.nrows → r2 ≠ r → M2.rowChain r2 = some (M.rows r2) := by
      intro r2 hr2 hne
      refine rows_transfer hW hr2 (le_of_eq halen.symm) ?_ ?_
      · rw [h2prow]
        exact List.getElem?_set_ne (Ne.symm hne)
      · intro i _
        exact (hreads i).2.2.2
    have hchainc : M2.colChain c = some (K1 ++ K2) :=
      colChain_eq_of_lseg hpc1 hLnew hndKK
    have hchainc2 : ∀ c2, c2 < M.ncols → c2 ≠ c → M2.colChain c2 = some (M.cols c2) := by
      intro c2 hc2 hne
      refine cols_transfer hW hc2 (le_of_eq halen.symm) ?_ ?_
      · exact h2pcolEq c2 hne
      · intro i hi
        refine h2down i ?_
        intro hmem
        have hiK : i ∈ M.cols c := by
          rw [hKdec]
          exact List.mem_append.mpr (Or.inl hmem)
        have hA := mem_cols_col hW hc hiK
        have hB := mem_cols_col hW hc2 hi
        exact hne (hA ▸ hB).symm
    have hWfP : M2.WfP := by
      refine wf_remove hW hr hc h2nr h2nc ?_ ?_
        (fun i _ => ⟨(hreads i).1, (hreads i).2.1⟩) hrowsdec hKdec ?_ hchain2
        hchainc hchainc2
      · rw [h2prow]
        simp
      · exact h2pclen
      · rw [htw, List.nil_append]
        exact hchainr
    refine ⟨M2, hphase, hWfP, h2nr, h2nc, halen,
      fun i _ => ⟨(hreads i).1, (hreads i).2.1, (hreads i).2.2.1⟩, ?_, ?_, ?_, ?_⟩
    · rw [htw, List.nil_append]
      exact rows_eq_of_rowChain hchainr
    · exact fun r2 hr2 hne => rows_eq_of_rowChain (hchain2 r2 hr2 hne)
    · exact ⟨K1, K2, hKdec, cols_eq_of_colChain hchainc⟩
    · exact fun c2 hc2 hne => cols_eq_of_colChain (hchainc2 c2 hc2 hne)
  | some j =>
    obtain ⟨tw2, htw2⟩ := getLast?_split hlast
    have hjtw : j ∈ (M.rows r).takeWhile fun i => decide (colOf M i < c) := by
      rw [htw2]
      simp
    have hjmem : j ∈ M.rows r := (List.takeWhile_sublist _).mem hjtw
    have hjlt : j < M.arena.length := rows_mem_lt hW hr j hjmem
    have hjpi : j ≠ pi := by
      intro he
      have h2 := hnddec
      rw [List.nodup_append] at h2
      exact h2.2.2 hjtw (he ▸ List.mem_cons_self pi dw')
    dsimp only [Option.elim]
    rw [getElem?_arena_eq hjlt]
    dsimp only [Option.bind]
    -- the state after the row unlink
    have hga : ∀ i, i ≠ j →
        nodeAt { M with
          arena := M.arena.set j ({ nodeAt M j with right := (nodeAt M pi).right }) } i =
          nodeAt M i := fun i hik => getD_set_ne _ hik
    have hgj : nodeAt { M with
        arena := M.arena.set j ({ nodeAt M j with right := (nodeAt M pi).right }) } j =
          { nodeAt M j with right := (nodeAt M pi).right } := getD_set_self _ hjlt
    have haMlen : ({ M with
        arena := M.arena.set j ({ nodeAt M j with right := (nodeAt M pi).right }) } :
          Matrix).arena.length = M.arena.length := by
      simp
    have hdownMa : ∀ i, downOf { M with
        arena := M.arena.set j ({ nodeAt M j with right := (nodeAt M pi).right }) } i =
          downOf M i := by
      intro i
      by_cases hik : i = j
      · subst hik
        unfold downOf
        rw [hgj]
      · unfold downOf
        rw [hga i hik]
    have hrowMa : ∀ i, rowOf { M with
        arena := M.arena.set j ({ nodeAt M j with right := (nodeAt M pi).right }) } i =
          rowOf M i := by
      intro i
      by_cases hik : i = j
      · subst hik
        unfold rowOf
        rw [hgj]
      · unfold rowOf
        rw [hga i hik]
    have hcolMa : ∀ i, colOf { M with
        arena := M.arena.set j ({ nodeAt M j with right := (nodeAt M pi).right }) } i =
          colOf M i := by
      intro i
      by_cases hik : i = j
      · subst hik
        unfold colOf
        rw [hgj]
      · unfold colOf
        rw [hga i hik]
    have helMa : ∀ i, elOf { M with
        arena := M.arena.set j ({ nodeAt M j with right := (nodeAt M pi).right }) } i =
          elOf M i := by
      intro i
      by_cases hik : i = j
      · subst hik
        unfold elOf
        rw [hgj]
      · unfold elOf
        rw [hga i hik]
    have hrightMa : ∀ i, i ≠ j → rightOf { M with
        arena := M.arena.set j ({ nodeAt M j with right := (nodeAt M pi).right }) } i =
          rightOf M i := by
      intro i hik
      unfold rightOf
      rw [hga i hik]
    have hrightMaj : rightOf { M with
        arena := M.arena.set j ({ nodeAt M j with right := (nodeAt M pi).right }) } j =
          rightOf M pi := by
      unfold rightOf
      rw [hgj]
    obtain ⟨M2, hphase, h2nr, h2nc, h2prow, h2pclen, h2alen, h2reads, h2down, h2pcolEq,
      pc1, hpc1, hLnew⟩ :=
      removeColPhase_spec
        { M with
          arena := M.arena.set j ({ nodeAt M j with right := (nodeAt M pi).right }) }
        (r := r) (c := c)
        (by rw [haMlen]; exact hpilt)
        (by rw [hcolMa pi]; exact hpicol)
        (by rw [hrowMa pi]; exact hpirow)
        hpcM
        (by
          refine lseg_congr (le_of_eq haMlen.symm) hLKdec ?_
          intro i _
          exact hdownMa i)
        hndK
        (fun i hi => by
          rw [hrowMa i]
          exact hK1r i hi)
    have halen : M2.arena.length = M.arena.length := h2alen.trans haMlen
    have hreads : ∀ i, rowOf M2 i = rowOf M i ∧ colOf M2 i = colOf M i ∧
        elOf M2 i = elOf M i := by
      intro i
      obtain ⟨ha, hb, hcc, _⟩ := h2reads i
      exact ⟨ha.trans (hrowMa i), hb.trans (hcolMa i), hcc.trans (helMa i)⟩
    have hright2 : ∀ i, i ≠ j → rightOf M2 i = rightOf M i := fun i hik =>
      ((h2reads i).2.2.2).trans (hrightMa i hik)
    have hright2j : rightOf M2 j = rightOf M pi :=
      ((h2reads j).2.2.2).trans hrightMaj
    -- new row chain of r: tw2 ++ j :: dw'
    have hheadr : M2.prow[r]? = some p0 := by
      rw [h2prow]
      exact hp0
    have hsegTw2 : LSeg (rightOf M) M.arena.length p0 (tw2 ++ [j]) midR := by
      rw [← htw2]
      exact hsegTw
    obtain ⟨mid3, hsegA, hsegB⟩ := lseg_append.mp hsegTw2
    obtain ⟨hmid3, hjb, hjright⟩ := hsegB
    rw [lseg_nil] at hjright
    have hndtw : (tw2 ++ [j]).Nodup := by
      rw [← htw2]
      exact hndr.sublist (List.takeWhile_sublist _)
    have hchainrL : LSeg (rightOf M2) M2.arena.length p0 (tw2 ++ j :: dw') none := by
      refine lseg_append.mpr ⟨some j, ?_, ?_⟩
      · have hsegA2 : LSeg (rightOf M) M.arena.length p0 tw2 (some j) := hmid3 ▸ hsegA
        refine lseg_congr (le_of_eq halen.symm) hsegA2 ?_
        intro i hi
        refine hright2 i ?_
        intro he
        have h2 := hndtw
        rw [List.nodup_append] at h2
        exact h2.2.2 hi (he ▸ List.mem_cons_self j [])
      · refine ⟨rfl, by rw [halen]; exact hjlt, ?_⟩
        rw [hright2j]
        refine lseg_congr (le_of_eq halen.symm) hsegDw ?_
        intro i hi
        refine hright2 i ?_
        intro he
        have h2 := hnddec
        rw [List.nodup_append] at h2
        refine h2.2.2 hjtw ?_
        rw [← he]
        exact List.mem_cons_of_mem pi hi
    have hndmid : (tw2 ++ j :: dw').Nodup := by
      have h2 := hndtwdw
      rw [htw2, List.append_assoc, List.singleton_append] at h2
      exact h2
    have hchainr : M2.rowChain r = some (tw2 ++ j :: dw') :=
      rowChain_eq_of_lseg hheadr hchainrL hndmid
    have hchainr2 : M2.rowChain r =
        some ((((M.rows r).takeWhile fun i => decide (colOf M i < c))) ++ dw') := by
      rw [htw2, List.append_assoc, List.singleton_append]
      exact hchainr
    have hchain2 : ∀ r2, r2 < M.nrows → r2 ≠ r → M2.rowChain r2 = some (M.rows r2) := by
      intro r2 hr2 hne
      refine rows_transfer hW hr2 (le_of_eq halen.symm) ?_ ?_
      · rw [h2prow]
      · intro i hi
        refine hright2 i ?_
        intro he
        have hA := mem_rows_row hW hr hjmem
        have hB := mem_rows_row hW hr2 hi
        rw [he] at hB
        exact hne (hA ▸ hB).symm
    have hchainc : M2.colChain c = some (K1 ++ K2) :=
      colChain_eq_of_lseg hpc1 hLnew hndKK
    have hchainc2 : ∀ c2, c2 < M.ncols → c2 ≠ c → M2.colChain c2 = some (M.cols c2) := by
      intro c2 hc2 hne
      refine cols_transfer hW hc2 (le_of_eq halen.symm) ?_ ?_
      · exact h2pcolEq c2 hne
      · intro i hi
        refine (h2down i ?_).trans (hdownMa i)
        intro hmem
        have hiK : i ∈ M.cols c := by
          rw [hKdec]
          exact List.mem_append.mpr (Or.inl hmem)
        have hA := mem_cols_col hW hc hiK
        have hB := mem_cols_col hW hc2 hi
        exact hne (hA ▸ hB).symm
    have hWfP : M2.WfP := by
      refine wf_remove hW hr hc h2nr h2nc ?_ h2pclen
        (fun i _ => ⟨(hreads i).1, (hreads i).2.1⟩) hrowsdec hKdec hchainr2 hchain2
        hchainc hchainc2
      rw [h2prow]
    refine ⟨M2, hphase, hWfP, h2nr, h2nc, halen,
      fun i _ => ⟨(hreads i).1, (hreads i).2.1, (hreads i).2.2⟩, ?_, ?_, ?_, ?_⟩
    · exact rows_eq_of_rowChain hchainr2
    · exact fun r2 hr2 hne => rows_eq_of_rowChain (hchain2 r2 hr2 hne)
    · exact ⟨K1, K2, hKdec, cols_eq_of_colChain hchainc⟩
    · exact fun c2 hc2 hne => cols_eq_of_colChain (hchainc2 c2 hc2 hne)

theorem row_find_eq {M : Matrix} {c : Nat} {l : List Nat}
    (hP : l.Pairwise (fun i j => colOf M i < colOf M j)) :
    (((l.dropWhile fun i => decide (colOf M i < c)).head?).bind
      (fun i => if colOf M i = c then some i else none)) =
    l.find? (fun i => colOf M i == c) := by
  have hsplit : (l.takeWhile fun i => decide (colOf M i < c)) ++
      (l.dropWhile fun i => decide (colOf M i < c)) = l :=
    List.takeWhile_append_dropWhile ..
  have htwnone : (l.takeWhile fun i => decide (colOf M i < c)).find?
      (fun i => colOf M i == c) = none := by
    refine List.find?_eq_none.mpr ?_
    intro x hx
    have hxlt := takeWhile_lt (k := colOf M) (x := c) x hx
    simp only [beq_iff_eq]
    omega
  cases hdh : l.dropWhile fun i => decide (colOf M i < c) with
  | nil =>
    have hlfind : l.find? (fun i => colOf M i == c) = none := by
      rw [← hsplit, hdh, List.append_nil]
      exact htwnone
    rw [hlfind]
    rfl
  | cons i0 rest =>
    have hi0dw : i0 ∈ l.dropWhile fun i => decide (colOf M i < c) := by
      rw [hdh]
      exact List.mem_cons_self _ _
    have hge : c ≤ colOf M i0 := dropWhile_ge hP i0 hi0dw
    have hfind : l.find? (fun i => colOf M i == c) =
        (i0 :: rest).find? (fun i => colOf M i == c) := by
      rw [← hsplit, hdh]
      exact find?_append_none htwnone
    have hPd : (i0 :: rest).Pairwise (fun i j => colOf M i < colOf M j) := by
      rw [← hdh]
      exact hP.sublist (List.dropWhile_sublist _)
    by_cases hc0 : colOf M i0 = c
    · rw [hfind, List.find?_cons_of_pos _ (by simp [hc0])]
      dsimp only [List.head?_cons, Option.bind]
      rw [if_pos hc0]
    · rw [hfind, List.find?_eq_none.mpr ?notc]
      case notc =>
        intro x hx
        rcases List.mem_cons.mp hx with h1 | h1
        · subst h1
          simp only [beq_iff_eq]
          exact hc0
        · have hgt := (List.pairwise_cons.mp hPd).1 x h1
          simp only [beq_iff_eq]
          omega
      dsimp only [List.head?_cons, Option.bind]
      rw [if_neg hc0]

theorem getitem_eq_getval {M : Matrix} (hW : M.WfP) {r : Nat} (hr : r < M.nrows) (c : Nat) :
    M.getitem r c = some (M.getval r c) := by
  obtain ⟨p0, hp0, hL⟩ := rowChain_lseg (hW.rowsChain r hr)
  have hnd := rows_nodup hW hr
  have hP := rows_pairwise hW hr
  unfold Matrix.getitem
  rw [findnode_spec hp0 hL hnd]
  rw [row_find_eq hP]
  unfold Matrix.getval
  cases hf : (M.rows r).find? (fun i => colOf M i == c) with
  | none => rfl
  | some i =>
    have hmem := List.mem_of_find?_eq_some hf
    have hlt := rows_mem_lt hW hr i hmem
    dsimp only
    rw [getElem?_arena_eq hlt]
    rfl

theorem setitem_absent {M : Matrix} (hW : M.WfP) {r c : Nat} (hr : r < M.nrows)
    (hc : c < M.ncols) (habs : ∀ i ∈ M.rows r, colOf M i ≠ c) (v : Int) :
    ∃ M2, (if v = 0 then some M else M.insertnode r c
        ((((M.rows r).takeWhile fun i => decide (colOf M i < c)).getLast?).elim none some) v)
      = some M2 ∧ M2.WfP ∧
      M2.nrows = M.nrows ∧ M2.ncols = M.ncols ∧
      M2.getval r c = v ∧
      (∀ r2 c2, r2 < M.nrows → ¬(r2 = r ∧ c2 = c) → M2.getval r2 c2 = M.getval r2 c2) ∧
      (v = 0 → (∀ i ∈ M2.rows r, colOf M2 i ≠ c) ∧ (∀ i ∈ M2.cols c, rowOf M2 i ≠ r)) := by
  have hsplit : ((M.rows r).takeWhile fun i => decide (colOf M i < c)) ++
      ((M.rows r).dropWhile fun i => decide (colOf M i < c)) = M.rows r :=
    List.takeWhile_append_dropWhile ..
  by_cases hv : v = 0
  · rw [if_pos hv]
    refine ⟨M, rfl, hW, rfl, rfl, ?_, fun _ _ _ _ => rfl,
      fun _ => ⟨habs, col_absence hW hr hc habs⟩⟩
    rw [hv]
    unfold Matrix.getval
    have hnone : (M.rows r).find? (fun i => colOf M i == c) = none :=
      List.find?_eq_none.mpr fun x hx => by
        simp only [beq_iff_eq]
        exact habs x hx
    rw [hnone]
  · rw [if_neg hv, elim_none_some]
    obtain ⟨M2, hins, hWf2, hnr, hnc, halen, hpres, hrowN, hcolN, helN, hrowsr, hrows2,
      hcolsc, hcols2⟩ := insertnode_spec hW hr hc habs v
    refine ⟨M2, hins, hWf2, hnr, hnc, ?_, ?_, fun h0 => absurd h0 hv⟩
    · unfold Matrix.getval
      rw [hrowsr]
      have htwn : ((M.rows r).takeWhile fun i => decide (colOf M i < c)).find?
          (fun i => colOf M2 i == c) = none := by
        refine List.find?_eq_none.mpr ?_
        intro x hx
        have hxm : x ∈ M.rows r := (List.takeWhile_sublist _).mem hx
        have hxlt := takeWhile_lt (k := colOf M) (x := c) x hx
        have hxeq := (hpres x (rows_mem_lt hW hr x hxm)).2.1
        simp only [beq_iff_eq]
        omega
      rw [find?_append_none htwn,
        List.find?_cons_of_pos _ (by rw [hcolN]; exact beq_self_eq_true c)]
      exact helN
    · intro r2 c2 hr2 hne2
      by_cases hrr : r = r2
      · subst hrr
        have hcc : c2 ≠ c := fun h => hne2 ⟨rfl, h⟩
        unfold Matrix.getval
        rw [hrowsr]
        have hlenpred : ¬ ((fun i => colOf M2 i == c2) M.arena.length = true) := by
          show ¬ (colOf M2 M.arena.length == c2) = true
          rw [hcolN]
          simp only [beq_iff_eq]
          exact fun h => hcc h.symm
        rw [find?_middle (x := M.arena.length) (p := fun i => colOf M2 i == c2) hlenpred,
          hsplit]
        rw [find?_congr (fun x hx => by
          show (colOf M2 x == c2) = (colOf M x == c2)
          rw [(hpres x (rows_mem_lt hW hr x hx)).2.1])]
        cases hf : (M.rows r).find? (fun i => colOf M i == c2) with
        | none => rfl
        | some x =>
          have hxm := List.mem_of_find?_eq_some hf
          exact (hpres x (rows_mem_lt hW hr x hxm)).2.2
      · refine getval_congr (hrows2 r2 hr2 (Ne.symm hrr)) ?_ ?_ c2
        · intro i hi
          exact (hpres i (rows_mem_lt hW hr2 i hi)).2.1
        · intro i hi
          exact (hpres i (rows_mem_lt hW hr2 i hi)).2.2

theorem setitem_overwrite {M : Matrix} (hW : M.WfP) {r c : Nat} (hr : r < M.nrows)
    (hc : c < M.ncols) {i0 : Nat} {rest : List Nat}
    (hdwl : ((M.rows r).dropWhile fun i => decide (colOf M i < c)) = i0 :: rest)
    (hc0 : colOf M i0 = c) (v : Int) :
    Matrix.WfP { M with arena := M.arena.set i0 ({ nodeAt M i0 with el := v }) } ∧
    Matrix.getval { M with arena := M.arena.set i0 ({ nodeAt M i0 with el := v }) } r c = v ∧
    ∀ r2 c2, r2 < M.nrows → ¬(r2 = r ∧ c2 = c) →
      Matrix.getval { M with arena := M.arena.set i0 ({ nodeAt M i0 with el := v }) } r2 c2 =
        M.getval r2 c2 := by
  have hP := rows_pairwise hW hr
  have hi0dw : i0 ∈ (M.rows r).dropWhile fun i => decide (colOf M i < c) := by
    rw [hdwl]
    exact List.mem_cons_self _ _
  have hi0mem : i0 ∈ M.rows r := (List.dropWhile_sublist _).mem hi0dw
  have hi0lt : i0 < M.arena.length := rows_mem_lt hW hr i0 hi0mem
  have hga : ∀ i, i ≠ i0 →
      nodeAt { M with arena := M.arena.set i0 ({ nodeAt M i0 with el := v }) } i =
        nodeAt M i := fun i hik => getD_set_ne _ hik
  have hgi : nodeAt { M with arena := M.arena.set i0 ({ nodeAt M i0 with el := v }) } i0 =
      { nodeAt M i0 with el := v } := getD_set_self _ hi0lt
  have hrowF : rowOf { M with arena := M.arena.set i0 ({ nodeAt M i0 with el := v }) } =
      rowOf M := by
    funext i
    by_cases hik : i = i0
    · rw [hik]
      unfold rowOf
      rw [hgi]
    · unfold rowOf
      rw [hga i hik]
  have hcolF : colOf { M with arena := M.arena.set i0 ({ nodeAt M i0 with el := v }) } =
      colOf M := by
    funext i
    by_cases hik : i = i0
    · rw [hik]
      unfold colOf
      rw [hgi]
    · unfold colOf
      rw [hga i hik]
  have hrightF : rightOf { M with arena := M.arena.set i0 ({ nodeAt M i0 with el := v }) } =
      rightOf M := by
    funext i
    by_cases hik : i = i0
    · rw [hik]
      unfold rightOf
      rw [hgi]
    · unfold rightOf
      rw [hga i hik]
  have hdownF : downOf { M with arena := M.arena.set i0 ({ nodeAt M i0 with el := v }) } =
      downOf M := by
    funext i
    by_cases hik : i = i0
    · rw [hik]
      unfold downOf
      rw [hgi]
    · unfold downOf
      rw [hga i hik]
  have helF : ∀ i, i ≠ i0 →
      elOf { M with arena := M.arena.set i0 ({ nodeAt M i0 with el := v }) } i = elOf M i := by
    intro i hik
    unfold elOf
    rw [hga i hik]
  have heli0 : elOf { M with arena := M.arena.set i0 ({ nodeAt M i0 with el := v }) } i0 = v := by
    unfold elOf
    rw [hgi]
  have hchainAll : ∀ r2, r2 < M.nrows →
      Matrix.rowChain { M with arena := M.arena.set i0 ({ nodeAt M i0 with el := v }) } r2 =
        some (M.rows r2) := by
    intro r2 hr2
    refine rows_transfer hW hr2 (le_of_eq (by simp)) rfl ?_
    intro i _
    rw [hrightF]
  have hcchainAll : ∀ c2, c2 < M.ncols →
      Matrix.colChain { M with arena := M.arena.set i0 ({ nodeAt M i0 with el := v }) } c2 =
        some (M.cols c2) := by
    intro c2 hc2
    refine cols_transfer hW hc2 (le_of_eq (by simp)) rfl ?_
    intro i _
    rw [hdownF]
  have hrowsAll : ∀ r2, r2 < M.nrows →
      Matrix.rows { M with arena := M.arena.set i0 ({ nodeAt M i0 with el := v }) } r2 =
        M.rows r2 := fun r2 h => rows_eq_of_rowChain (hchainAll r2 h)
  have hcolsAll : ∀ c2, c2 < M.ncols →
      Matrix.cols { M with arena := M.arena.set i0 ({ nodeAt M i0 with el := v }) } c2 =
        M.cols c2 := fun c2 h => cols_eq_of_colChain (hcchainAll c2 h)
  refine ⟨⟨hW.hprow, hW.hpcol, ?_, ?_, ?_, ?_, ?_, ?_, ?_⟩, ?_, ?_⟩
  · intro r2 h2
    rw [hrowsAll r2 h2]
    exact hchainAll r2 h2
  · intro c2 h2
    rw [hcolsAll c2 h2]
    exact hcchainAll c2 h2
  · intro r2 h2 i hi
    rw [hrowsAll r2 h2] at hi
    rw [hrowF, hcolF]
    exact hW.rowsLabel r2 h2 i hi
  · intro c2 h2 i hi
    rw [hcolsAll c2 h2] at hi
    rw [hrowF, hcolF]
    exact hW.colsLabel c2 h2 i hi
  · intro r2 h2
    rw [hrowsAll r2 h2, hcolF]
    exact hW.rowsSorted r2 h2
  · intro c2 h2
    rw [hcolsAll c2 h2, hrowF]
    exact hW.colsSorted c2 h2
  · intro i
    constructor
    · rintro ⟨r2, h2, hi⟩
      rw [hrowsAll r2 h2] at hi
      obtain ⟨c2, hcc2, hic⟩ := (hW.memIff i).mp ⟨r2, h2, hi⟩
      refine ⟨c2, hcc2, ?_⟩
      rw [hcolsAll c2 hcc2]
      exact hic
    · rintro ⟨c2, h2, hi⟩
      rw [hcolsAll c2 h2] at hi
      obtain ⟨r2, hrr2, hir⟩ := (hW.memIff i).mpr ⟨c2, h2, hi⟩
      refine ⟨r2, hrr2, ?_⟩
      rw [hrowsAll r2 hrr2]
      exact hir
  · -- getval at (r, c) is the new value
    unfold Matrix.getval
    rw [hrowsAll r hr, hcolF]
    have hrdec : M.rows r = ((M.rows r).takeWhile fun i => decide (colOf M i < c)) ++
        i0 :: rest := by
      rw [← hdwl]
      exact (List.takeWhile_append_dropWhile ..).symm
    have htwn : ((M.rows r).takeWhile fun i => decide (colOf M i < c)).find?
        (fun i => colOf M i == c) = none := by
      refine List.find?_eq_none.mpr ?_
      intro x hx
      have hxlt := takeWhile_lt (k := colOf M) (x := c) x hx
      simp only [beq_iff_eq]
      omega
    rw [hrdec, find?_append_none htwn, List.find?_cons_of_pos _ (by simp [hc0])]
    exact heli0
  · intro r2 c2 h2 hne2
    unfold Matrix.getval
    rw [hrowsAll r2 h2, hcolF]
    cases hf : (M.rows r2).find? (fun i => colOf M i == c2) with
    | none => rfl
    | some x =>
      have hxm := List.mem_of_find?_eq_some hf
      have hxpred := List.find?_some hf
      have hxc : colOf M x = c2 := by
        simp only [beq_iff_eq] at hxpred
        exact hxpred
      have hxi0 : x ≠ i0 := by
        intro he
        by_cases hrr : r2 = r
        · have hcc : c2 ≠ c := fun h => hne2 ⟨hrr, h⟩
          rw [he, hc0] at hxc
          exact hcc hxc.symm
        · have hA := mem_rows_row hW hr hi0mem
          have hB := mem_rows_row hW h2 hxm
          rw [he] at hB
          exact hrr (hB.symm.trans hA)
      exact helF x hxi0

theorem setitem_spec {M : Matrix} (hW : M.WfP) {r c : Nat} (hr : r < M.nrows)
    (hc : c < M.ncols) (v : Int) :
    ∃ M2, M.setitem r c v = some M2 ∧ M2.WfP ∧
      M2.nrows = M.nrows ∧ M2.ncols = M.ncols ∧
      M2.getval r c = v ∧
      (∀ r2 c2, r2 < M.nrows → ¬(r2 = r ∧ c2 = c) → M2.getval r2 c2 = M.getval r2 c2) ∧
      (v = 0 → (∀ i ∈ M2.rows r, colOf M2 i ≠ c) ∧ (∀ i ∈ M2.cols c, rowOf M2 i ≠ r)) := by
  obtain ⟨p0, hp0, hL⟩ := rowChain_lseg (hW.rowsChain r hr)
  have hnd := rows_nodup hW hr
  have hP := rows_pairwise hW hr
  have hsplit : ((M.rows r).takeWhile fun i => decide (colOf M i < c)) ++
      ((M.rows r).dropWhile fun i => decide (colOf M i < c)) = M.rows r :=
    List.takeWhile_append_dropWhile ..
  unfold Matrix.setitem
  rw [findnode_spec hp0 hL hnd]
  cases hdwl : (M.rows r).dropWhile fun i => decide (colOf M i < c) with
  | nil =>
    dsimp only [List.head?, Option.bind]
    have habs : ∀ i ∈ M.rows r, colOf M i ≠ c := by
      intro i hi
      have h3 := hsplit
      rw [hdwl, List.append_nil] at h3
      rw [← h3] at hi
      have hxlt := takeWhile_lt (k := colOf M) (x := c) i hi
      omega
    exact setitem_absent hW hr hc habs v
  | cons i0 rest =>
    dsimp only [List.head?, Option.bind]
    have hi0dw : i0 ∈ (M.rows r).dropWhile fun i => decide (colOf M i < c) := by
      rw [hdwl]
      exact List.mem_cons_self _ _
    have hi0mem : i0 ∈ M.rows r := (List.dropWhile_sublist _).mem hi0dw
    have hi0lt : i0 < M.arena.length := rows_mem_lt hW hr i0 hi0mem
    have hPd : (i0 :: rest).Pairwise (fun a b => colOf M a < colOf M b) := by
      rw [← hdwl]
      exact hP.sublist (List.dropWhile_sublist _)
    have hi0ge : c ≤ colOf M i0 := dropWhile_ge hP i0 hi0dw
    have hrdec : M.rows r = ((M.rows r).takeWhile fun i => decide (colOf M i < c)) ++
        i0 :: rest := by
      rw [← hdwl]
      exact hsplit.symm
    have hsubrest : List.Sublist
        (((M.rows r).takeWhile fun i => decide (colOf M i < c)) ++ rest) (M.rows r) := by
      have h1 : List.Sublist
          (((M.rows r).takeWhile fun i => decide (colOf M i < c)) ++ rest)
          (((M.rows r).takeWhile fun i => decide (colOf M i < c)) ++ i0 :: rest) :=
        (List.sublist_cons_self i0 rest).append_left _
      rw [← hrdec] at h1
      exact h1
    by_cases hc0 : colOf M i0 = c
    · rw [if_pos hc0]
      dsimp only
      by_cases hv : v = 0
      · rw [if_pos hv]
        obtain ⟨M2, hrem, hWf2, hnr, hnc, halen, hpres, hrowsr, hrows2,
          ⟨K1, K2, hKdec, hcolsc⟩, hcols2⟩ := removenode_spec hW hr hc hdwl hc0
        have hKP2 : (K1 ++ i0 :: K2).Pairwise (fun a b => rowOf M a < rowOf M b) := by
          rw [← hKdec]
          exact cols_pairwise hW hc
        have hi0row : rowOf M i0 = r := (hW.rowsLabel r hr i0 hi0mem).1
        have hKsub : List.Sublist (K1 ++ K2) (M.cols c) := by
          have h1 : List.Sublist (K1 ++ K2) (K1 ++ i0 :: K2) :=
            (List.sublist_cons_self i0 K2).append_left _
          rw [← hKdec] at h1
          exact h1
        refine ⟨M2, hrem, hWf2, hnr, hnc, ?_, ?_, ?_⟩
        · rw [hv]
          unfold Matrix.getval
          rw [hrowsr]
          have hnone : ((((M.rows r).takeWhile fun i => decide (colOf M i < c))) ++ rest).find?
              (fun i => colOf M2 i == c) = none := by
            refine List.find?_eq_none.mpr ?_
            intro x hx
            simp only [beq_iff_eq]
            rcases List.mem_append.mp hx with h1 | h1
            · have hxm : x ∈ M.rows r := (List.takeWhile_sublist _).mem h1
              have hxlt := takeWhile_lt (k := colOf M) (x := c) x h1
              have hxeq := (hpres x (rows_mem_lt hW hr x hxm)).2.1
              omega
            · have hxm : x ∈ M.rows r := (List.dropWhile_sublist _).mem (by
                rw [hdwl]
                exact List.mem_cons_of_mem i0 h1)
              have hgt := (List.pairwise_cons.mp hPd).1 x h1
              have hxeq := (hpres x (rows_mem_lt hW hr x hxm)).2.1
              rw [hc0] at hgt
              omega
          rw [hnone]
        · intro r2 c2 h2 hne2
          by_cases hrr : r = r2
          · subst hrr
            have hcc : c2 ≠ c := fun h => hne2 ⟨rfl, h⟩
            have hRHS : M.getval r c2 =
                match ((((M.rows r).takeWhile fun i => decide (colOf M i < c))) ++ rest).find?
                  (fun i => colOf M i == c2) with
                | some i => elOf M i
                | none => 0 := by
              unfold Matrix.getval
              conv_lhs => rw [hrdec]
              rw [find?_middle (x := i0) (p := fun i => colOf M i == c2)
                (show ¬ ((fun i => colOf M i == c2) i0 = true) from by
                  show ¬ (colOf M i0 == c2) = true
                  rw [hc0]
                  simp only [beq_iff_eq]
                  exact fun h => hcc h.symm)]
            rw [hRHS]
            unfold Matrix.getval
            rw [hrowsr]
            rw [find?_congr (fun x hx => by
              show (colOf M2 x == c2) = (colOf M x == c2)
              rw [(hpres x (rows_mem_lt hW hr x (hsubrest.mem hx))).2.1])]
            cases hf : ((((M.rows r).takeWhile fun i => decide (colOf M i < c))) ++ rest).find?
                (fun i => colOf M i == c2) with
            | none => rfl
            | some x =>
              have hxm : x ∈ M.rows r := hsubrest.mem (List.mem_of_find?_eq_some hf)
              exact (hpres x (rows_mem_lt hW hr x hxm)).2.2
          · refine getval_congr (hrows2 r2 h2 (Ne.symm hrr)) ?_ ?_ c2
            · intro i hi
              exact (hpres i (rows_mem_lt hW h2 i hi)).2.1
            · intro i hi
              exact (hpres i (rows_mem_lt hW h2 i hi)).2.2
        · intro _
          constructor
          · intro i hi
            rw [hrowsr] at hi
            have hxm : i ∈ M.rows r := hsubrest.mem hi
            have heq := (hpres i (rows_mem_lt hW hr i hxm)).2.1
            rw [heq]
            rcases List.mem_append.mp hi with h1 | h1
            · have hxlt := takeWhile_lt (k := colOf M) (x := c) i h1
              omega
            · have hgt := (List.pairwise_cons.mp hPd).1 i h1
              rw [hc0] at hgt
              omega
          · intro i hi
            rw [hcolsc] at hi
            have him : i ∈ M.cols c := hKsub.mem hi
            have hlt := cols_mem_lt hW hc i him
            have heq := (hpres i hlt).1
            rw [heq]
            rcases List.mem_append.mp hi with h1 | h1
            · have hlt2 := (List.pairwise_append.mp hKP2).2.2 i h1 i0 (List.mem_cons_self _ _)
              rw [hi0row] at hlt2
              exact Nat.ne_of_lt hlt2
            · have hlt2 := (List.pairwise_cons.mp (List.pairwise_append.mp hKP2).2.1).1 i h1
              rw [hi0row] at hlt2
              exact Ne.symm (Nat.ne_of_lt hlt2)
      · rw [if_neg hv]
        rw [getElem?_arena_eq hi0lt]
        dsimp only
        obtain ⟨hWf2, hgv, hframe⟩ := setitem_overwrite hW hr hc hdwl hc0 v
        exact ⟨_, rfl, hWf2, rfl, rfl, hgv, hframe, fun h0 => absurd h0 hv⟩
    · rw [if_neg hc0]
      dsimp only
      have habs : ∀ i ∈ M.rows r, colOf M i ≠ c := by
        intro i hi
        have hi2 := hi
        rw [hrdec] at hi2
        rcases List.mem_append.mp hi2 with h1 | h1
        · have hxlt := takeWhile_lt (k := colOf M) (x := c) i h1
          omega
        · rcases List.mem_cons.mp h1 with h2 | h2
          · rw [h2]
            exact hc0
          · have hgt := (List.pairwise_cons.mp hPd).1 i h2
            omega
      exact setitem_absent hW hr hc habs v

theorem mk0_rowChain {nr nc r : Nat} (hr : r < nr) :
    (Matrix.mk0 nr nc).rowChain r = some [] := by
  unfold Matrix.rowChain Matrix.mk0
  dsimp only
  rw [List.getElem?_replicate, if_pos hr]
  rfl

theorem mk0_colChain {nr nc c : Nat} (hc : c < nc) :
    (Matrix.mk0 nr nc).colChain c = some [] := by
  unfold Matrix.colChain Matrix.mk0
  dsimp only
  rw [List.getElem?_replicate, if_pos hc]
  rfl

theorem wf0 (nr nc : Nat) : (Matrix.mk0 nr nc).WfP := by
  have hrow : ∀ r2, r2 < nr → (Matrix.mk0 nr nc).rowChain r2 = some [] :=
    fun _ h => mk0_rowChain h
  have hcol : ∀ c2, c2 < nc → (Matrix.mk0 nr nc).colChain c2 = some [] :=
    fun _ h => mk0_colChain h
  have hrows : ∀ r2, r2 < nr → (Matrix.mk0 nr nc).rows r2 = [] :=
    fun r2 h => rows_eq_of_rowChain (hrow r2 h)
  have hcols : ∀ c2, c2 < nc → (Matrix.mk0 nr nc).cols c2 = [] :=
    fun c2 h => cols_eq_of_colChain (hcol c2 h)
  refine ⟨by simp [Matrix.mk0], by simp [Matrix.mk0], ?_, ?_, ?_, ?_, ?_, ?_, ?_⟩
  · intro r2 h2
    rw [hrows r2 h2]
    exact hrow r2 h2
  · intro c2 h2
    rw [hcols c2 h2]
    exact hcol c2 h2
  · intro r2 h2 i hi
    rw [hrows r2 h2] at hi
    exact absurd hi (List.not_mem_nil i)
  · intro c2 h2 i hi
    rw [hcols c2 h2] at hi
    exact absurd hi (List.not_mem_nil i)
  · intro r2 h2
    rw [hrows r2 h2]
    trivial
  · intro c2 h2
    rw [hcols c2 h2]
    trivial
  · intro i
    constructor
    · rintro ⟨r2, h2, hi⟩
      rw [hrows r2 h2] at hi
      exact absurd hi (List.not_mem_nil i)
    · rintro ⟨c2, h2, hi⟩
      rw [hcols c2 h2] at hi
      exact absurd hi (List.not_mem_nil i)

theorem applySets_wf : ∀ (ops : List (Nat × Nat × Int)) (M : Matrix), M.WfP →
    (∀ op ∈ ops, op.1 < M.nrows ∧ op.2.1 < M.ncols) →
    ∃ M2, applySets M ops = some M2 ∧ M2.WfP ∧ M2.nrows = M.nrows ∧ M2.ncols = M.ncols := by
  intro ops
  induction ops with
  | nil =>
    intro M hW _
    exact ⟨M, rfl, hW, rfl, rfl⟩
  | cons op ops ih =>
    intro M hW hops
    obtain ⟨r, c, v⟩ := op
    have h1 := hops (r, c, v) (List.mem_cons_self _ _)
    obtain ⟨M1, hset, hW1, hnr1, hnc1, _, _, _⟩ := setitem_spec hW h1.1 h1.2 v
    obtain ⟨M2, happ, hW2, hnr2, hnc2⟩ := ih M1 hW1 (fun op2 hop2 => by
      rw [hnr1, hnc1]
      exact hops op2 (List.mem_cons_of_mem _ hop2))
    refine ⟨M2, ?_, hW2, hnr2.trans hnr1, hnc2.trans hnc1⟩
    show (M.setitem r c v).bind (fun Mx => applySets Mx ops) = some M2
    rw [hset]
    exact happ

/-- C7: after any sequence of in-range `set` calls on a freshly constructed
matrix, the structural invariants hold: every row chain carries its row index
with strictly increasing columns, every column chain carries its column index
with strictly increasing rows, the entries reachable from row heads and from
column heads are the same set (`wfb` bundles I1, I2 and I4), and every entry
lies in exactly one row chain and exactly one column chain. -/
theorem C7_invariants (nr nc : Nat) (ops : List (Nat × Nat × Int))
    (hops : ∀ op ∈ ops, op.1 < nr ∧ op.2.1 < nc) :
    ∃ M2, applySets (Matrix.mk0 nr nc) ops = some M2 ∧ M2.wfb = true ∧
      (∀ i r1 r2, r1 < M2.nrows → r2 < M2.nrows → i ∈ M2.rows r1 → i ∈ M2.rows r2 →
        r1 = r2) ∧
      (∀ i c1 c2, c1 < M2.ncols → c2 < M2.ncols → i ∈ M2.cols c1 → i ∈ M2.cols c2 →
        c1 = c2) := by
  obtain ⟨M2, happ, hW2, hnr, hnc⟩ := applySets_wf ops (Matrix.mk0 nr nc) (wf0 nr nc) hops
  refine ⟨M2, happ, wfb_iff.mpr hW2, ?_, ?_⟩
  · intro i r1 r2 h1 h2 hi1 hi2
    have hA := (hW2.rowsLabel r1 h1 i hi1).1
    have hB := (hW2.rowsLabel r2 h2 i hi2).1
    rw [← hA, ← hB]
  · intro i c1 c2 h1 h2 hi1 hi2
    have hA := (hW2.colsLabel c1 h1 i hi1).1
    have hB := (hW2.colsLabel c2 h2 i hi2).1
    rw [← hA, ← hB]

theorem C7_invariants_witness :
    (∀ op ∈ [((0 : Nat), (0 : Nat), (5 : Int))], op.1 < 1 ∧ op.2.1 < 1) ∧
    (∃ M2, applySets (Matrix.mk0 1 1) [((0 : Nat), (0 : Nat), (5 : Int))] = some M2 ∧
      M2.wfb = true ∧
      (∀ i r1 r2, r1 < M2.nrows → r2 < M2.nrows → i ∈ M2.rows r1 → i ∈ M2.rows r2 →
        r1 = r2) ∧
      (∀ i c1 c2, c1 < M2.ncols → c2 < M2.ncols → i ∈ M2.cols c1 → i ∈ M2.cols c2 →
        c1 = c2)) :=
  ⟨by decide, C7_invariants 1 1 [((0 : Nat), (0 : Nat), (5 : Int))] (by decide)⟩

/-- C8: on a well-formed matrix, `set(M, r, c, v)` succeeds and `get` then
returns `v` at `(r, c)`; when `v = 0` the coordinate `(r, c)` has no entry in
the row chain of `r` or the column chain of `c`. -/
theorem C8_set_get_roundtrip {M : Matrix} (hwf : M.wfb = true) {r c : Nat}
    (hr : r < M.nrows) (hc : c < M.ncols) (v : Int) :
    ∃ M2, M.setitem r c v = some M2 ∧
      M2.getitem r c = some v ∧
      (v = 0 → (∀ i ∈ M2.rows r, ¬(rowOf M2 i = r ∧ colOf M2 i = c)) ∧
        (∀ i ∈ M2.cols c, ¬(rowOf M2 i = r ∧ colOf M2 i = c))) := by
  have hW := wfb_iff.mp hwf
  obtain ⟨M2, hset, hW2, hnr, hnc, hgv, _, habs⟩ := setitem_spec hW hr hc v
  refine ⟨M2, hset, ?_, ?_⟩
  · rw [getitem_eq_getval hW2 (show r < M2.nrows by rw [hnr]; exact hr) c, hgv]
  · intro h0
    obtain ⟨ha, hb⟩ := habs h0
    exact ⟨fun i hi hrc => ha i hi hrc.2, fun i hi hrc => hb i hi hrc.1⟩

theorem C8_set_get_roundtrip_witness :
    oneByOne.wfb = true ∧ 0 < oneByOne.nrows ∧ 0 < oneByOne.ncols ∧
    (∃ M2, oneByOne.setitem 0 0 3 = some M2 ∧
      M2.getitem 0 0 = some 3 ∧
      ((3 : Int) = 0 → (∀ i ∈ M2.rows 0, ¬(rowOf M2 i = 0 ∧ colOf M2 i = 0)) ∧
        (∀ i ∈ M2.cols 0, ¬(rowOf M2 i = 0 ∧ colOf M2 i = 0)))) :=
  ⟨by decide, by decide, by decide,
    C8_set_get_roundtrip (by decide) (by decide) (by decide) 3⟩

/-- C10: on a well-formed matrix, `set(M, r, c, v)` leaves the value read by
`get` at every other in-range coordinate unchanged. -/
theorem C10_set_frame {M : Matrix} (hwf : M.wfb = true) {r c : Nat}
    (hr : r < M.nrows) (hc : c < M.ncols) (v : Int) {N : Matrix}
    (hset : M.setitem r c v = some N) :
    ∀ r2 c2, r2 < M.nrows → c2 < M.ncols → ¬(r2 = r ∧ c2 = c) →
      N.getitem r2 c2 = M.getitem r2 c2 := by
  have hW := wfb_iff.mp hwf
  obtain ⟨M2b, hset2, hW2, hnr, hnc, _, hframe, _⟩ := setitem_spec hW hr hc v
  rw [hset] at hset2
  have hMeq : N = M2b := Option.some.inj hset2
  subst hMeq
  intro r2 c2 h2 hcc2 hne
  rw [getitem_eq_getval hW2 (show r2 < N.nrows by rw [hnr]; exact h2) c2,
    getitem_eq_getval hW h2 c2, hframe r2 c2 h2 hne]

theorem C10_set_frame_witness :
    addBugA.wfb = true ∧ 0 < addBugA.nrows ∧ 0 < addBugA.ncols ∧
    addBugA.setitem 0 0 3 =
      some ⟨1, 3, [some 0], [some 0, none, none], [⟨0, 0, 3, none, none⟩]⟩ ∧
    0 < addBugA.nrows ∧ 1 < addBugA.ncols ∧ ¬((0 : Nat) = 0 ∧ (1 : Nat) = 0) ∧
    Matrix.getitem ⟨1, 3, [some 0], [some 0, none, none], [⟨0, 0, 3, none, none⟩]⟩ 0 1 =
      addBugA.getitem 0 1 :=
  ⟨by decide, by decide, by decide, by decide, by decide, by decide, by decide,
    C10_set_frame (M := addBugA) (r := 0) (c := 0)
      (N := ⟨1, 3, [some 0], [some 0, none, none], [⟨0, 0, 3, none, none⟩]⟩)
      (by decide) (by decide) (by decide) 3 (by decide) 0 1 (by decide) (by decide)
      (by decide)⟩

end SpLL
